import Mathlib

/-!
Verification of the instruction-level simplifier (simplify.c / linearize.h).

The development shallowly embeds the C sources: machine integers (long long /
unsigned long long) are modelled as `Int` / `Nat` with explicit wrapping
(`% 2 ^ 64`), pointer-linked IR objects are modelled as index-addressed stores,
and the mutually recursive dead-code cascade is modelled with an explicit fuel
parameter.  Definitions follow the C control flow line by line; the few
functions whose definitions live outside the provided sources (linearize.c,
flow.h, opcode.c) are modelled from the specification text and say so in their
doc comments.
-/

set_option maxHeartbeats 1000000

namespace Sparse

/-- Opcode enumeration, transcribed from linearize.h (`enum opcode`). -/
inductive Opcode
  | BADOP
  | ENTRY
  | RET | BR | CBR | SWITCH | COMPUTEDGOTO
  | ADD | SUB | MUL | DIVU | DIVS | MODU | MODS | SHL | LSR | ASR
  | FADD | FSUB | FMUL | FDIV
  | AND | OR | XOR | AND_BOOL | OR_BOOL
  | FCMP_ORD | FCMP_OEQ | FCMP_ONE | FCMP_OLE | FCMP_OGE | FCMP_OLT | FCMP_OGT
  | FCMP_UEQ | FCMP_UNE | FCMP_ULE | FCMP_UGE | FCMP_ULT | FCMP_UGT | FCMP_UNO
  | SET_EQ | SET_NE | SET_LE | SET_GE | SET_LT | SET_GT
  | SET_B | SET_A | SET_BE | SET_AE
  | NOT | NEG | FNEG
  | SEL
  | LOAD | STORE | SETVAL | SETFVAL | SYMADDR
  | PHI | PHISOURCE
  | CAST | SCAST | FPCAST | PTRCAST
  | INLINED_CALL | CALL | SLICE | NOP | DEATHNOTE | ASM
  | CONTEXT | RANGE
  | COPY
  deriving DecidableEq, Repr

namespace Opcode

/-- The numeric range `OP_BINARY ... OP_BINARY_END` of the C enum
(ADD through OR_BOOL, floating binops included). -/
def isBinaryRange : Opcode → Bool
  | ADD | SUB | MUL | DIVU | DIVS | MODU | MODS | SHL | LSR | ASR
  | FADD | FSUB | FMUL | FDIV
  | AND | OR | XOR | AND_BOOL | OR_BOOL => true
  | _ => false

/-- The numeric range `OP_FPCMP ... OP_FPCMP_END` of the C enum. -/
def isFpcmpRange : Opcode → Bool
  | FCMP_ORD | FCMP_OEQ | FCMP_ONE | FCMP_OLE | FCMP_OGE | FCMP_OLT | FCMP_OGT
  | FCMP_UEQ | FCMP_UNE | FCMP_ULE | FCMP_UGE | FCMP_ULT | FCMP_UGT | FCMP_UNO => true
  | _ => false

/-- The numeric range `OP_BINCMP ... OP_BINCMP_END` of the C enum. -/
def isBincmpRange : Opcode → Bool
  | SET_EQ | SET_NE | SET_LE | SET_GE | SET_LT | SET_GT
  | SET_B | SET_A | SET_BE | SET_AE => true
  | _ => false

/-- The numeric range `OP_BINARY ... OP_BINCMP_END` of the C enum, as used by
the `case OP_BINARY ... OP_BINCMP_END` labels in simplify.c. -/
def isBinaryToBincmpEnd (op : Opcode) : Bool :=
  op.isBinaryRange || op.isFpcmpRange || op.isBincmpRange

/-- The numeric range `OP_FPCMP ... OP_BINCMP_END` used by
`simplify_seteq_setne`. -/
def isFpcmpToBincmpEnd (op : Opcode) : Bool :=
  op.isFpcmpRange || op.isBincmpRange

/-- Modelled from the spec: opcode.c's `opcode_table[...].swap` field is not in
the provided sources.  Per the spec (section 4.4 and section 6) it maps each
comparison to its operand-swapped counterpart: `<` becomes `>` etc., equality
tests are their own swap. -/
def swap : Opcode → Opcode
  | SET_EQ => SET_EQ
  | SET_NE => SET_NE
  | SET_LE => SET_GE
  | SET_GE => SET_LE
  | SET_LT => SET_GT
  | SET_GT => SET_LT
  | SET_B => SET_A
  | SET_A => SET_B
  | SET_BE => SET_AE
  | SET_AE => SET_BE
  | op => op

/-- Modelled from the spec: opcode.c's `opcode_table[...].negate` field is not
in the provided sources.  Per the spec (section 4.5 and section 6) it maps each
comparison to its logical negation; for the floating comparisons the negation
flips the ordered/unordered variant. -/
def negate : Opcode → Opcode
  | SET_EQ => SET_NE
  | SET_NE => SET_EQ
  | SET_LE => SET_GT
  | SET_GE => SET_LT
  | SET_LT => SET_GE
  | SET_GT => SET_LE
  | SET_B => SET_AE
  | SET_A => SET_BE
  | SET_BE => SET_A
  | SET_AE => SET_B
  | FCMP_ORD => FCMP_UNO
  | FCMP_UNO => FCMP_ORD
  | FCMP_OEQ => FCMP_UNE
  | FCMP_UNE => FCMP_OEQ
  | FCMP_ONE => FCMP_UEQ
  | FCMP_UEQ => FCMP_ONE
  | FCMP_OLE => FCMP_UGT
  | FCMP_UGT => FCMP_OLE
  | FCMP_OGE => FCMP_ULT
  | FCMP_ULT => FCMP_OGE
  | FCMP_OLT => FCMP_UGE
  | FCMP_UGE => FCMP_OLT
  | FCMP_OGT => FCMP_ULE
  | FCMP_ULE => FCMP_OGT
  | op => op

end Opcode

/-! ## Host integer arithmetic

`long long` values are modelled as `Int`; operations that wrap on the host are
made explicit with `wrap64`. -/

/-- Reinterpret an integer as a 64-bit two's-complement signed value
(the effect of storing into a `long long`). -/
def wrap64 (x : Int) : Int := (x + 2 ^ 63) % 2 ^ 64 - 2 ^ 63

/-- The C local `mask = 1ULL << (size-1)` of `eval_insn`, converted to
`long long`: for size 64 the pattern `2^63` reads back as `-2^63`. -/
def cmask (n : Nat) : Int := if n = 64 then -(2 ^ 63) else 2 ^ (n - 1)

/-- The quasi sign-extension computed by `eval_insn`'s prologue
(`if (left & mask) left |= ~bits;`): when bit `n-1` of the low `n` bits is
set, all bits from `n` upward are forced to 1, giving `low - 2^n`;
otherwise the value is left untouched (its high bits are NOT cleared). -/
def sextC (n : Nat) (a : Int) : Int :=
  if 2 ^ (n - 1) ≤ a % 2 ^ n then a % 2 ^ n - 2 ^ n else a

/-- Mathematical sign extension of the low `n` bits. -/
def sext (n : Nat) (a : Int) : Int :=
  (a + 2 ^ (n - 1)) % 2 ^ n - 2 ^ (n - 1)

/-- Zero extension of the low `n` bits (`left & bits` as unsigned). -/
def zext (n : Nat) (a : Int) : Nat := (a % 2 ^ n).toNat

/-- The final `res &= bits` of `eval_insn`: for size 64 `bits` is `-1` and the
masking is the identity; below 64 it keeps the low `n` bits
(`x & (2^n - 1) = x mod 2^n`). -/
def maskBits (n : Nat) (x : Int) : Int := if n = 64 then x else x % 2 ^ n

/-- The 64-bit pattern of a `long long` value, as a natural number; used to
express the C bitwise operators on signed operands. -/
def pat64 (x : Int) : Nat := (x % 2 ^ 64).toNat

/-- `eval_insn` (simplify.c): constant-fold a binary instruction whose two
operands are the values `v1`, `v2` and whose result width is `size`.  Returns
`none` where the C returns `NULL` (no fold).  C remarks: signed division is
`Int.tdiv`/`Int.tmod` (truncation toward zero); `<<`/`>>` on out-of-range
shift counts is undefined behaviour in C, modelled here as the wrapped
product/quotient (the theorems only use in-range shifts); signed `>>` is the
arithmetic shift (floor division), as on every supported host. -/
def eval_insn (op : Opcode) (size : Nat) (v1 v2 : Int) : Option Int :=
  let left := sextC size v1
  let right := sextC size v2
  let ul : Nat := zext size v1
  let ur : Nat := zext size v2
  let res? : Option Int :=
    match op with
    | .ADD => some (wrap64 (left + right))
    | .SUB => some (wrap64 (left - right))
    | .MUL => some (wrap64 ((ul : Int) * (ur : Int)))
    | .DIVU => if ur = 0 then none else some (wrap64 ((ul / ur : Nat) : Int))
    | .DIVS =>
        if right = 0 then none
        else if left = cmask size ∧ right = -1 then none
        else some (wrap64 (Int.tdiv left right))
    | .MODU => if ur = 0 then none else some (wrap64 ((ul % ur : Nat) : Int))
    | .MODS =>
        if right = 0 then none
        else if left = cmask size ∧ right = -1 then none
        else some (wrap64 (Int.tmod left right))
    | .SHL => some (wrap64 (left * 2 ^ right.toNat))
    | .LSR => some (wrap64 ((ul >>> ur : Nat) : Int))
    | .ASR => some (left / 2 ^ right.toNat)
    | .AND => some (wrap64 ((pat64 left &&& pat64 right : Nat) : Int))
    | .OR => some (wrap64 ((pat64 left ||| pat64 right : Nat) : Int))
    | .XOR => some (wrap64 ((pat64 left ^^^ pat64 right : Nat) : Int))
    | .AND_BOOL => some (if left ≠ 0 ∧ right ≠ 0 then 1 else 0)
    | .OR_BOOL => some (if left ≠ 0 ∨ right ≠ 0 then 1 else 0)
    | .SET_EQ => some (if left = right then 1 else 0)
    | .SET_NE => some (if left ≠ right then 1 else 0)
    | .SET_LE => some (if left ≤ right then 1 else 0)
    | .SET_GE => some (if right ≤ left then 1 else 0)
    | .SET_LT => some (if left < right then 1 else 0)
    | .SET_GT => some (if right < left then 1 else 0)
    | .SET_B => some (if ul < ur then 1 else 0)
    | .SET_A => some (if ur < ul then 1 else 0)
    | .SET_BE => some (if ul ≤ ur then 1 else 0)
    | .SET_AE => some (if ur ≤ ul then 1 else 0)
    | _ => none
  res?.map (maskBits size)

/-- Specification-side evaluator, written from the spec's words (section 4.3
and claim C2): operate on the `n`-bit two's-complement operands — signed
operations on the sign-extended values, unsigned ones on the zero-extended
values, comparisons yielding 0/1 — and mask the result to `n` bits
(represented as the non-negative residue modulo `2^n`).  `none` marks the
undefined outcomes; per the correction established below, the signed-overflow
pair (MIN, -1) aborts the fold only at width 64. -/
def evalSpec (op : Opcode) (n : Nat) (a b : Int) : Option Int :=
  let l := sext n a
  let r := sext n b
  let ua : Nat := zext n a
  let ub : Nat := zext n b
  match op with
  | .ADD => some ((l + r) % 2 ^ n)
  | .SUB => some ((l - r) % 2 ^ n)
  | .MUL => some (((ua : Int) * (ub : Int)) % 2 ^ n)
  | .DIVU => if ub = 0 then none else some (((ua / ub : Nat) : Int) % 2 ^ n)
  | .DIVS =>
      if r = 0 then none
      else if n = 64 ∧ l = -(2 ^ 63) ∧ r = -1 then none
      else some (Int.tdiv l r % 2 ^ n)
  | .MODU => if ub = 0 then none else some (((ua % ub : Nat) : Int) % 2 ^ n)
  | .MODS =>
      if r = 0 then none
      else if n = 64 ∧ l = -(2 ^ 63) ∧ r = -1 then none
      else some (Int.tmod l r % 2 ^ n)
  | .SHL => some ((l * 2 ^ r.toNat) % 2 ^ n)
  | .LSR => some (((ua >>> ub : Nat) : Int) % 2 ^ n)
  | .ASR => some ((l / 2 ^ r.toNat) % 2 ^ n)
  | .AND => some ((ua &&& ub : Nat) : Int)
  | .OR => some ((ua ||| ub : Nat) : Int)
  | .XOR => some ((ua ^^^ ub : Nat) : Int)
  | .AND_BOOL => some (if l ≠ 0 ∧ r ≠ 0 then 1 else 0)
  | .OR_BOOL => some (if l ≠ 0 ∨ r ≠ 0 then 1 else 0)
  | .SET_EQ => some (if l = r then 1 else 0)
  | .SET_NE => some (if l ≠ r then 1 else 0)
  | .SET_LE => some (if l ≤ r then 1 else 0)
  | .SET_GE => some (if r ≤ l then 1 else 0)
  | .SET_LT => some (if l < r then 1 else 0)
  | .SET_GT => some (if r < l then 1 else 0)
  | .SET_B => some (if ua < ub then 1 else 0)
  | .SET_A => some (if ub < ua then 1 else 0)
  | .SET_BE => some (if ua ≤ ub then 1 else 0)
  | .SET_AE => some (if ub ≤ ua then 1 else 0)
  | _ => none

/-- Definedness of the shift amount for the shift opcodes: the C abstract
machine leaves `<<`/`>>` undefined outside `[0, width)`. -/
def shiftOk (op : Opcode) (n : Nat) (b : Int) : Prop :=
  match op with
  | .SHL | .LSR | .ASR => 0 ≤ sext n b ∧ sext n b < (n : Int)
  | _ => True

/-! ## IR data model

Pseudos and instructions are arena-allocated in C and referenced by pointer;
here they live in index-addressed lists and are referenced by their index.
`PseudoRef` mirrors `pseudo_t`: the VOID singleton and the interned VAL
pseudos are immediate (pointer equality on them coincides with structural
equality, as `value_pseudo` interns by value), all other pseudos are heap
references.  A null `pseudo_t` is `PseudoRef.null`. -/

inductive SlotName
  | s1 | s2 | s3 | tgt | phiEnt (i : Nat) | argEnt (i : Nat)
  deriving DecidableEq, Repr

/-- The address of an operand slot (`pseudo_t *`): the owning instruction and
which of its operand fields.  The C union overlays `src`, `src1`, `cond`,
`phi_src`, `symbol` and `func` at one offset: they are all `s1`. -/
structure Slot where
  insn : Nat
  name : SlotName
  deriving DecidableEq, Repr

inductive PseudoRef
  | null
  | void
  | val (v : Int)
  | id (n : Nat)
  deriving DecidableEq, Repr

/-- The discriminant (and union payload) of a heap pseudo. -/
inductive PseudoKind
  | reg (defi : Nat)
  | sym (isPure : Bool)
  | arg
  | phi (defi : Nat)
  deriving DecidableEq, Repr

structure Pseudo where
  kind : PseudoKind
  users : List Slot
  deriving DecidableEq, Repr

/-- The slice of `struct symbol` the simplifier consults: `bit_size` plus the
modifier/type predicates (`MOD_SIGNED`, `MOD_VOLATILE`, `is_ptr_type`,
`is_float_type`). -/
structure CType where
  bitSize : Nat
  signed : Bool
  volat : Bool
  isPtr : Bool
  isFloat : Bool
  deriving DecidableEq, Repr

def defaultCType : CType := ⟨0, false, false, false, false⟩

/-- One `struct multijmp` entry: target block and the inclusive case range
`begin`/`end` (a default case has begin > end). -/
structure Multijmp where
  target : Nat
  begi : Int
  endi : Int
  deriving DecidableEq, Repr

structure Instruction where
  opcode : Opcode
  size : Nat := 0
  bb : Option Nat := none
  typ : CType := defaultCType
  origType : Option CType := none
  target : PseudoRef := PseudoRef.null
  slot1 : PseudoRef := PseudoRef.null
  slot2 : PseudoRef := PseudoRef.null
  slot3 : PseudoRef := PseudoRef.null
  bbTrue : Option Nat := none
  bbFalse : Option Nat := none
  phiList : List PseudoRef := []
  arguments : List PseudoRef := []
  multijmpList : List Multijmp := []
  offset : Int := 0
  deriving DecidableEq, Repr

structure BasicBlock where
  parents : List Nat := []
  children : List Nat := []
  insns : List Nat := []
  deriving DecidableEq, Repr

/-- The whole mutable state the simplifier touches: the pseudo/instruction/
block stores, the process-wide `repeat_phase`, the warning sink and the
`Wtautological_compare` flag. -/
structure IR where
  pseudos : List Pseudo := []
  insns : List Instruction := []
  blocks : List BasicBlock := []
  repeatPhase : Nat := 0
  warnings : List String := []
  Wtautological_compare : Bool := false
  deriving DecidableEq, Repr

/-- Modelled from the spec: flow.h's phase-bit values are not in the provided
sources; the spec fixes the three bit names (Glossary, section 4.7). -/
def REPEAT_CSE : Nat := 1

/-- Modelled from the spec: see `REPEAT_CSE`. -/
def REPEAT_SYMBOL_CLEANUP : Nat := 2

/-- Modelled from the spec: see `REPEAT_CSE`. -/
def REPEAT_CFG_CLEANUP : Nat := 4

def defaultPseudo : Pseudo := ⟨.arg, []⟩

def defaultInsn : Instruction := { opcode := .BADOP }

def defaultBB : BasicBlock := {}

def IR.pseudoAt (s : IR) (n : Nat) : Pseudo := s.pseudos.getD n defaultPseudo

def IR.insnAt (s : IR) (i : Nat) : Instruction := s.insns.getD i defaultInsn

def IR.bbAt (s : IR) (b : Nat) : BasicBlock := s.blocks.getD b defaultBB

def IR.updPseudo (s : IR) (n : Nat) (f : Pseudo → Pseudo) : IR :=
  { s with pseudos := s.pseudos.set n (f (s.pseudoAt n)) }

def IR.updInsn (s : IR) (i : Nat) (f : Instruction → Instruction) : IR :=
  { s with insns := s.insns.set i (f (s.insnAt i)) }

def IR.updBB (s : IR) (b : Nat) (f : BasicBlock → BasicBlock) : IR :=
  { s with blocks := s.blocks.set b (f (s.bbAt b)) }

def Instruction.readSlot (insn : Instruction) : SlotName → PseudoRef
  | .s1 => insn.slot1
  | .s2 => insn.slot2
  | .s3 => insn.slot3
  | .tgt => insn.target
  | .phiEnt i => insn.phiList.getD i .void
  | .argEnt i => insn.arguments.getD i .void

def Instruction.writeSlot (insn : Instruction) : SlotName → PseudoRef → Instruction
  | .s1, p => { insn with slot1 := p }
  | .s2, p => { insn with slot2 := p }
  | .s3, p => { insn with slot3 := p }
  | .tgt, p => { insn with target := p }
  | .phiEnt i, p => { insn with phiList := insn.phiList.set i p }
  | .argEnt i, p => { insn with arguments := insn.arguments.set i p }

def IR.readSlot (s : IR) (sl : Slot) : PseudoRef := (s.insnAt sl.insn).readSlot sl.name

def IR.writeSlot (s : IR) (sl : Slot) (p : PseudoRef) : IR :=
  s.updInsn sl.insn (fun insn => insn.writeSlot sl.name p)

/-- `has_use_list` (linearize.h): non-null, not VOID, not VAL. -/
def has_use_list : PseudoRef → Bool
  | .id _ => true
  | _ => false

def PseudoRef.isVal : PseudoRef → Bool
  | .val _ => true
  | _ => false

/-- Reading `pseudo->value`; callers guard with `constant()`, reading any
other variant would be a type-punned union access in C. -/
def PseudoRef.value : PseudoRef → Int
  | .val v => v
  | _ => 0

/-- `is_zero` (linearize.h). -/
def is_zero : PseudoRef → Bool
  | .val v => decide (v = 0)
  | _ => false

def IR.isSym (s : IR) (p : PseudoRef) : Bool :=
  match p with
  | .id n => match (s.pseudoAt n).kind with
    | .sym _ => true
    | _ => false
  | _ => false

def IR.isReg (s : IR) (p : PseudoRef) : Bool :=
  match p with
  | .id n => match (s.pseudoAt n).kind with
    | .reg _ => true
    | _ => false
  | _ => false

/-- `p->users` (empty for VAL/VOID/null, as those have no use list). -/
def IR.usersOf (s : IR) (p : PseudoRef) : List Slot :=
  match p with
  | .id n => (s.pseudoAt n).users
  | _ => []

/-- `p->def` of a heap pseudo.  For SYM/ARG pseudos the union holds no
instruction there (reading `->def` in C would be type-punned garbage):
modelled as `none`, and the sole consumer treats `none` like a null
instruction (no-op kill, as `kill_insn` rejects null). -/
def IR.pseudoDef (s : IR) (p : PseudoRef) : Option Nat :=
  match p with
  | .id n =>
    match (s.pseudoAt n).kind with
    | .reg d => some d
    | .phi d => some d
    | _ => none
  | _ => none

/-- The two OP_CALL killability checks of `kill_insn` folded into one: the
callee is a symbol pseudo and that symbol carries `MOD_PURE`. -/
def IR.calleePure (s : IR) (p : PseudoRef) : Bool :=
  match p with
  | .id n => match (s.pseudoAt n).kind with
    | .sym isPure => isPure
    | _ => false
  | _ => false

/-- `use_pseudo` (linearize.h): store `p` into the slot and, when `p` has a
use list, append the slot to it.  (The `insn` argument of the C function is
only stored in the `pseudo_user` record's `insn` field, which no code in the
sources ever reads; the slot address determines it.) -/
def use_pseudoF (p : PseudoRef) (sl : Slot) (s : IR) : IR :=
  let s1 := s.writeSlot sl p
  match p with
  | .id n => s1.updPseudo n (fun ps => { ps with users := ps.users ++ [sl] })
  | _ => s1

/-! ## Use-list removal and the kill cascade

`kill_insn` and `kill_use`/`rem_usage` are mutually recursive through
flow.h's `kill_instruction(insn) = kill_insn(insn, 0)`; the recursion is
bounded here by an explicit fuel parameter.  The helpers are parameterized by
the function used for the recursive kill, instantiated at one fuel less.
Exhausted fuel skips only the recursive cascade (a no-op kill), which the
theorems either avoid (the cascade provably does not trigger) or tolerate
(their conclusions are fuel-independent). -/

/-- `rem_usage` (simplify.c): for a pseudo with a use list, note the symbol
touch in `repeat_phase`, delete the first matching `(*, usep)` entry
(`delete_pseudo_user_list_entry` with count 1), and — when cascading and the
use list became empty — kill the defining instruction. -/
def rem_usageG (killI : Nat → IR → IR) (p : PseudoRef) (usep : Slot) (kill : Bool)
    (s : IR) : IR :=
  if has_use_list p then
    let s1 := if s.isSym p
      then { s with repeatPhase := s.repeatPhase ||| REPEAT_SYMBOL_CLEANUP }
      else s
    let s2 := match p with
      | .id n => s1.updPseudo n (fun ps => { ps with users := ps.users.erase usep })
      | _ => s1
    if kill ∧ s2.usersOf p = [] then
      match s2.pseudoDef p with
      | some d => killI d s2
      | none => s2
    else s2
  else s

/-- `kill_use` (simplify.c): read the slot, overwrite it with VOID, and remove
the usage (cascading). -/
def kill_useG (killI : Nat → IR → IR) (sl : Slot) (s : IR) : IR :=
  let p := s.readSlot sl
  let s1 := s.writeSlot sl .void
  rem_usageG killI p sl true s1

/-- `kill_use_list` (simplify.c): `kill_use` every non-VOID entry of a pseudo
list (the φ-list or a call's argument list), reading each entry from the
current state. -/
def kill_use_listG (killI : Nat → IR → IR) (i : Nat) (mk : Nat → SlotName) (len : Nat)
    (s : IR) : IR :=
  (List.range len).foldl (fun st j =>
    let p := st.readSlot ⟨i, mk j⟩
    if p = .void then st else kill_useG killI ⟨i, mk j⟩ st) s

/-- The operand-slot clean-up switch of `kill_insn`, shared structure with the
refusal checks already done.  Mirrors the C fall-throughs: SEL/RANGE kill
src3 then src2 then src1; the binary range kills src2 then src1; etc. -/
def kill_insn_slots (killI : Nat → IR → IR) (i : Nat) (op : Opcode) (s : IR) : IR :=
  let kU := kill_useG killI
  if op = .SEL ∨ op = .RANGE then kU ⟨i, .s1⟩ (kU ⟨i, .s2⟩ (kU ⟨i, .s3⟩ s))
  else if op.isBinaryToBincmpEnd then kU ⟨i, .s1⟩ (kU ⟨i, .s2⟩ s)
  else if op = .CAST ∨ op = .SCAST ∨ op = .FPCAST ∨ op = .PTRCAST ∨ op = .SETVAL ∨
      op = .NOT ∨ op = .NEG ∨ op = .SLICE then kU ⟨i, .s1⟩ s
  else if op = .PHI then kill_use_listG killI i SlotName.phiEnt (s.insnAt i).phiList.length s
  else if op = .PHISOURCE then kU ⟨i, .s1⟩ s
  else if op = .SYMADDR then { s with repeatPhase := s.repeatPhase ||| REPEAT_SYMBOL_CLEANUP }
  else if op = .CBR ∨ op = .COMPUTEDGOTO then kU ⟨i, .s1⟩ s
  else if op = .CALL then
    let sA := kill_use_listG killI i SlotName.argEnt (s.insnAt i).arguments.length s
    if sA.isReg ((sA.insnAt i).slot1) then kU ⟨i, .s1⟩ sA else sA
  else if op = .LOAD then kU ⟨i, .s1⟩ s
  else if op = .STORE then kU ⟨i, .tgt⟩ (kU ⟨i, .s1⟩ s)
  else s

/-- `kill_insn` (simplify.c), with fuel for the cascade.  Returns the C return
value together with the new state: 0 when the instruction is null/dead or the
kill is refused; otherwise the updated `repeat_phase` (which has REPEAT_CSE
set).  Fuel 0 is a non-C fallback that refuses. -/
def kill_insnF : Nat → Nat → Bool → IR → Nat × IR
  | 0, _, _, s => (0, s)
  | fuel + 1, i, force, s =>
    let killI : Nat → IR → IR := fun j st => (kill_insnF fuel j false st).2
    let insn := s.insnAt i
    if i < s.insns.length ∧ insn.bb ≠ none then
      let op := insn.opcode
      if op = .CALL ∧ ¬force ∧ ¬ s.calleePure insn.slot1 then (0, s)
      else if op = .LOAD ∧ ¬force ∧ insn.typ.volat then (0, s)
      else if op = .STORE ∧ ¬force then (0, s)
      else if op = .ENTRY then (0, s)
      else
        let s1 := kill_insn_slots killI i op s
        let s2 := s1.updInsn i (fun ins => { ins with bb := none })
        let s3 := { s2 with repeatPhase := s2.repeatPhase ||| REPEAT_CSE }
        (s3.repeatPhase, s3)
    else (0, s)

/-- Modelled from the spec: flow.h's `kill_instruction(insn)` is not in the
provided sources; per the spec's section 4.1/4.2 the cascade "recursively
kill[s] p.def" under the normal (force = 0) refusal rules. -/
def kill_instructionF (fuel i : Nat) (s : IR) : Nat × IR := kill_insnF fuel i false s

/-- The function plugged into the helpers for recursive kills. -/
def killOf (fuel : Nat) : Nat → IR → IR := fun j st => (kill_insnF fuel j false st).2

/-- `dead_insn` (simplify.c): if the target has users, do nothing; otherwise
mark the instruction dead and kill the given operand slots (null slot
pointers are skipped). -/
def dead_insn (fuel i : Nat) (sl1 sl2 sl3 : Option SlotName) (s : IR) : Bool × IR :=
  if s.usersOf (s.insnAt i).target ≠ [] then (false, s)
  else
    let s1 := s.updInsn i (fun ins => { ins with bb := none })
    let k := fun (o : Option SlotName) (st : IR) =>
      match o with
      | some nm => kill_useG (killOf fuel) ⟨i, nm⟩ st
      | none => st
    (true, k sl3 (k sl2 (k sl1 s1)))

/-- `has_users` (linearize.h). -/
def IR.has_users (s : IR) (p : PseudoRef) : Bool := s.usersOf p ≠ []

/-- Moving a batch of use-list entries onto a pseudo (no-op for VAL/VOID,
which have no use list). -/
def IR.appendUsers (s : IR) (q : PseudoRef) (entries : List Slot) : IR :=
  match q with
  | .id m => s.updPseudo m (fun ps => { ps with users := ps.users ++ entries })
  | _ => s

/-- Dropping a pseudo's whole use list (the entries have been moved). -/
def IR.clearUsers (s : IR) (q : PseudoRef) : IR :=
  match q with
  | .id n => s.updPseudo n (fun ps => { ps with users := [] })
  | _ => s

/-- Modelled from the spec: linearize.c's `convert_instruction_target` is not
in the provided sources.  Section 4.1 retarget: "for every (user, slot) in
old_target.users, write new_pseudo into *slot and move the entry into
new_pseudo.users (noop if new_pseudo is VAL/VOID).  Clears old_target.users."
Retargeting a pseudo to itself is a no-op. -/
def convert_instruction_target (i : Nat) (new : PseudoRef) (s : IR) : IR :=
  let tgt := (s.insnAt i).target
  if tgt = new then s
  else
    let entries := s.usersOf tgt
    (((entries.foldl (fun st sl => st.writeSlot sl new) s).appendUsers new
      entries).clearUsers tgt)

/-- `replace_with_pseudo` (simplify.c): retarget the instruction's users to
`p`, unbind the opcode's operand slots (the C `default:` asserts; it is
unreachable from the call sites, modelled as no clean-up), mark dead, return
REPEAT_CSE. -/
def replace_with_pseudo (fuel i : Nat) (p : PseudoRef) (s : IR) : Nat × IR :=
  let kU := kill_useG (killOf fuel)
  let s0 := convert_instruction_target i p s
  let op := (s0.insnAt i).opcode
  let s1 :=
    if op = .SEL ∨ op = .RANGE then kU ⟨i, .s1⟩ (kU ⟨i, .s2⟩ (kU ⟨i, .s3⟩ s0))
    else if op.isBinaryToBincmpEnd then kU ⟨i, .s1⟩ (kU ⟨i, .s2⟩ s0)
    else if op = .NOT ∨ op = .NEG ∨ op = .SYMADDR ∨ op = .CAST ∨ op = .SCAST ∨
        op = .FPCAST ∨ op = .PTRCAST then kU ⟨i, .s1⟩ s0
    else s0
  let s2 := s1.updInsn i (fun ins => { ins with bb := none })
  (REPEAT_CSE, s2)

/-- `constant` (simplify.c). -/
def constant (p : PseudoRef) : Bool := p.isVal

/-! ## Canonicalization -/

/-- `switch_pseudo` (simplify.c): four-step rebinding that exchanges the
contents of two slots while keeping use lists consistent. -/
def switch_pseudoF (fuel : Nat) (sl1 sl2 : Slot) (s : IR) : IR :=
  let p1 := s.readSlot sl1
  let p2 := s.readSlot sl2
  let s1 := use_pseudoF p2 sl1 s
  let s2 := use_pseudoF p1 sl2 s1
  let s3 := rem_usageG (killOf fuel) p1 sl1 true s2
  rem_usageG (killOf fuel) p2 sl2 true s3

/-- `canonical_order` (simplify.c): symbols/constants on the right. -/
def canonical_order (s : IR) (p1 p2 : PseudoRef) : Bool :=
  if p1.isVal then p2.isVal
  else if s.isSym p1 then s.isSym p2 || p2.isVal
  else true

/-- `canonicalize_commutative` (simplify.c). -/
def canonicalize_commutative (fuel i : Nat) (s : IR) : Nat × IR :=
  if canonical_order s ((s.insnAt i).slot1) ((s.insnAt i).slot2) then (0, s)
  else
    let s1 := switch_pseudoF fuel ⟨i, .s1⟩ ⟨i, .s2⟩ s
    let s2 := { s1 with repeatPhase := s1.repeatPhase ||| REPEAT_CSE }
    (s2.repeatPhase, s2)

/-- `canonicalize_compare` (simplify.c): like the commutative case but the
opcode is replaced by its swapped counterpart from the static table. -/
def canonicalize_compare (fuel i : Nat) (s : IR) : Nat × IR :=
  if canonical_order s ((s.insnAt i).slot1) ((s.insnAt i).slot2) then (0, s)
  else
    let s1 := switch_pseudoF fuel ⟨i, .s1⟩ ⟨i, .s2⟩ s
    let s2 := s1.updInsn i (fun ins => { ins with opcode := ins.opcode.swap })
    let s3 := { s2 with repeatPhase := s2.repeatPhase ||| REPEAT_CSE }
    (s3.repeatPhase, s3)

/-- `simple_pseudo` (simplify.c). -/
def simple_pseudo (s : IR) (p : PseudoRef) : Bool := p.isVal || s.isSym p

/-- `simplify_associative_binop` (simplify.c). -/
def simplify_associative_binop (fuel i : Nat) (s : IR) : Nat × IR :=
  let insn := s.insnAt i
  let pseudo := insn.slot1
  if ¬ simple_pseudo s insn.slot2 then (0, s)
  else if ¬ s.isReg pseudo then (0, s)
  else
    match s.pseudoDef pseudo with
    | none => (0, s)
    | some d =>
      if d = i then (0, s)
      else if (s.insnAt d).opcode ≠ insn.opcode then (0, s)
      else if ¬ simple_pseudo s ((s.insnAt d).slot2) then (0, s)
      else if (s.usersOf ((s.insnAt d).target)).length ≠ 1 then (0, s)
      else (REPEAT_CSE, switch_pseudoF fuel ⟨d, .s1⟩ ⟨i, .s2⟩ s)

/-! ## Peephole rewriters -/

/-- `value_size` (simplify.c); the `>>=` steps are arithmetic shifts of a
`long long`, i.e. floor division. -/
def value_size (value : Int) : Nat :=
  let v1 := value / 256
  if v1 = 0 then 8
  else
    let v2 := v1 / 256
    if v2 = 0 then 16
    else
      let v3 := v2 / 65536
      if v3 = 0 then 32 else 64

/-- `operand_size` (simplify.c). -/
def operand_size (s : IR) (i : Nat) (p : PseudoRef) : Nat :=
  let size := (s.insnAt i).size
  let size :=
    match p with
    | .id n =>
      (match (s.pseudoAt n).kind with
       | .reg d =>
         let src := s.insnAt d
         if src.opcode = .CAST then
           match src.origType with
           | some ot => if ot.bitSize < size then ot.bitSize else size
           | none => size
         else size
       | _ => size)
    | _ => size
  match p with
  | .val v =>
    let os := value_size v
    if os < size then os else size
  | _ => size

/-- `simplify_asr` (simplify.c): shift by at least the operand width warns and
folds to 0; shift by 0 drops to the operand. -/
def simplify_asr (fuel i : Nat) (p : PseudoRef) (value : Int) (s : IR) : Nat × IR :=
  let size := operand_size s i p
  if (size : Int) ≤ value then
    let s1 := { s with warnings := s.warnings ++ ["right shift by bigger than source value"] }
    replace_with_pseudo fuel i (.val 0) s1
  else if value = 0 then replace_with_pseudo fuel i p s
  else (0, s)

/-- `simplify_mul_div` (simplify.c).  `value & sbit` tests bit size-1 of the
value's pattern; `value |= ~bits` forces the bits from `size` upward to 1,
i.e. yields `value mod 2^size - 2^size`. -/
def simplify_mul_div (fuel i : Nat) (value : Int) (s : IR) : Nat × IR :=
  let insn := s.insnAt i
  if value = 1 then replace_with_pseudo fuel i insn.slot1 s
  else if insn.opcode = .MUL ∧ value = 0 then replace_with_pseudo fuel i insn.slot2 s
  else if insn.opcode = .MUL ∨ insn.opcode = .DIVS then
    if 2 ^ (insn.size - 1) ≤ value % 2 ^ insn.size then
      if value % 2 ^ insn.size - 2 ^ insn.size = -1 then
        (REPEAT_CSE, s.updInsn i (fun ins => { ins with opcode := .NEG }))
      else (0, s)
    else (0, s)
  else (0, s)

/-- `simplify_seteq_setne` (simplify.c). -/
def simplify_seteq_setne (fuel i : Nat) (value : Int) (s : IR) : Nat × IR :=
  let insn := s.insnAt i
  let old := insn.slot1
  if value ≠ 0 ∧ value ≠ 1 then (0, s)
  else
    match s.pseudoDef old with
    | none => (0, s)
    | some d =>
      let defI := s.insnAt d
      if defI.opcode.isFpcmpToBincmpEnd then
        let src1 := defI.slot1
        let src2 := defI.slot2
        let newop := if (insn.opcode = Opcode.SET_NE) ↔ value = 1
                     then defI.opcode.negate else defI.opcode
        let s1 := s.updInsn i (fun ins => { ins with opcode := newop })
        let s2 := use_pseudoF src1 ⟨i, .s1⟩ s1
        let s3 := use_pseudoF src2 ⟨i, .s2⟩ s2
        let s4 := rem_usageG (killOf fuel) old ⟨i, .s1⟩ true s3
        (REPEAT_CSE, s4)
      else (0, s)

/-- `simplify_constant_rightside` (simplify.c), including its gotos and
fall-throughs (OR_BOOL falls to the neutral-zero case; SUB with nonzero `c`
rewrites in place to `ADD src1, -c`). -/
def simplify_constant_rightside (fuel i : Nat) (s : IR) : Nat × IR :=
  let insn := s.insnAt i
  let value := insn.slot2.value
  match insn.opcode with
  | .OR_BOOL =>
    if value = 1 then replace_with_pseudo fuel i insn.slot2 s
    else if value = 0 then replace_with_pseudo fuel i insn.slot1 s
    else (0, s)
  | .SUB =>
    if value ≠ 0 then
      let s1 := s.updInsn i (fun ins =>
        { ins with opcode := .ADD, slot2 := .val (wrap64 (-value)) })
      (REPEAT_CSE, s1)
    else replace_with_pseudo fuel i insn.slot1 s
  | .ADD | .OR | .XOR | .SHL | .LSR =>
    if value = 0 then replace_with_pseudo fuel i insn.slot1 s else (0, s)
  | .ASR => simplify_asr fuel i insn.slot1 value s
  | .MODU | .MODS =>
    if value = 1 then replace_with_pseudo fuel i (.val 0) s else (0, s)
  | .DIVU | .DIVS | .MUL => simplify_mul_div fuel i value s
  | .AND_BOOL =>
    if value = 1 then replace_with_pseudo fuel i insn.slot1 s
    else if value = 0 then replace_with_pseudo fuel i insn.slot2 s
    else (0, s)
  | .AND =>
    if value = 0 then replace_with_pseudo fuel i insn.slot2 s else (0, s)
  | .SET_NE | .SET_EQ => simplify_seteq_setne fuel i value s
  | _ => (0, s)

/-- `simplify_constant_leftside` (simplify.c). -/
def simplify_constant_leftside (fuel i : Nat) (s : IR) : Nat × IR :=
  let insn := s.insnAt i
  let value := insn.slot1.value
  match insn.opcode with
  | .ADD | .OR | .XOR =>
    if value = 0 then replace_with_pseudo fuel i insn.slot2 s else (0, s)
  | .SHL | .LSR | .ASR | .AND | .MUL =>
    if value = 0 then replace_with_pseudo fuel i insn.slot1 s else (0, s)
  | _ => (0, s)

/-- `simplify_constant_binop` (simplify.c): evaluate; on success replace the
target with the folded VAL and kill. -/
def simplify_constant_binop (fuel i : Nat) (s : IR) : Nat × IR :=
  let insn := s.insnAt i
  match eval_insn insn.opcode insn.size insn.slot1.value insn.slot2.value with
  | none => (0, s)
  | some res =>
    let r1 := replace_with_pseudo fuel i (.val res) s
    (REPEAT_CSE, r1.2)

/-- `simplify_binop_same_args` (simplify.c). -/
def simplify_binop_same_args (fuel i : Nat) (arg : PseudoRef) (s : IR) : Nat × IR :=
  let insn := s.insnAt i
  match insn.opcode with
  | .SET_NE | .SET_LT | .SET_GT | .SET_B | .SET_A =>
    let s1 := if s.Wtautological_compare
      then { s with warnings := s.warnings ++ ["self-comparison always evaluates to false"] }
      else s
    replace_with_pseudo fuel i (.val 0) s1
  | .SUB | .XOR => replace_with_pseudo fuel i (.val 0) s
  | .SET_EQ | .SET_LE | .SET_GE | .SET_BE | .SET_AE =>
    let s1 := if s.Wtautological_compare
      then { s with warnings := s.warnings ++ ["self-comparison always evaluates to true"] }
      else s
    replace_with_pseudo fuel i (.val 1) s1
  | .AND | .OR => replace_with_pseudo fuel i arg s
  | .AND_BOOL | .OR_BOOL =>
    let s1 := rem_usageG (killOf fuel) arg ⟨i, .s2⟩ true s
    let s2 := s1.updInsn i (fun ins => { ins with slot2 := .val 0, opcode := .SET_NE })
    (REPEAT_CSE, s2)
  | _ => (0, s)

/-- `simplify_binop` (simplify.c). -/
def simplify_binop (fuel i : Nat) (s : IR) : Nat × IR :=
  match dead_insn fuel i (some .s1) (some .s2) none s with
  | (true, s1) => (REPEAT_CSE, s1)
  | (false, s0) =>
    let insn := s0.insnAt i
    if insn.slot1.isVal then
      if insn.slot2.isVal then simplify_constant_binop fuel i s0
      else simplify_constant_leftside fuel i s0
    else if insn.slot2.isVal then simplify_constant_rightside fuel i s0
    else if insn.slot1 = insn.slot2 then simplify_binop_same_args fuel i insn.slot1 s0
    else (0, s0)

/-- `simplify_constant_unop` (simplify.c): `~` and unary `-` on a `long long`
(the negation of LLONG_MIN wraps), masked to the instruction size. -/
def simplify_constant_unop (fuel i : Nat) (s : IR) : Nat × IR :=
  let insn := s.insnAt i
  let val := insn.slot1.value
  match insn.opcode with
  | .NOT =>
    let r1 := replace_with_pseudo fuel i (.val (maskBits insn.size (wrap64 (-val - 1)))) s
    (REPEAT_CSE, r1.2)
  | .NEG =>
    let r1 := replace_with_pseudo fuel i (.val (maskBits insn.size (wrap64 (-val)))) s
    (REPEAT_CSE, r1.2)
  | _ => (0, s)

/-- `simplify_unop` (simplify.c): constant fold, or collapse a double
NOT/NEG. -/
def simplify_unop (fuel i : Nat) (s : IR) : Nat × IR :=
  match dead_insn fuel i (some .s1) none none s with
  | (true, s1) => (REPEAT_CSE, s1)
  | (false, s0) =>
    let insn := s0.insnAt i
    if insn.slot1.isVal then simplify_constant_unop fuel i s0
    else
      match insn.opcode with
      | .NOT =>
        (match s0.pseudoDef insn.slot1 with
         | some d =>
           if (s0.insnAt d).opcode = .NOT then
             replace_with_pseudo fuel i ((s0.insnAt d).slot1) s0
           else (0, s0)
         | none => (0, s0))
      | .NEG =>
        (match s0.pseudoDef insn.slot1 with
         | some d =>
           if (s0.insnAt d).opcode = .NEG then
             replace_with_pseudo fuel i ((s0.insnAt d).slot1) s0
           else (0, s0)
         | none => (0, s0))
      | _ => (0, s0)

/-- `simplify_one_memop` (simplify.c): fold a SYMADDR or `ADD base, const`
chain step into the memop's address/offset; the self-referential case warns
("crazy programmer") and voids the address unless CFG clean-up is pending. -/
def simplify_one_memop (fuel i : Nat) (orig : PseudoRef) (s : IR) : Nat × IR :=
  let insn := s.insnAt i
  let addr := insn.slot1
  match addr with
  | .id n =>
    (match (s.pseudoAt n).kind with
     | .reg d =>
       let defI := s.insnAt d
       if defI.opcode = .SYMADDR ∧ defI.slot1 ≠ .null then
         let s1 := kill_useG (killOf fuel) ⟨i, .s1⟩ s
         let s2 := use_pseudoF ((s1.insnAt d).slot1) ⟨i, .s1⟩ s1
         (REPEAT_CSE ||| REPEAT_SYMBOL_CLEANUP, s2)
       else if defI.opcode = .ADD then
         let doOffset := fun (new off : PseudoRef) =>
           if new = orig ∧ new = .void then (0, s)
           else if new = orig ∧ s.repeatPhase &&& REPEAT_CFG_CLEANUP ≠ 0 then (0, s)
           else
             let selfRef := new = orig
             let new2 := if selfRef then PseudoRef.void else new
             let st1 := if selfRef
               then { s with warnings := s.warnings ++ ["crazy programmer"] }
               else s
             let st2 := st1.updInsn i (fun ins => { ins with offset := ins.offset + off.value })
             let st3 := use_pseudoF new2 ⟨i, .s1⟩ st2
             let st4 := rem_usageG (killOf fuel) addr ⟨i, .s1⟩ true st3
             (REPEAT_CSE ||| REPEAT_SYMBOL_CLEANUP, st4)
         if defI.slot2.isVal then doOffset defI.slot1 defI.slot2
         else if defI.slot1.isVal then doOffset defI.slot2 defI.slot1
         else (0, s)
       else (0, s)
     | _ => (0, s))
  | _ => (0, s)

/-- The do-while loop of `simplify_memop`, with iteration fuel. -/
def simplify_memop_loop : Nat → Nat → PseudoRef → Nat → IR → Nat × IR
  | 0, _, _, ret, s => (ret, s)
  | fl + 1, i, orig, ret, s =>
    let r1 := simplify_one_memop fl i orig s
    if r1.1 ≠ 0 then simplify_memop_loop fl i orig (ret ||| r1.1) r1.2
    else (ret ||| r1.1, r1.2)

/-- `simplify_memop` (simplify.c). -/
def simplify_memop (fuel i : Nat) (s : IR) : Nat × IR :=
  simplify_memop_loop fuel i ((s.insnAt i).slot1) 0 s

/-- `get_cast_value` (simplify.c).  The C computes the masks with an
`int`-typed `1 <<`, undefined for sizes above 32; the evident intent (the
`long long` mask used elsewhere) is modelled: sign-extend bit old_size-1 when
widening a signed value, then keep the low new_size bits. -/
def get_cast_value (val : Int) (oldSize newSize : Nat) (sign : Bool) : Int :=
  let v1 :=
    if sign ∧ oldSize < newSize ∧ 2 ^ (oldSize - 1) ≤ val % 2 ^ oldSize
    then val % 2 ^ oldSize - 2 ^ oldSize
    else val
  v1 % 2 ^ newSize

/-- `simplify_cast` (simplify.c). -/
def simplify_cast (fuel i : Nat) (s : IR) : Nat × IR :=
  match dead_insn fuel i (some .s1) none none s with
  | (true, s1) => (REPEAT_CSE, s1)
  | (false, s0) =>
    let insn := s0.insnAt i
    match insn.origType with
    | none => (0, s0)
    | some origType =>
      if origType.isPtr ∨ insn.typ.isPtr then (0, s0)
      else if origType.isFloat ∧ ¬ insn.typ.isFloat then (0, s0)
      else
        let origSize := origType.bitSize
        let size := insn.size
        let src := insn.slot1
        if src.isVal then
          let val := get_cast_value src.value origSize size origType.signed
          replace_with_pseudo fuel i (.val val) s0
        else
          let andElide : Bool :=
            match src with
            | .id n =>
              (match (s0.pseudoAt n).kind with
               | .reg d =>
                 let defI := s0.insnAt d
                 if defI.opcode = .AND ∧ size ≤ defI.size then
                   match defI.slot2 with
                   | .val v => decide (pat64 v >>> (size - 1) = 0)
                   | _ => false
                 else false
               | _ => false)
            | _ => false
          if andElide then replace_with_pseudo fuel i src s0
          else if size = origSize then
            let sameOp := if origType.signed then Opcode.SCAST else Opcode.CAST
            if insn.opcode = sameOp then replace_with_pseudo fuel i src s0
            else if insn.opcode = .FPCAST ∧ origType.isFloat then
              replace_with_pseudo fuel i src s0
            else (0, s0)
          else (0, s0)

/-- `simplify_select` (simplify.c). -/
def simplify_select (fuel i : Nat) (s : IR) : Nat × IR :=
  match dead_insn fuel i (some .s1) (some .s2) (some .s3) s with
  | (true, s1) => (REPEAT_CSE, s1)
  | (false, s0) =>
    let insn := s0.insnAt i
    let cond := insn.slot1
    let src1 := insn.slot2
    let src2 := insn.slot3
    if cond.isVal ∨ src1 = src2 then
      let s1 := kill_useG (killOf fuel) ⟨i, .s1⟩ s0
      let take := if cond.value ≠ 0 then src1 else src2
      let killSlot : SlotName := if cond.value ≠ 0 then .s3 else .s2
      let s2 := kill_useG (killOf fuel) ⟨i, killSlot⟩ s1
      let r3 := replace_with_pseudo fuel i take s2
      (REPEAT_CSE, r3.2)
    else if src1.isVal ∧ src2.isVal then
      let val1 := src1.value
      let val2 := src2.value
      if Int.lor val1 val2 = 1 then
        let s1 := s0.updInsn i (fun ins =>
          { ins with opcode := if val1 ≠ 0 then Opcode.SET_NE else Opcode.SET_EQ,
                     slot2 := if val1 ≠ 0 then src2 else src1 })
        (REPEAT_CSE, s1)
      else (0, s0)
    else if cond = src2 ∧ is_zero src1 then
      let s1 := kill_useG (killOf fuel) ⟨i, .s1⟩ s0
      let s2 := kill_useG (killOf fuel) ⟨i, .s3⟩ s1
      let r3 := replace_with_pseudo fuel i (.val 0) s2
      (REPEAT_CSE, r3.2)
    else (0, s0)

/-- `is_in_range` (simplify.c). -/
def is_in_range (src : PseudoRef) (low high : Int) : Bool :=
  match src with
  | .val value => decide (low ≤ value ∧ value ≤ high)
  | _ => false

/-- `simplify_range` (simplify.c). -/
def simplify_range (fuel i : Nat) (s : IR) : Nat × IR :=
  let insn := s.insnAt i
  if ¬ insn.slot2.isVal ∨ ¬ insn.slot3.isVal then (0, s)
  else if is_in_range insn.slot1 insn.slot2.value insn.slot3.value then
    let r1 := kill_instructionF fuel i s
    (REPEAT_CSE, r1.2)
  else (0, s)

/-- Helper for the modelled `insert_branch`: keep the first occurrence of the
target in the children list, return the removed entries (the C loop deletes
every other entry, including duplicate target occurrences). -/
def keepFirstTarget : List Nat → Nat → Bool → List Nat × List Nat
  | [], _, _ => ([], [])
  | c :: cs, t, seen =>
    if c = t ∧ ¬ seen then
      let r := keepFirstTarget cs t true
      (c :: r.1, r.2)
    else
      let r := keepFirstTarget cs t seen
      (r.1, c :: r.2)

/-- Modelled from the spec: linearize.c's `insert_branch` is not in the
provided sources.  Per the spec (section 4.5, S6): convert the block's
terminator into an unconditional branch to the taken target and detach the
untaken edges — every child but the target leaves the block's children and
the block leaves that child's parents (once per removed edge).  The old
terminator's condition operand is unbound first (the real code kills the old
jump and appends a fresh OP_BR; modelled in place, keeping the id). -/
def insert_branch (fuel bbId i target : Nat) (s : IR) : IR :=
  let s1 := kill_useG (killOf fuel) ⟨i, .s1⟩ s
  let s2 := s1.updInsn i (fun ins =>
    { ins with opcode := .BR, slot1 := .null, bbTrue := some target,
               bbFalse := none, multijmpList := [] })
  let r := keepFirstTarget ((s2.bbAt bbId).children) target false
  let s3 := s2.updBB bbId (fun b => { b with children := r.1 })
  r.2.foldl (fun st c => st.updBB c (fun b => { b with parents := b.parents.erase bbId })) s3

/-- `simplify_cond_branch` (simplify.c): rebind the branch condition to the
compare's surviving operand, swapping the targets for SET_EQ. -/
def simplify_cond_branch (fuel br : Nat) (cond : PseudoRef) (d : Nat) (pp : SlotName)
    (s : IR) : Nat × IR :=
  let v := (s.insnAt d).readSlot pp
  let s1 := use_pseudoF v ⟨br, .s1⟩ s
  let s2 := rem_usageG (killOf fuel) cond ⟨br, .s1⟩ true s1
  let s3 := if (s2.insnAt d).opcode = .SET_EQ then
      s2.updInsn br (fun ins => { ins with bbTrue := ins.bbFalse, bbFalse := ins.bbTrue })
    else s2
  (REPEAT_CSE, s3)

/-- `simplify_branch` (simplify.c). -/
def simplify_branch (fuel i : Nat) (s : IR) : Nat × IR :=
  let insn := s.insnAt i
  let cond := insn.slot1
  if cond.isVal then
    match insn.bb, (if cond.value ≠ 0 then insn.bbTrue else insn.bbFalse) with
    | some bbId, some t => (REPEAT_CSE, insert_branch fuel bbId i t s)
    | _, _ => (REPEAT_CSE, s)
  else if insn.bbTrue = insn.bbFalse then
    match insn.bb, insn.bbFalse with
    | some bb, some target =>
      let s1 := s.updBB target (fun b => { b with parents := b.parents.erase bb })
      let s2 := s1.updBB bb (fun b => { b with children := b.children.erase target })
      let s3 := s2.updInsn i (fun ins => { ins with bbFalse := none })
      let s4 := kill_useG (killOf fuel) ⟨i, .s1⟩ s3
      let s5 := s4.updInsn i (fun ins => { ins with slot1 := .null, opcode := .BR })
      (REPEAT_CSE, s5)
    | _, _ => (REPEAT_CSE, s)
  else
    match cond with
    | .id n =>
      (match (s.pseudoAt n).kind with
       | .reg d =>
         let defI := s.insnAt d
         if (defI.opcode = .SET_NE ∨ defI.opcode = .SET_EQ) ∧
             defI.slot1.isVal ∧ defI.slot1.value = 0 then
           simplify_cond_branch fuel i cond d .s2 s
         else if (defI.opcode = .SET_NE ∨ defI.opcode = .SET_EQ) ∧
             defI.slot2.isVal ∧ defI.slot2.value = 0 then
           simplify_cond_branch fuel i cond d .s1 s
         else if defI.opcode = .SEL ∧ defI.slot2.isVal ∧ defI.slot3.isVal then
           let val1 := defI.slot2.value
           let val2 := defI.slot3.value
           if val1 = 0 ∧ val2 = 0 then
             match insn.bb, insn.bbFalse with
             | some bbId, some t => (REPEAT_CSE, insert_branch fuel bbId i t s)
             | _, _ => (REPEAT_CSE, s)
           else if val1 ≠ 0 ∧ val2 ≠ 0 then
             match insn.bb, insn.bbTrue with
             | some bbId, some t => (REPEAT_CSE, insert_branch fuel bbId i t s)
             | _, _ => (REPEAT_CSE, s)
           else
             let s1 := if val2 ≠ 0
               then s.updInsn i (fun ins =>
                 { ins with bbTrue := ins.bbFalse, bbFalse := ins.bbTrue })
               else s
             let s2 := use_pseudoF ((s1.insnAt d).slot1) ⟨i, .s1⟩ s1
             let s3 := rem_usageG (killOf fuel) cond ⟨i, .s1⟩ true s2
             (REPEAT_CSE, s3)
         else if defI.opcode = .CAST ∨ defI.opcode = .SCAST then
           let origSize := match defI.origType with
             | some t => t.bitSize
             | none => 0
           if origSize < defI.size then
             let s1 := use_pseudoF defI.slot1 ⟨i, .s1⟩ s
             let s2 := rem_usageG (killOf fuel) cond ⟨i, .s1⟩ true s1
             (REPEAT_CSE, s2)
           else (0, s)
         else (0, s)
       | _ => (0, s))
    | _ => (0, s)

/-- The case-selection scan of `simplify_switch`: first entry that is a
default case (begin > end) or whose inclusive range contains the value. -/
def selectCase : List Multijmp → Int → Option Multijmp
  | [], _ => none
  | j :: js, v =>
    if j.endi < j.begi ∨ (j.begi ≤ v ∧ v ≤ j.endi) then some j else selectCase js v

/-- `simplify_switch` (simplify.c). -/
def simplify_switch (fuel i : Nat) (s : IR) : Nat × IR :=
  let insn := s.insnAt i
  let cond := insn.slot1
  if ¬ cond.isVal then (0, s)
  else
    match selectCase insn.multijmpList cond.value with
    | some jmp =>
      match insn.bb with
      | some bbId => (REPEAT_CSE, insert_branch fuel bbId i jmp.target s)
      | none => (REPEAT_CSE, s)
    | none => (0, { s with warnings := s.warnings ++ ["Impossible case statement"] })

/-! ## The φ-node handler -/

/-- `phi_parent` (simplify.c). -/
def phi_parent (s : IR) (source : Nat) (p : PseudoRef) : Nat :=
  let regStay : Bool :=
    match p with
    | .id n => match (s.pseudoAt n).kind with
      | .reg d => decide ((s.insnAt d).bb = some source)
      | _ => false
    | _ => false
  if regStay then source
  else if (s.bbAt source).children.length ≠ 1 ∨ (s.bbAt source).parents.length ≠ 1 then
    source
  else (s.bbAt source).parents.headD source

/-- `get_phisources` (simplify.c), as the list of φ-source instruction ids of
the non-VOID entries; the caller checks for exactly two.  (The C asserts each
def is an OP_PHISOURCE; entries without a def — impossible in well-formed IR —
contribute a dummy.) -/
def phiSources (s : IR) (i : Nat) : List Nat :=
  (s.insnAt i).phiList.foldr (fun p acc =>
    match p with
    | .void => acc
    | q => (match s.pseudoDef q with
            | some d => d :: acc
            | none => 0 :: acc)) []

/-- Modelled from the spec: linearize.c's `insert_select` is not in the
provided sources.  Per the spec (section 4.6): allocate a `SEL cond, p1, p2`
in `source` just before its conditional branch; the φ's target pseudo becomes
the select's target (its def pointer moves to the new instruction). -/
def insert_select (source brId phiId : Nat) (ifTrue ifFalse : PseudoRef) (s : IR) : IR :=
  let phiI := s.insnAt phiId
  let br := s.insnAt brId
  let newId := s.insns.length
  let sel : Instruction :=
    { opcode := .SEL, size := phiI.size, bb := some source, typ := phiI.typ,
      target := phiI.target }
  let s1 := { s with insns := s.insns ++ [sel] }
  let s2 := use_pseudoF br.slot1 ⟨newId, .s1⟩ s1
  let s3 := match phiI.target with
    | .id n => s2.updPseudo n (fun ps =>
        { ps with kind := match ps.kind with
            | .reg _ => .reg newId
            | k => k })
    | _ => s2
  let s4 := use_pseudoF ifTrue ⟨newId, .s2⟩ s3
  let s5 := use_pseudoF ifFalse ⟨newId, .s3⟩ s4
  s5.updBB source (fun b => { b with insns := b.insns.dropLast ++ [newId, brId] })

/-- `if_convert_phi` (simplify.c). -/
def if_convert_phi (fuel i : Nat) (s : IR) : Nat × IR :=
  match (s.insnAt i).bb with
  | none => (0, s)
  | some bb =>
    match phiSources s i with
    | [d1, d2] =>
      let parents := (s.bbAt bb).parents
      if parents.length ≠ 2 then (0, s)
      else
        let p1 := (s.insnAt d1).slot1
        let p2 := (s.insnAt d2).slot1
        match (s.insnAt d1).bb, (s.insnAt d2).bb with
        | some bb1, some bb2 =>
          let pa := parents.getD 0 0
          let pb := parents.getD 1 0
          if ¬ ((bb1 = pa ∧ bb2 = pb) ∨ (bb1 = pb ∧ bb2 = pa)) then (0, s)
          else
            let source := phi_parent s bb1 p1
            if source ≠ phi_parent s bb2 p2 then (0, s)
            else
              match (s.bbAt source).insns.getLast? with
              | none => (0, s)
              | some brId =>
                let br := s.insnAt brId
                if br.opcode ≠ .CBR then (0, s)
                else
                  let q1 := if br.bbTrue = some bb2 ∨ br.bbFalse = some bb1 then p2 else p1
                  let q2 := if br.bbTrue = some bb2 ∨ br.bbFalse = some bb1 then p1 else p2
                  let s1 := insert_select source brId i q1 q2 s
                  let r2 := kill_instructionF fuel i s1
                  (REPEAT_CSE, r2.2)
        | _, _ => (0, s)
    | _ => (0, s)

/-- The scanning body of `clean_up_phi`'s FOR_EACH_PTR loop (simplify.c):
skip VOID entries and dead or VOID-valued φ-sources; remember the first
surviving source and compare the rest against it. -/
def clean_up_phi_step (s : IR) (acc : Option Nat × Bool) (p : PseudoRef) :
    Option Nat × Bool :=
  match p with
  | .void => acc
  | q =>
    match s.pseudoDef q with
    | none => acc
    | some d =>
      let defI := s.insnAt d
      if defI.slot1 = .void ∨ defI.bb = none then acc
      else match acc.1 with
        | some lastD =>
          if (s.insnAt lastD).slot1 ≠ defI.slot1 then (acc.1, false) else acc
        | none => (some d, acc.2)

/-- `clean_up_phi` (simplify.c). -/
def clean_up_phi (fuel i : Nat) (s : IR) : Nat × IR :=
  let insn := s.insnAt i
  let scan := insn.phiList.foldl (clean_up_phi_step s) (none, true)
  if scan.2 then
    let pseudo := match scan.1 with
      | some lastD => (s.insnAt lastD).slot1
      | none => PseudoRef.void
    let s1 := convert_instruction_target i pseudo s
    let r2 := kill_instructionF fuel i s1
    (REPEAT_CSE, r2.2)
  else if_convert_phi fuel i s

/-! ## Dispatcher -/

/-- `simplify_instruction` (simplify.c). -/
def simplify_instruction (fuel i : Nat) (s : IR) : Nat × IR :=
  let insn := s.insnAt i
  if insn.bb = none then (0, s)
  else
    match insn.opcode with
    | .ADD | .MUL | .AND | .OR | .XOR | .AND_BOOL | .OR_BOOL =>
      let r1 := canonicalize_commutative fuel i s
      let r2 := simplify_binop fuel i r1.2
      if r2.1 ≠ 0 then (REPEAT_CSE, r2.2) else simplify_associative_binop fuel i r2.2
    | .SET_EQ | .SET_NE =>
      let r1 := canonicalize_commutative fuel i s
      simplify_binop fuel i r1.2
    | .SET_LE | .SET_GE | .SET_LT | .SET_GT | .SET_B | .SET_A | .SET_BE | .SET_AE =>
      let r1 := canonicalize_compare fuel i s
      simplify_binop fuel i r1.2
    | .SUB | .DIVU | .DIVS | .MODU | .MODS | .SHL | .LSR | .ASR =>
      simplify_binop fuel i s
    | .NOT | .NEG => simplify_unop fuel i s
    | .LOAD =>
      if ¬ s.has_users insn.target then kill_instructionF fuel i s
      else simplify_memop fuel i s
    | .STORE => simplify_memop fuel i s
    | .SYMADDR =>
      match dead_insn fuel i none none none s with
      | (true, s1) => (REPEAT_CSE ||| REPEAT_SYMBOL_CLEANUP, s1)
      | (false, s0) => replace_with_pseudo fuel i ((s0.insnAt i).slot1) s0
    | .CAST | .SCAST | .FPCAST | .PTRCAST => simplify_cast fuel i s
    | .PHI =>
      match dead_insn fuel i none none none s with
      | (true, s1) =>
        (REPEAT_CSE, kill_use_listG (killOf fuel) i SlotName.phiEnt
          ((s1.insnAt i).phiList.length) s1)
      | (false, s0) => clean_up_phi fuel i s0
    | .PHISOURCE =>
      match dead_insn fuel i (some .s1) none none s with
      | (true, s1) => (REPEAT_CSE, s1)
      | (false, s0) => (0, s0)
    | .SEL => simplify_select fuel i s
    | .CBR => simplify_branch fuel i s
    | .SWITCH => simplify_switch fuel i s
    | .RANGE => simplify_range fuel i s
    | _ => (0, s)

/-! ## Statement-level notions: liveness, operand slots, the use-list
invariant -/

/-- A live instruction: present in the store with a non-null `bb`. -/
def IR.liveInsn (s : IR) (i : Nat) : Prop :=
  i < s.insns.length ∧ (s.insnAt i).bb ≠ none

/-- A live REG pseudo: present, REG-kind, and its defining instruction is
live. -/
def IR.liveRegPseudo (s : IR) (n : Nat) : Prop :=
  n < s.pseudos.length ∧ ∃ d, (s.pseudoAt n).kind = .reg d ∧ s.liveInsn d

/-- The operand (use) slots an instruction's opcode consumes, from the data
model (spec section 3; matching the per-opcode slot lists of section 4). -/
def operandSlots (insn : Instruction) : List SlotName :=
  match insn.opcode with
  | .RET | .COMPUTEDGOTO | .CBR | .SWITCH => [.s1]
  | .ADD | .SUB | .MUL | .DIVU | .DIVS | .MODU | .MODS | .SHL | .LSR | .ASR
  | .FADD | .FSUB | .FMUL | .FDIV
  | .AND | .OR | .XOR | .AND_BOOL | .OR_BOOL
  | .FCMP_ORD | .FCMP_OEQ | .FCMP_ONE | .FCMP_OLE | .FCMP_OGE | .FCMP_OLT | .FCMP_OGT
  | .FCMP_UEQ | .FCMP_UNE | .FCMP_ULE | .FCMP_UGE | .FCMP_ULT | .FCMP_UGT | .FCMP_UNO
  | .SET_EQ | .SET_NE | .SET_LE | .SET_GE | .SET_LT | .SET_GT
  | .SET_B | .SET_A | .SET_BE | .SET_AE => [.s1, .s2]
  | .NOT | .NEG | .FNEG | .COPY => [.s1]
  | .SEL | .RANGE => [.s1, .s2, .s3]
  | .LOAD => [.s1]
  | .STORE => [.s1, .tgt]
  | .SETVAL | .SYMADDR => [.s1]
  | .PHI => (List.range insn.phiList.length).map SlotName.phiEnt
  | .PHISOURCE => [.s1]
  | .CAST | .SCAST | .FPCAST | .PTRCAST | .SLICE => [.s1]
  | .CALL | .INLINED_CALL =>
    SlotName.s1 :: (List.range insn.arguments.length).map SlotName.argEnt
  | _ => []

/-- Exactness of one pseudo's use list (spec section 3, claim C1): its entries
are precisely the operand slots of live instructions currently holding the
pseudo, one entry per slot. -/
def useExact (s : IR) (n : Nat) : Prop :=
  ((s.pseudoAt n).users).Nodup ∧
  ∀ sl : Slot, sl ∈ (s.pseudoAt n).users ↔
    (s.liveInsn sl.insn ∧ sl.name ∈ operandSlots (s.insnAt sl.insn) ∧
     s.readSlot sl = .id n)

/-- The use-list invariant restricted (as claim C1 is) to live REG pseudos. -/
def regUseInv (s : IR) : Prop := ∀ n, s.liveRegPseudo n → useExact s n

/-- The refusal condition of `kill_insn` with `force = 0` (claim C3): volatile
load, store, entry, or a call whose callee is not a pure symbol. -/
def kill_refused (s : IR) (i : Nat) : Prop :=
  let insn := s.insnAt i
  (insn.opcode = .LOAD ∧ insn.typ.volat) ∨
  insn.opcode = .STORE ∨
  insn.opcode = .ENTRY ∨
  (insn.opcode = .CALL ∧ ¬ s.calleePure insn.slot1)

/-- The slots `kill_insn` unbinds for a given instruction (claim C3's "the
opcode's operand slots"), read off the C switch; for a call, the function
slot is unbound only when the callee is a computed (REG) pseudo. -/
def killSlots (s : IR) (i : Nat) : List SlotName :=
  let insn := s.insnAt i
  let op := insn.opcode
  if op = .SEL ∨ op = .RANGE then [.s3, .s2, .s1]
  else if op.isBinaryToBincmpEnd then [.s2, .s1]
  else if op = .CAST ∨ op = .SCAST ∨ op = .FPCAST ∨ op = .PTRCAST ∨ op = .SETVAL ∨
      op = .NOT ∨ op = .NEG ∨ op = .SLICE then [.s1]
  else if op = .PHI then (List.range insn.phiList.length).map SlotName.phiEnt
  else if op = .PHISOURCE then [.s1]
  else if op = .CBR ∨ op = .COMPUTEDGOTO then [.s1]
  else if op = .CALL then
    (List.range insn.arguments.length).map SlotName.argEnt ++
      (if s.isReg insn.slot1 then [SlotName.s1] else [])
  else if op = .LOAD then [.s1]
  else if op = .STORE then [.s1, .tgt]
  else []

/-- Index bounds for a slot: its instruction exists, and a φ-list/argument
entry index is within the list. -/
def slotInBounds (s : IR) (sl : Slot) : Prop :=
  sl.insn < s.insns.length ∧
  (match sl.name with
   | .phiEnt j => j < (s.insnAt sl.insn).phiList.length
   | .argEnt j => j < (s.insnAt sl.insn).arguments.length
   | _ => True)

/-- What a run of the kill cascade can do to the state: operand slots are
unchanged or VOIDed, use lists only lose entries, live instructions can only
die, and the store shapes (lengths, kinds, opcodes, list lengths) are
untouched. -/
def KillEvolves (s t : IR) : Prop :=
  (∀ sl, t.readSlot sl = s.readSlot sl ∨ t.readSlot sl = .void) ∧
  (∀ p, t.usersOf p ⊆ s.usersOf p) ∧
  (∀ i, (t.insnAt i).bb = (s.insnAt i).bb ∨ (t.insnAt i).bb = none) ∧
  (∀ n, (t.pseudoAt n).kind = (s.pseudoAt n).kind) ∧
  t.insns.length = s.insns.length ∧
  t.pseudos.length = s.pseudos.length ∧
  (∀ i, (t.insnAt i).opcode = (s.insnAt i).opcode) ∧
  (∀ i, (t.insnAt i).phiList.length = (s.insnAt i).phiList.length) ∧
  (∀ i, (t.insnAt i).arguments.length = (s.insnAt i).arguments.length)

/-- The effect of `rem_usage` when the cascade does not fire (proved equal to
`rem_usageG` in that case): symbol-touch bookkeeping plus deletion of the
first matching use-list entry. -/
def rem_usage_pure (p : PseudoRef) (usep : Slot) (s : IR) : IR :=
  if has_use_list p then
    let s1 := if s.isSym p
      then { s with repeatPhase := s.repeatPhase ||| REPEAT_SYMBOL_CLEANUP }
      else s
    match p with
    | .id n => s1.updPseudo n (fun ps => { ps with users := ps.users.erase usep })
    | _ => s1
  else s

/-! ### Concrete example states -/

/-- A two-instruction IR exercising the φ-kill cascade: instruction 0 is a φ
whose single φ-list entry is the PHI pseudo 0; that pseudo is defined by the
φ-source instruction 1 (carrying VAL 5) and used only by the φ.  Pseudo 1 is
the φ's target, used by instruction 2. -/
def phiCascadeState : IR :=
  { pseudos := [⟨.phi 1, [⟨0, .phiEnt 0⟩]⟩, ⟨.reg 0, [⟨2, .s1⟩]⟩],
    insns := [{ opcode := .PHI, size := 32, bb := some 0, target := .id 1,
                phiList := [.id 0] },
              { opcode := .PHISOURCE, size := 32, bb := some 0, target := .id 0,
                slot1 := .val 5 },
              { opcode := .COPY, size := 32, bb := some 0, slot1 := .id 1 }],
    blocks := [{ insns := [0, 1, 2] }] }

/-- The S3 scenario state: a single `SET_LT.32 5, y` comparison whose target
`t` (pseudo 1) has no users yet; `y` is an argument pseudo used only in the
comparison's second operand slot. -/
def sCmp : IR :=
  { pseudos := [⟨.arg, [⟨0, .s2⟩]⟩, ⟨.reg 0, []⟩],
    insns := [{ opcode := .SET_LT, size := 32, bb := some 0, target := .id 1,
                slot1 := .val 5, slot2 := .id 0 }],
    blocks := [{ insns := [0] }] }

/-- The S2 scenario state: `t = ADD.32 x, 0` (instruction 0) whose target `t`
(pseudo 1) is used by the COPY instruction 1; `x` is an argument pseudo. -/
def sAdd0 : IR :=
  { pseudos := [⟨.arg, [⟨0, .s1⟩]⟩, ⟨.reg 0, [⟨1, .s1⟩]⟩],
    insns := [{ opcode := .ADD, size := 32, bb := some 0, target := .id 1,
                slot1 := .id 0, slot2 := .val 0 },
              { opcode := .COPY, size := 32, bb := some 0, slot1 := .id 1 }],
    blocks := [{ insns := [0, 1] }] }

/-- The S6 scenario state: `SWITCH 7 { [1..5] -> A, [6..10] -> B,
default -> D }` in block 0, with A/B/D the blocks 1/2/3. -/
def sSwitch : IR :=
  { insns := [{ opcode := .SWITCH, size := 32, bb := some 0, slot1 := .val 7,
                multijmpList := [⟨1, 1, 5⟩, ⟨2, 6, 10⟩, ⟨3, 1, 0⟩] }],
    blocks := [{ children := [1, 2, 3], insns := [0] },
               { parents := [0] }, { parents := [0] }, { parents := [0] }] }

/-- Associative-reordering state with a single user of the inner result:
instruction 0 is `t1 = ADD.32 x, 1`, instruction 1 is `t2 = ADD.32 t1, 2`,
and `t1` is used only by instruction 1. -/
def sAssoc1 : IR :=
  { pseudos := [⟨.arg, [⟨0, .s1⟩]⟩, ⟨.reg 0, [⟨1, .s1⟩]⟩, ⟨.reg 1, []⟩],
    insns := [{ opcode := .ADD, size := 32, bb := some 0, target := .id 1,
                slot1 := .id 0, slot2 := .val 1 },
              { opcode := .ADD, size := 32, bb := some 0, target := .id 2,
                slot1 := .id 1, slot2 := .val 2 }],
    blocks := [{ insns := [0, 1] }] }

/-- Like `sAssoc1` but `t1` has a second user (the COPY instruction 2), so
`simplify_associative_binop` backs off. -/
def sAssoc2 : IR :=
  { pseudos := [⟨.arg, [⟨0, .s1⟩]⟩, ⟨.reg 0, [⟨1, .s1⟩, ⟨2, .s1⟩]⟩, ⟨.reg 1, []⟩],
    insns := [{ opcode := .ADD, size := 32, bb := some 0, target := .id 1,
                slot1 := .id 0, slot2 := .val 1 },
              { opcode := .ADD, size := 32, bb := some 0, target := .id 2,
                slot1 := .id 1, slot2 := .val 2 },
              { opcode := .COPY, size := 32, bb := some 0, slot1 := .id 1 }],
    blocks := [{ insns := [0, 1, 2] }] }

/-- Cast-of-AND state: instruction 0 is `t = AND.32 x, 255`, instruction 1 is
`c = CAST.8 t` (orig type 32-bit unsigned), and `c` is used by the COPY
instruction 2 (so the cast is not dead). -/
def sCast255 : IR :=
  { pseudos := [⟨.arg, [⟨0, .s1⟩]⟩, ⟨.reg 0, [⟨1, .s1⟩]⟩, ⟨.reg 1, [⟨2, .s1⟩]⟩],
    insns := [{ opcode := .AND, size := 32, bb := some 0, target := .id 1,
                slot1 := .id 0, slot2 := .val 255 },
              { opcode := .CAST, size := 8, bb := some 0, target := .id 2,
                slot1 := .id 1, typ := ⟨8, false, false, false, false⟩,
                origType := some ⟨32, false, false, false, false⟩ },
              { opcode := .COPY, size := 8, bb := some 0, slot1 := .id 2 }],
    blocks := [{ insns := [0, 1, 2] }] }

/-- Like `sCast255` but the AND mask is 127, which clears bit 7 and the ones
above it, so the 8-bit cast really is a no-op. -/
def sCastOk : IR :=
  { pseudos := [⟨.arg, [⟨0, .s1⟩]⟩, ⟨.reg 0, [⟨1, .s1⟩]⟩, ⟨.reg 1, [⟨2, .s1⟩]⟩],
    insns := [{ opcode := .AND, size := 32, bb := some 0, target := .id 1,
                slot1 := .id 0, slot2 := .val 127 },
              { opcode := .CAST, size := 8, bb := some 0, target := .id 2,
                slot1 := .id 1, typ := ⟨8, false, false, false, false⟩,
                origType := some ⟨32, false, false, false, false⟩ },
              { opcode := .COPY, size := 8, bb := some 0, slot1 := .id 2 }],
    blocks := [{ insns := [0, 1, 2] }] }

/-- A φ (instruction 0) all of whose φ-list entries are filtered out: one is
VOID, the other refers to the φ-source instruction 1 whose value is VOID.
The φ's target (pseudo 1) is used by the COPY instruction 2. -/
def sPhiVoid : IR :=
  { pseudos := [⟨.phi 1, [⟨0, .phiEnt 1⟩]⟩, ⟨.reg 0, [⟨2, .s1⟩]⟩],
    insns := [{ opcode := .PHI, size := 32, bb := some 0, target := .id 1,
                phiList := [.void, .id 0] },
              { opcode := .PHISOURCE, size := 32, bb := some 0, target := .id 0,
                slot1 := .void },
              { opcode := .COPY, size := 32, bb := some 0, slot1 := .id 1 }],
    blocks := [{ insns := [0, 1, 2] }] }

/-- A well-formed three-instruction chain `x = NOT a; t = FNEG x; u = NEG t`
with `u` unused.  Simplifying the NEG marks it dead and kills its use of `t`;
`t` becomes userless, so the cascade kills the FNEG — whose opcode the
`kill_insn` switch does not cover, leaving `x`'s use list pointing at the
dead FNEG's operand slot. -/
def sFneg : IR :=
  { pseudos := [⟨.arg, [⟨0, .s1⟩]⟩, ⟨.reg 0, [⟨1, .s1⟩]⟩, ⟨.reg 1, [⟨2, .s1⟩]⟩,
                ⟨.reg 2, []⟩],
    insns := [{ opcode := .NOT, size := 32, bb := some 0, target := .id 1,
                slot1 := .id 0 },
              { opcode := .FNEG, size := 32, bb := some 0, target := .id 2,
                slot1 := .id 1 },
              { opcode := .NEG, size := 32, bb := some 0, target := .id 3,
                slot1 := .id 2 }],
    blocks := [{ insns := [0, 1, 2] }] }

/-! ### Arithmetic lemmas about the width-`n` re-interpretations -/

theorem two_pow_pos (n : Nat) : (0 : Int) < 2 ^ n := by positivity

theorem sext_modEq (n : Nat) (a : Int) : sext n a ≡ a [ZMOD 2 ^ n] := by
  have h1 : (a + 2 ^ (n - 1)) % 2 ^ n ≡ a + 2 ^ (n - 1) [ZMOD 2 ^ n] :=
    Int.emod_emod_of_dvd _ dvd_rfl
  have h2 := h1.sub_right ((2 : Int) ^ (n - 1))
  simpa [sext] using h2

theorem wrap64_modEq (x : Int) : wrap64 x ≡ x [ZMOD 2 ^ 64] := by
  have h1 : (x + 2 ^ 63) % 2 ^ 64 ≡ x + 2 ^ 63 [ZMOD 2 ^ 64] :=
    Int.emod_emod_of_dvd _ dvd_rfl
  have h2 := h1.sub_right ((2 : Int) ^ 63)
  simpa [wrap64] using h2

theorem wrap64_emod {n : Nat} (hn : n ≤ 64) (x : Int) :
    wrap64 x % 2 ^ n = x % 2 ^ n :=
  (wrap64_modEq x).of_dvd (pow_dvd_pow 2 hn)

theorem maskBits_emod (n : Nat) (x : Int) : maskBits n x % 2 ^ n = x % 2 ^ n := by
  unfold maskBits
  split
  · rfl
  · exact Int.emod_emod_of_dvd _ dvd_rfl

theorem mask_wrap_emod {n : Nat} (hn : n ≤ 64) (x : Int) :
    maskBits n (wrap64 x) % 2 ^ n = x % 2 ^ n := by
  rw [maskBits_emod, wrap64_emod hn]

theorem two_pow_split {n : Nat} (hn : 1 ≤ n) :
    (2 : Int) ^ n = 2 ^ (n - 1) * 2 := by
  conv_lhs => rw [show n = (n - 1) + 1 from (Nat.succ_pred_eq_of_pos hn).symm]
  rw [pow_succ]

theorem sext_lb {n : Nat} (a : Int) : -(2 ^ (n - 1)) ≤ sext n a := by
  have := Int.emod_nonneg (a + 2 ^ (n - 1)) (ne_of_gt (two_pow_pos n))
  unfold sext
  omega

theorem sext_ub {n : Nat} (hn : 1 ≤ n) (a : Int) : sext n a < 2 ^ (n - 1) := by
  have h1 := Int.emod_lt_of_pos (a + 2 ^ (n - 1)) (two_pow_pos n)
  have h2 := two_pow_split hn
  unfold sext
  omega

theorem sextC_eq_sext {n : Nat} (hn : 1 ≤ n) {a : Int}
    (h1 : -(2 ^ (n - 1)) ≤ a) (h2 : a < 2 ^ n) : sextC n a = sext n a := by
  have hm : (2 : Int) ^ n = 2 ^ (n - 1) * 2 := two_pow_split hn
  have hpos : (0 : Int) < 2 ^ (n - 1) := two_pow_pos _
  have e1 : a % 2 ^ n = if a < 0 then a + 2 ^ n else a := by
    split
    · have : (a + 2 ^ n * 1) % 2 ^ n = a % 2 ^ n := Int.add_mul_emod_self_left a _ 1
      rw [mul_one] at this
      rw [← this, Int.emod_eq_of_lt (by omega) (by omega)]
    · exact Int.emod_eq_of_lt (by omega) (by omega)
  have e2 : (a + 2 ^ (n - 1)) % 2 ^ n =
      if a + 2 ^ (n - 1) < 2 ^ n then a + 2 ^ (n - 1) else a + 2 ^ (n - 1) - 2 ^ n := by
    split
    · exact Int.emod_eq_of_lt (by omega) (by omega)
    · have h3 : (a + 2 ^ (n - 1) - 2 ^ n + 2 ^ n * 1) % 2 ^ n =
          (a + 2 ^ (n - 1) - 2 ^ n) % 2 ^ n := Int.add_mul_emod_self_left _ _ 1
      rw [mul_one, show a + 2 ^ (n - 1) - 2 ^ n + 2 ^ n = a + 2 ^ (n - 1) by ring] at h3
      rw [h3, Int.emod_eq_of_lt (by omega) (by omega)]
  unfold sextC sext
  rw [e1, e2]
  split_ifs <;> omega

theorem zext_cast {n : Nat} (a : Int) : ((zext n a : Nat) : Int) = a % 2 ^ n := by
  unfold zext
  exact Int.toNat_of_nonneg (Int.emod_nonneg a (ne_of_gt (two_pow_pos n)))

theorem nat_land_mod_two_pow (x y n : Nat) :
    (x &&& y) % 2 ^ n = x % 2 ^ n &&& y % 2 ^ n := by
  apply Nat.eq_of_testBit_eq
  intro i
  simp only [Nat.testBit_mod_two_pow, Nat.testBit_land]
  cases Decidable.em (i < n) <;> simp [*]

theorem nat_lor_mod_two_pow (x y n : Nat) :
    (x ||| y) % 2 ^ n = x % 2 ^ n ||| y % 2 ^ n := by
  apply Nat.eq_of_testBit_eq
  intro i
  simp only [Nat.testBit_mod_two_pow, Nat.testBit_lor]
  cases Decidable.em (i < n) <;> simp [*]

theorem nat_xor_mod_two_pow (x y n : Nat) :
    (x ^^^ y) % 2 ^ n = x % 2 ^ n ^^^ y % 2 ^ n := by
  apply Nat.eq_of_testBit_eq
  intro i
  simp only [Nat.testBit_mod_two_pow, Nat.testBit_xor]
  cases Decidable.em (i < n) <;> simp [*]

theorem pat64_sext_mod {n : Nat} (hn : n ≤ 64) (a : Int) :
    pat64 (sext n a) % 2 ^ n = zext n a := by
  have hnn : (0 : Int) ≤ sext n a % 2 ^ 64 :=
    Int.emod_nonneg _ (ne_of_gt (two_pow_pos 64))
  have : ((pat64 (sext n a) % 2 ^ n : Nat) : Int) = ((zext n a : Nat) : Int) := by
    push_cast
    rw [pat64, Int.toNat_of_nonneg hnn, Int.emod_emod_of_dvd _ (pow_dvd_pow 2 hn),
      sext_modEq n a, zext_cast]
  exact_mod_cast this

theorem int_one_emod {n : Nat} (hn : 1 ≤ n) : (1 : Int) % 2 ^ n = 1 := by
  apply Int.emod_eq_of_lt (by omega)
  calc (1 : Int) < 2 ^ 1 := by norm_num
  _ ≤ 2 ^ n := pow_le_pow_right₀ (by norm_num) hn

theorem natCast_emod_two_pow (x n : Nat) :
    ((x : Nat) : Int) % 2 ^ n = ((x % 2 ^ n : Nat) : Int) := by
  push_cast
  ring

theorem eval_matches_spec (op : Opcode) (n : Nat) (a b : Int)
    (hn1 : 1 ≤ n) (hn2 : n ≤ 64)
    (ha1 : -(2 ^ (n - 1)) ≤ a) (ha2 : a < 2 ^ n)
    (hb1 : -(2 ^ (n - 1)) ≤ b) (hb2 : b < 2 ^ n)
    (hsh : shiftOk op n b) :
    (eval_insn op n a b).map (fun r => r % 2 ^ n) = evalSpec op n a b := by
  have hA : sextC n a = sext n a := sextC_eq_sext hn1 ha1 ha2
  have hB : sextC n b = sext n b := sextC_eq_sext hn1 hb1 hb2
  have h1 : (1 : Int) % 2 ^ n = 1 := int_one_emod hn1
  have hov : (sext n a = cmask n ∧ sext n b = -1) ↔
      (n = 64 ∧ sext n a = -(2 ^ 63) ∧ sext n b = -1) := by
    constructor
    · rintro ⟨hc, hm1⟩
      rcases eq_or_lt_of_le hn2 with h64 | hlt
      · refine ⟨h64, ?_, hm1⟩
        rw [cmask, if_pos h64] at hc
        exact hc
      · exfalso
        have hub := sext_ub hn1 a
        rw [cmask, if_neg (Nat.ne_of_lt hlt)] at hc
        omega
    · rintro ⟨h64, hc, hm1⟩
      subst h64
      exact ⟨by rw [cmask, if_pos rfl]; exact hc, hm1⟩
  cases op
  all_goals try rfl
  case ADD =>
    simp only [eval_insn, evalSpec, hA, hB, Option.map_some', Option.some.injEq]
    rw [mask_wrap_emod hn2]
  case SUB =>
    simp only [eval_insn, evalSpec, hA, hB, Option.map_some', Option.some.injEq]
    rw [mask_wrap_emod hn2]
  case MUL =>
    simp only [eval_insn, evalSpec, Option.map_some', Option.some.injEq]
    rw [mask_wrap_emod hn2]
  case DIVU =>
    simp only [eval_insn, evalSpec]
    by_cases hz : zext n b = 0
    · simp [hz]
    · simp only [if_neg hz, Option.map_some', Option.some.injEq]
      rw [mask_wrap_emod hn2]
  case MODU =>
    simp only [eval_insn, evalSpec]
    by_cases hz : zext n b = 0
    · simp [hz]
    · simp only [if_neg hz, Option.map_some', Option.some.injEq]
      rw [mask_wrap_emod hn2]
  case DIVS =>
    simp only [eval_insn, evalSpec, hA, hB]
    by_cases hz : sext n b = 0
    · simp [hz]
    · rw [if_neg hz, if_neg hz]
      by_cases ho : sext n a = cmask n ∧ sext n b = -1
      · rw [if_pos ho, if_pos (hov.mp ho)]
        rfl
      · rw [if_neg ho, if_neg (fun hc => ho (hov.mpr hc))]
        simp only [Option.map_some', Option.some.injEq]
        rw [mask_wrap_emod hn2]
  case MODS =>
    simp only [eval_insn, evalSpec, hA, hB]
    by_cases hz : sext n b = 0
    · simp [hz]
    · rw [if_neg hz, if_neg hz]
      by_cases ho : sext n a = cmask n ∧ sext n b = -1
      · rw [if_pos ho, if_pos (hov.mp ho)]
        rfl
      · rw [if_neg ho, if_neg (fun hc => ho (hov.mpr hc))]
        simp only [Option.map_some', Option.some.injEq]
        rw [mask_wrap_emod hn2]
  case SHL =>
    simp only [eval_insn, evalSpec, hA, hB, Option.map_some', Option.some.injEq]
    rw [mask_wrap_emod hn2]
  case LSR =>
    simp only [eval_insn, evalSpec, Option.map_some', Option.some.injEq]
    rw [mask_wrap_emod hn2]
  case ASR =>
    simp only [eval_insn, evalSpec, hA, hB, Option.map_some', Option.some.injEq]
    rw [maskBits_emod]
  case AND =>
    simp only [eval_insn, evalSpec, hA, hB, Option.map_some', Option.some.injEq]
    rw [mask_wrap_emod hn2, natCast_emod_two_pow, nat_land_mod_two_pow,
      pat64_sext_mod hn2, pat64_sext_mod hn2]
  case OR =>
    simp only [eval_insn, evalSpec, hA, hB, Option.map_some', Option.some.injEq]
    rw [mask_wrap_emod hn2, natCast_emod_two_pow, nat_lor_mod_two_pow,
      pat64_sext_mod hn2, pat64_sext_mod hn2]
  case XOR =>
    simp only [eval_insn, evalSpec, hA, hB, Option.map_some', Option.some.injEq]
    rw [mask_wrap_emod hn2, natCast_emod_two_pow, nat_xor_mod_two_pow,
      pat64_sext_mod hn2, pat64_sext_mod hn2]
  case AND_BOOL =>
    simp only [eval_insn, evalSpec, hA, hB, Option.map_some', Option.some.injEq]
    rw [maskBits_emod]
    split_ifs <;> simp [h1]
  case OR_BOOL =>
    simp only [eval_insn, evalSpec, hA, hB, Option.map_some', Option.some.injEq]
    rw [maskBits_emod]
    split_ifs <;> simp [h1]
  case SET_EQ =>
    simp only [eval_insn, evalSpec, hA, hB, Option.map_some', Option.some.injEq]
    rw [maskBits_emod]
    split_ifs <;> simp [h1]
  case SET_NE =>
    simp only [eval_insn, evalSpec, hA, hB, Option.map_some', Option.some.injEq]
    rw [maskBits_emod]
    split_ifs <;> simp [h1]
  case SET_LE =>
    simp only [eval_insn, evalSpec, hA, hB, Option.map_some', Option.some.injEq]
    rw [maskBits_emod]
    split_ifs <;> simp [h1]
  case SET_GE =>
    simp only [eval_insn, evalSpec, hA, hB, Option.map_some', Option.some.injEq]
    rw [maskBits_emod]
    split_ifs <;> simp [h1]
  case SET_LT =>
    simp only [eval_insn, evalSpec, hA, hB, Option.map_some', Option.some.injEq]
    rw [maskBits_emod]
    split_ifs <;> simp [h1]
  case SET_GT =>
    simp only [eval_insn, evalSpec, hA, hB, Option.map_some', Option.some.injEq]
    rw [maskBits_emod]
    split_ifs <;> simp [h1]
  case SET_B =>
    simp only [eval_insn, evalSpec, Option.map_some', Option.some.injEq]
    rw [maskBits_emod]
    split_ifs <;> simp [h1]
  case SET_A =>
    simp only [eval_insn, evalSpec, Option.map_some', Option.some.injEq]
    rw [maskBits_emod]
    split_ifs <;> simp [h1]
  case SET_BE =>
    simp only [eval_insn, evalSpec, Option.map_some', Option.some.injEq]
    rw [maskBits_emod]
    split_ifs <;> simp [h1]
  case SET_AE =>
    simp only [eval_insn, evalSpec, Option.map_some', Option.some.injEq]
    rw [maskBits_emod]
    split_ifs <;> simp [h1]

/-! ### Basic state lemmas -/

theorem insnAt_updPseudo (s : IR) (n : Nat) (f : Pseudo → Pseudo) (i : Nat) :
    (s.updPseudo n f).insnAt i = s.insnAt i := rfl

theorem readSlot_updPseudo (s : IR) (n : Nat) (f : Pseudo → Pseudo) (sl : Slot) :
    (s.updPseudo n f).readSlot sl = s.readSlot sl := rfl

theorem pseudoAt_updInsn (s : IR) (i : Nat) (f : Instruction → Instruction) (n : Nat) :
    (s.updInsn i f).pseudoAt n = s.pseudoAt n := rfl

theorem usersOf_updInsn (s : IR) (i : Nat) (f : Instruction → Instruction) (p : PseudoRef) :
    (s.updInsn i f).usersOf p = s.usersOf p := by
  cases p <;> rfl

theorem usersOf_writeSlot (s : IR) (sl : Slot) (q : PseudoRef) (p : PseudoRef) :
    (s.writeSlot sl q).usersOf p = s.usersOf p := by
  cases p <;> rfl

theorem insnAt_updInsn (s : IR) (i : Nat) (f : Instruction → Instruction) (j : Nat) :
    (s.updInsn i f).insnAt j =
      if j = i ∧ i < s.insns.length then f (s.insnAt i) else s.insnAt j := by
  simp only [IR.updInsn, IR.insnAt, List.getD_eq_getElem?_getD, List.getElem?_set]
  by_cases h1 : i = j
  · subst h1
    by_cases h2 : i < s.insns.length
    · simp [h2]
    · simp [h2, List.getElem?_eq_none (le_of_not_lt h2)]
  · have h1' : ¬ (j = i ∧ i < s.insns.length) := fun hc => h1 hc.1.symm
    simp [h1, h1']

theorem pseudoAt_updPseudo (s : IR) (n : Nat) (f : Pseudo → Pseudo) (m : Nat) :
    (s.updPseudo n f).pseudoAt m =
      if m = n ∧ n < s.pseudos.length then f (s.pseudoAt n) else s.pseudoAt m := by
  simp only [IR.updPseudo, IR.pseudoAt, List.getD_eq_getElem?_getD, List.getElem?_set]
  by_cases h1 : n = m
  · subst h1
    by_cases h2 : n < s.pseudos.length
    · simp [h2]
    · simp [h2, List.getElem?_eq_none (le_of_not_lt h2)]
  · have h1' : ¬ (m = n ∧ n < s.pseudos.length) := fun hc => h1 hc.1.symm
    simp [h1, h1']

theorem length_insns_updInsn (s : IR) (i : Nat) (f : Instruction → Instruction) :
    (s.updInsn i f).insns.length = s.insns.length := by
  simp [IR.updInsn]

theorem length_pseudos_updPseudo (s : IR) (n : Nat) (f : Pseudo → Pseudo) :
    (s.updPseudo n f).pseudos.length = s.pseudos.length := by
  simp [IR.updPseudo]

theorem bb_writeSlotI (insn : Instruction) (nm : SlotName) (p : PseudoRef) :
    (insn.writeSlot nm p).bb = insn.bb := by
  cases nm <;> rfl

theorem opcode_writeSlotI (insn : Instruction) (nm : SlotName) (p : PseudoRef) :
    (insn.writeSlot nm p).opcode = insn.opcode := by
  cases nm <;> rfl

theorem target_writeSlotI (insn : Instruction) (nm : SlotName) (p : PseudoRef)
    (h : nm ≠ .tgt) : (insn.writeSlot nm p).target = insn.target := by
  cases nm <;> first | rfl | exact absurd rfl h

theorem phiLen_writeSlotI (insn : Instruction) (nm : SlotName) (p : PseudoRef) :
    (insn.writeSlot nm p).phiList.length = insn.phiList.length := by
  cases nm <;> simp [Instruction.writeSlot]

theorem argLen_writeSlotI (insn : Instruction) (nm : SlotName) (p : PseudoRef) :
    (insn.writeSlot nm p).arguments.length = insn.arguments.length := by
  cases nm <;> simp [Instruction.writeSlot]

theorem getD_set_same {α : Type} (l : List α) (j : Nat) (d : α) :
    (l.set j d).getD j d = d := by
  simp only [List.getD_eq_getElem?_getD, List.getElem?_set]
  by_cases h : j < l.length <;> simp [h]

theorem readSlot_writeSlotI_ne (insn : Instruction) {nm nm' : SlotName} (h : nm ≠ nm')
    (p : PseudoRef) : (insn.writeSlot nm' p).readSlot nm = insn.readSlot nm := by
  cases nm <;> cases nm' <;>
    first
      | rfl
      | exact absurd rfl h
      | (rename_i a b
         have hab : b ≠ a := fun e => h (by rw [e])
         simp [Instruction.writeSlot, Instruction.readSlot,
           List.getD_eq_getElem?_getD, List.getElem?_set_ne hab])

theorem readSlot_writeSlotI_void (insn : Instruction) (nm : SlotName) :
    (insn.writeSlot nm .void).readSlot nm = .void := by
  cases nm <;> first | rfl | exact getD_set_same _ _ _

theorem readSlot_writeVoid (s : IR) (sl : Slot) (h : sl.insn < s.insns.length) :
    (s.writeSlot sl .void).readSlot sl = .void := by
  rcases sl with ⟨i, nm⟩
  rw [IR.readSlot, IR.writeSlot, insnAt_updInsn]
  simp only [h, and_true, if_pos rfl]
  exact readSlot_writeSlotI_void _ _

theorem readSlot_writeSlot_ne (s : IR) {sl sl' : Slot} (h : sl ≠ sl') (p : PseudoRef) :
    (s.writeSlot sl' p).readSlot sl = s.readSlot sl := by
  rcases sl with ⟨i, nm⟩
  rcases sl' with ⟨i', nm'⟩
  rw [IR.readSlot, IR.writeSlot, insnAt_updInsn, IR.readSlot]
  split
  · next hcond =>
    rcases hcond with ⟨rfl, _⟩
    have hnm : nm ≠ nm' := by
      intro e
      exact h (by rw [e])
    exact readSlot_writeSlotI_ne _ hnm p
  · rfl

/-! ### The kill cascade only shrinks the state -/

theorem killEvolves_refl (s : IR) : KillEvolves s s :=
  ⟨fun _ => Or.inl rfl, fun _ => List.Subset.refl _, fun _ => Or.inl rfl,
   fun _ => rfl, rfl, rfl, fun _ => rfl, fun _ => rfl, fun _ => rfl⟩

theorem killEvolves_trans {s t u : IR} (h1 : KillEvolves s t) (h2 : KillEvolves t u) :
    KillEvolves s u := by
  obtain ⟨a1, a2, a3, a4, a5, a6, a7, a8, a9⟩ := h1
  obtain ⟨b1, b2, b3, b4, b5, b6, b7, b8, b9⟩ := h2
  refine ⟨fun sl => ?_, fun p => (b2 p).trans (a2 p), fun i => ?_,
    fun n => (b4 n).trans (a4 n), b5.trans a5, b6.trans a6,
    fun i => (b7 i).trans (a7 i), fun i => (b8 i).trans (a8 i),
    fun i => (b9 i).trans (a9 i)⟩
  · rcases b1 sl with h | h
    · rw [h]
      exact a1 sl
    · exact Or.inr h
  · rcases b3 i with h | h
    · rw [h]
      exact a3 i
    · exact Or.inr h

theorem killEvolves_writeVoid (s : IR) (sl : Slot) :
    KillEvolves s (s.writeSlot sl .void) := by
  have hins : ∀ j, (s.writeSlot sl .void).insnAt j =
      if j = sl.insn ∧ sl.insn < s.insns.length
      then (s.insnAt sl.insn).writeSlot sl.name .void else s.insnAt j := by
    intro j
    rw [IR.writeSlot, insnAt_updInsn]
  refine ⟨fun sl' => ?_,
    fun p => by rw [usersOf_writeSlot]; exact List.Subset.refl _, fun i => ?_,
    fun n => rfl, by simp [IR.writeSlot, length_insns_updInsn], rfl, fun i => ?_,
    fun i => ?_, fun i => ?_⟩
  · by_cases h : sl' = sl
    · subst h
      by_cases hb : sl'.insn < s.insns.length
      · exact Or.inr (readSlot_writeVoid s sl' hb)
      · left
        rw [IR.readSlot, hins, IR.readSlot]
        simp [hb]
    · exact Or.inl (readSlot_writeSlot_ne s h _)
  · left
    rw [hins]
    split
    · next hc =>
      rcases hc with ⟨rfl, _⟩
      exact bb_writeSlotI _ _ _
    · rfl
  · rw [hins]
    split
    · next hc =>
      rcases hc with ⟨rfl, _⟩
      exact opcode_writeSlotI _ _ _
    · rfl
  · rw [hins]
    split
    · next hc =>
      rcases hc with ⟨rfl, _⟩
      exact phiLen_writeSlotI _ _ _
    · rfl
  · rw [hins]
    split
    · next hc =>
      rcases hc with ⟨rfl, _⟩
      exact argLen_writeSlotI _ _ _
    · rfl

theorem killEvolves_eraseUser (s : IR) (n : Nat) (x : Slot) :
    KillEvolves s (s.updPseudo n (fun ps => { ps with users := ps.users.erase x })) := by
  refine ⟨fun sl => Or.inl (readSlot_updPseudo s n _ sl), fun p => ?_,
    fun i => Or.inl rfl, fun m => ?_, rfl, length_pseudos_updPseudo s n _,
    fun i => rfl, fun i => rfl, fun i => rfl⟩
  · cases p with
    | id m =>
      show ((s.updPseudo n _).pseudoAt m).users ⊆ (s.pseudoAt m).users
      rw [pseudoAt_updPseudo]
      split
      · next hc =>
        rcases hc with ⟨rfl, _⟩
        exact List.erase_subset _ _
      · exact List.Subset.refl _
    | null => exact List.Subset.refl _
    | void => exact List.Subset.refl _
    | val v => exact List.Subset.refl _
  · rw [pseudoAt_updPseudo]
    split
    · next hc =>
      rcases hc with ⟨rfl, _⟩
      rfl
    · rfl

theorem killEvolves_phase (s : IR) (x : Nat) :
    KillEvolves s { s with repeatPhase := x } :=
  ⟨fun _ => Or.inl rfl, fun p => by cases p <;> exact List.Subset.refl _,
   fun _ => Or.inl rfl, fun _ => rfl, rfl, rfl, fun _ => rfl, fun _ => rfl, fun _ => rfl⟩

theorem killEvolves_bbNone (s : IR) (i : Nat) :
    KillEvolves s (s.updInsn i (fun ins => { ins with bb := none })) := by
  have hins : ∀ j, (s.updInsn i (fun ins => { ins with bb := none })).insnAt j =
      if j = i ∧ i < s.insns.length
      then { s.insnAt i with bb := none } else s.insnAt j := fun j => insnAt_updInsn s i _ j
  refine ⟨fun sl => ?_,
    fun p => by rw [usersOf_updInsn]; exact List.Subset.refl _, fun j => ?_, fun n => rfl,
    length_insns_updInsn s i _, rfl, fun j => ?_, fun j => ?_, fun j => ?_⟩
  · left
    rw [IR.readSlot, hins, IR.readSlot]
    split
    · next hc =>
      rcases hc with ⟨rfl, _⟩
      cases sl.name <;> rfl
    · rfl
  · rw [hins]
    split
    · exact Or.inr rfl
    · exact Or.inl rfl
  · rw [hins]
    split
    · next hc =>
      rcases hc with ⟨rfl, _⟩
      rfl
    · rfl
  · rw [hins]
    split
    · next hc =>
      rcases hc with ⟨rfl, _⟩
      rfl
    · rfl
  · rw [hins]
    split
    · next hc =>
      rcases hc with ⟨rfl, _⟩
      rfl
    · rfl

theorem killEvolves_rem_usage (killI : Nat → IR → IR)
    (hk : ∀ j t, KillEvolves t (killI j t)) (p : PseudoRef) (usep : Slot) (kill : Bool)
    (s : IR) : KillEvolves s (rem_usageG killI p usep kill s) := by
  cases p with
  | null => exact killEvolves_refl s
  | void => exact killEvolves_refl s
  | val v => exact killEvolves_refl s
  | id n => ?_
  unfold rem_usageG
  rw [if_pos (show has_use_list (PseudoRef.id n) = true from rfl)]
  show KillEvolves s
    (let s1 := if s.isSym (PseudoRef.id n) = true
        then { s with repeatPhase := s.repeatPhase ||| REPEAT_SYMBOL_CLEANUP } else s
     let s2 := s1.updPseudo n fun ps => { ps with users := ps.users.erase usep }
     if kill = true ∧ s2.usersOf (PseudoRef.id n) = [] then
       match s2.pseudoDef (PseudoRef.id n) with
       | some d => killI d s2
       | none => s2
     else s2)
  have e1 : KillEvolves s (if s.isSym (PseudoRef.id n) = true
      then { s with repeatPhase := s.repeatPhase ||| REPEAT_SYMBOL_CLEANUP }
      else s) := by
    split
    · exact killEvolves_phase s _
    · exact killEvolves_refl s
  generalize hS1 : (if s.isSym (PseudoRef.id n) = true
      then { s with repeatPhase := s.repeatPhase ||| REPEAT_SYMBOL_CLEANUP }
      else s) = s1 at e1 ⊢
  show KillEvolves s
    (let s2 := s1.updPseudo n fun ps => { ps with users := ps.users.erase usep }
     if kill = true ∧ s2.usersOf (PseudoRef.id n) = [] then
       match s2.pseudoDef (PseudoRef.id n) with
       | some d => killI d s2
       | none => s2
     else s2)
  refine killEvolves_trans e1 ?_
  refine killEvolves_trans (killEvolves_eraseUser s1 n usep) ?_
  generalize hS2 : (s1.updPseudo n fun ps => { ps with users := ps.users.erase usep }) = s2
  show KillEvolves s2
    (if kill = true ∧ s2.usersOf (PseudoRef.id n) = [] then
       match s2.pseudoDef (PseudoRef.id n) with
       | some d => killI d s2
       | none => s2
     else s2)
  split
  · split
    · exact hk _ _
    · exact killEvolves_refl _
  · exact killEvolves_refl _


theorem killEvolves_kill_use (killI : Nat → IR → IR)
    (hk : ∀ j t, KillEvolves t (killI j t)) (sl : Slot) (s : IR) :
    KillEvolves s (kill_useG killI sl s) := by
  rw [kill_useG]
  exact killEvolves_trans (killEvolves_writeVoid s sl)
    (killEvolves_rem_usage killI hk _ sl true _)

theorem killEvolves_foldl (step : IR → Nat → IR)
    (h : ∀ t j, KillEvolves t (step t j)) :
    ∀ (l : List Nat) (s : IR), KillEvolves s (l.foldl step s) := by
  intro l
  induction l with
  | nil => exact fun s => killEvolves_refl s
  | cons a as ih =>
    intro s
    exact killEvolves_trans (h s a) (ih (step s a))

theorem killEvolves_kill_use_list (killI : Nat → IR → IR)
    (hk : ∀ j t, KillEvolves t (killI j t)) (i : Nat) (mk : Nat → SlotName) (len : Nat)
    (s : IR) : KillEvolves s (kill_use_listG killI i mk len s) := by
  rw [kill_use_listG]
  apply killEvolves_foldl
  intro t j
  dsimp only
  split
  · exact killEvolves_refl t
  · exact killEvolves_kill_use killI hk _ t

theorem killEvolves_kill_insn_slots (killI : Nat → IR → IR)
    (hk : ∀ j t, KillEvolves t (killI j t)) (i : Nat) (op : Opcode) (s : IR) :
    KillEvolves s (kill_insn_slots killI i op s) := by
  have hu : ∀ (sl : Slot) (t : IR), KillEvolves t (kill_useG killI sl t) :=
    fun sl t => killEvolves_kill_use killI hk sl t
  have hl : ∀ (j : Nat) (mk : Nat → SlotName) (len : Nat) (t : IR),
      KillEvolves t (kill_use_listG killI j mk len t) :=
    fun j mk len t => killEvolves_kill_use_list killI hk j mk len t
  rw [kill_insn_slots]
  split
  · exact killEvolves_trans (hu _ _) (killEvolves_trans (hu _ _) (hu _ _))
  · split
    · exact killEvolves_trans (hu _ _) (hu _ _)
    · split
      · exact hu _ _
      · split
        · exact hl _ _ _ _
        · split
          · exact hu _ _
          · split
            · exact killEvolves_phase _ _
            · split
              · exact hu _ _
              · split
                · dsimp only
                  split
                  · exact killEvolves_trans (hl _ _ _ _) (hu _ _)
                  · exact hl _ _ _ _
                · split
                  · exact hu _ _
                  · split
                    · exact killEvolves_trans (hu _ _) (hu _ _)
                    · exact killEvolves_refl _

theorem killEvolves_kill_insnF :
    ∀ (fuel i : Nat) (force : Bool) (s : IR),
      KillEvolves s (kill_insnF fuel i force s).2 := by
  intro fuel
  induction fuel with
  | zero => exact fun i force s => killEvolves_refl s
  | succ f ih =>
    intro i force s
    have hk : ∀ (j : Nat) (t : IR),
        KillEvolves t ((fun j st => (kill_insnF f j false st).2) j t) :=
      fun j t => ih j false t
    rw [kill_insnF]
    dsimp only
    split
    · split
      · exact killEvolves_refl s
      · split
        · exact killEvolves_refl s
        · split
          · exact killEvolves_refl s
          · split
            · exact killEvolves_refl s
            · exact killEvolves_trans (killEvolves_kill_insn_slots _ hk i _ s)
                (killEvolves_trans (killEvolves_bbNone _ i) (killEvolves_phase _ _))
    · exact killEvolves_refl s

theorem killEvolves_killOf (fuel j : Nat) (s : IR) : KillEvolves s (killOf fuel j s) :=
  killEvolves_kill_insnF fuel j false s

theorem KillEvolves.slots {s t : IR} (h : KillEvolves s t) :
    ∀ sl, t.readSlot sl = s.readSlot sl ∨ t.readSlot sl = .void := h.1

theorem KillEvolves.users {s t : IR} (h : KillEvolves s t) :
    ∀ p, t.usersOf p ⊆ s.usersOf p := h.2.1

theorem KillEvolves.bbs {s t : IR} (h : KillEvolves s t) :
    ∀ i, (t.insnAt i).bb = (s.insnAt i).bb ∨ (t.insnAt i).bb = none := h.2.2.1

theorem KillEvolves.kinds {s t : IR} (h : KillEvolves s t) :
    ∀ n, (t.pseudoAt n).kind = (s.pseudoAt n).kind := h.2.2.2.1

theorem KillEvolves.insLen {s t : IR} (h : KillEvolves s t) :
    t.insns.length = s.insns.length := h.2.2.2.2.1

theorem KillEvolves.pseLen {s t : IR} (h : KillEvolves s t) :
    t.pseudos.length = s.pseudos.length := h.2.2.2.2.2.1

theorem KillEvolves.opcodes {s t : IR} (h : KillEvolves s t) :
    ∀ i, (t.insnAt i).opcode = (s.insnAt i).opcode := h.2.2.2.2.2.2.1

theorem KillEvolves.phiLens {s t : IR} (h : KillEvolves s t) :
    ∀ i, (t.insnAt i).phiList.length = (s.insnAt i).phiList.length := h.2.2.2.2.2.2.2.1

theorem KillEvolves.argLens {s t : IR} (h : KillEvolves s t) :
    ∀ i, (t.insnAt i).arguments.length = (s.insnAt i).arguments.length := h.2.2.2.2.2.2.2.2

theorem evolve_void {s t : IR} (h : KillEvolves s t) {sl : Slot}
    (hv : s.readSlot sl = .void) : t.readSlot sl = .void := by
  rcases h.slots sl with h' | h'
  · rw [h', hv]
  · exact h'

theorem evolve_isReg {s t : IR} (h : KillEvolves s t) (p : PseudoRef) :
    t.isReg p = s.isReg p := by
  cases p with
  | id n =>
    show (match (t.pseudoAt n).kind with | .reg _ => true | _ => false) =
      (match (s.pseudoAt n).kind with | .reg _ => true | _ => false)
    rw [h.kinds n]
  | null => rfl
  | void => rfl
  | val v => rfl

theorem kill_use_void (killI : Nat → IR → IR)
    (hk : ∀ j t, KillEvolves t (killI j t)) (sl : Slot) (s : IR)
    (hi : sl.insn < s.insns.length) : (kill_useG killI sl s).readSlot sl = .void := by
  rw [kill_useG]
  have h1 : (s.writeSlot sl .void).readSlot sl = .void := readSlot_writeVoid s sl hi
  exact evolve_void (killEvolves_rem_usage killI hk (s.readSlot sl) sl true _) h1

theorem foldl_kill_void (killI : Nat → IR → IR)
    (hk : ∀ j t, KillEvolves t (killI j t)) (i : Nat) (mk : Nat → SlotName) :
    ∀ (l : List Nat) (s : IR), i < s.insns.length → ∀ j ∈ l,
      ((l.foldl (fun st j' =>
          let p := st.readSlot ⟨i, mk j'⟩
          if p = .void then st else kill_useG killI ⟨i, mk j'⟩ st) s).readSlot ⟨i, mk j⟩
        = .void) := by
  have hstep : ∀ (t : IR) (j' : Nat), KillEvolves t
      ((fun st j' =>
        let p := st.readSlot ⟨i, mk j'⟩
        if p = .void then st else kill_useG killI ⟨i, mk j'⟩ st) t j') := by
    intro t j'
    dsimp only
    split
    · exact killEvolves_refl t
    · exact killEvolves_kill_use killI hk _ t
  intro l
  induction l with
  | nil => intro s _ j hj
           exact absurd hj (List.not_mem_nil j)
  | cons a as ih =>
    intro s hi j hj
    rw [List.foldl_cons]
    have hstepa := hstep s a
    have hlen : i < ((fun st j' =>
        let p := st.readSlot ⟨i, mk j'⟩
        if p = .void then st else kill_useG killI ⟨i, mk j'⟩ st) s a).insns.length := by
      rw [hstepa.insLen]
      exact hi
    rcases List.mem_cons.mp hj with rfl | hj'
    · have hvoid : ((fun st j' =>
          let p := st.readSlot ⟨i, mk j'⟩
          if p = .void then st else kill_useG killI ⟨i, mk j'⟩ st) s j).readSlot ⟨i, mk j⟩
          = .void := by
        dsimp only
        split
        · next hc => exact hc
        · exact kill_use_void killI hk _ s hi
      exact evolve_void (killEvolves_foldl _ hstep as _) hvoid
    · exact ih _ hlen j hj'

theorem kill_use_list_void (killI : Nat → IR → IR)
    (hk : ∀ j t, KillEvolves t (killI j t)) (i : Nat) (mk : Nat → SlotName) (len : Nat)
    (s : IR) (hi : i < s.insns.length) :
    ∀ j ∈ List.range len, (kill_use_listG killI i mk len s).readSlot ⟨i, mk j⟩ = .void := by
  intro j hj
  rw [kill_use_listG]
  exact foldl_kill_void killI hk i mk (List.range len) s hi j hj

theorem or_one_mod_two (x : Nat) : (x ||| 1) % 2 = 1 := by
  have h := nat_lor_mod_two_pow x 1 1
  have h2 : (2 : Nat) ^ 1 = 2 := by norm_num
  rw [h2] at h
  rw [h]
  rcases Nat.mod_two_eq_zero_or_one x with hx | hx <;> rw [hx] <;> rfl

theorem kill_insn_slots_void (killI : Nat → IR → IR)
    (hk : ∀ j t, KillEvolves t (killI j t)) (i : Nat) (s : IR)
    (hi : i < s.insns.length) :
    ∀ nm ∈ killSlots s i,
      (kill_insn_slots killI i ((s.insnAt i).opcode) s).readSlot ⟨i, nm⟩ = .void := by
  intro nm hmem
  have hkU : ∀ (sl : Slot) (t : IR), KillEvolves t (kill_useG killI sl t) :=
    fun sl t => killEvolves_kill_use killI hk sl t
  rw [killSlots] at hmem
  rw [kill_insn_slots]
  dsimp only at hmem ⊢
  by_cases h1 : ((s.insnAt i).opcode = Opcode.SEL ∨ (s.insnAt i).opcode = Opcode.RANGE)
  · rw [if_pos h1] at hmem ⊢
    have hi1 : i < (kill_useG killI ⟨i, .s3⟩ s).insns.length := by
      rw [(hkU _ _).insLen]
      exact hi
    have hi2 : i < (kill_useG killI ⟨i, .s2⟩ (kill_useG killI ⟨i, .s3⟩ s)).insns.length := by
      rw [(hkU _ _).insLen]
      exact hi1
    simp only [List.mem_cons, List.not_mem_nil, or_false] at hmem
    rcases hmem with rfl | rfl | rfl
    · exact evolve_void (hkU ⟨i, .s1⟩ _)
        (evolve_void (hkU ⟨i, .s2⟩ _) (kill_use_void killI hk _ s hi))
    · exact evolve_void (hkU ⟨i, .s1⟩ _) (kill_use_void killI hk _ _ hi1)
    · exact kill_use_void killI hk _ _ hi2
  rw [if_neg h1] at hmem ⊢
  by_cases h2 : ((s.insnAt i).opcode.isBinaryToBincmpEnd = true)
  · rw [if_pos h2] at hmem ⊢
    have hi1 : i < (kill_useG killI ⟨i, .s2⟩ s).insns.length := by
      rw [(hkU _ _).insLen]
      exact hi
    simp only [List.mem_cons, List.not_mem_nil, or_false] at hmem
    rcases hmem with rfl | rfl
    · exact evolve_void (hkU ⟨i, .s1⟩ _) (kill_use_void killI hk _ s hi)
    · exact kill_use_void killI hk _ _ hi1
  rw [if_neg h2] at hmem ⊢
  by_cases h3 : ((s.insnAt i).opcode = Opcode.CAST ∨ (s.insnAt i).opcode = Opcode.SCAST ∨
      (s.insnAt i).opcode = Opcode.FPCAST ∨ (s.insnAt i).opcode = Opcode.PTRCAST ∨
      (s.insnAt i).opcode = Opcode.SETVAL ∨ (s.insnAt i).opcode = Opcode.NOT ∨
      (s.insnAt i).opcode = Opcode.NEG ∨ (s.insnAt i).opcode = Opcode.SLICE)
  · rw [if_pos h3] at hmem ⊢
    simp only [List.mem_cons, List.not_mem_nil, or_false] at hmem
    rcases hmem with rfl
    exact kill_use_void killI hk _ s hi
  rw [if_neg h3] at hmem ⊢
  by_cases h4 : ((s.insnAt i).opcode = Opcode.PHI)
  · rw [if_pos h4] at hmem ⊢
    rcases List.mem_map.mp hmem with ⟨j, hj, rfl⟩
    exact kill_use_list_void killI hk i SlotName.phiEnt _ s hi j hj
  rw [if_neg h4] at hmem ⊢
  by_cases h5 : ((s.insnAt i).opcode = Opcode.PHISOURCE)
  · rw [if_pos h5] at hmem ⊢
    simp only [List.mem_cons, List.not_mem_nil, or_false] at hmem
    rcases hmem with rfl
    exact kill_use_void killI hk _ s hi
  rw [if_neg h5] at hmem ⊢
  by_cases h6 : ((s.insnAt i).opcode = Opcode.SYMADDR)
  · rw [if_pos h6]
    exfalso
    have c7 : ¬ ((s.insnAt i).opcode = Opcode.CBR ∨
        (s.insnAt i).opcode = Opcode.COMPUTEDGOTO) := by
      rw [h6]
      rintro (hc | hc) <;> exact Opcode.noConfusion hc
    have c8 : ¬ ((s.insnAt i).opcode = Opcode.CALL) := by
      rw [h6]
      intro hc
      exact Opcode.noConfusion hc
    have c9 : ¬ ((s.insnAt i).opcode = Opcode.LOAD) := by
      rw [h6]
      intro hc
      exact Opcode.noConfusion hc
    have c10 : ¬ ((s.insnAt i).opcode = Opcode.STORE) := by
      rw [h6]
      intro hc
      exact Opcode.noConfusion hc
    rw [if_neg c7, if_neg c8, if_neg c9, if_neg c10] at hmem
    exact absurd hmem (List.not_mem_nil _)
  rw [if_neg h6]
  by_cases h7 : ((s.insnAt i).opcode = Opcode.CBR ∨ (s.insnAt i).opcode = Opcode.COMPUTEDGOTO)
  · rw [if_pos h7] at hmem ⊢
    simp only [List.mem_cons, List.not_mem_nil, or_false] at hmem
    rcases hmem with rfl
    exact kill_use_void killI hk _ s hi
  rw [if_neg h7] at hmem ⊢
  by_cases h8 : ((s.insnAt i).opcode = Opcode.CALL)
  · rw [if_pos h8] at hmem ⊢
    have eA : KillEvolves s
        (kill_use_listG killI i SlotName.argEnt ((s.insnAt i).arguments.length) s) :=
      killEvolves_kill_use_list killI hk _ _ _ s
    have hiA : i < (kill_use_listG killI i SlotName.argEnt
        ((s.insnAt i).arguments.length) s).insns.length := by
      rw [eA.insLen]
      exact hi
    rcases List.mem_append.mp hmem with hargs | hfun
    · rcases List.mem_map.mp hargs with ⟨j, hj, rfl⟩
      have hv := kill_use_list_void killI hk i SlotName.argEnt _ s hi j hj
      split
      · exact evolve_void (hkU _ _) hv
      · exact hv
    · have hreg : s.isReg ((s.insnAt i).slot1) = true := by
        by_contra hc
        rw [if_neg (by simpa using hc)] at hfun
        exact absurd hfun (List.not_mem_nil _)
      rw [if_pos hreg] at hfun
      simp only [List.mem_cons, List.not_mem_nil, or_false] at hfun
      rcases hfun with rfl
      rcases eA.slots ⟨i, .s1⟩ with hsl | hsl
      · have hread : ((kill_use_listG killI i SlotName.argEnt
            ((s.insnAt i).arguments.length) s).insnAt i).slot1 =
            (s.insnAt i).slot1 := hsl
        split
        · exact kill_use_void killI hk _ _ hiA
        · next hcond =>
          exfalso
          apply hcond
          rw [hread, evolve_isReg eA]
          exact hreg
      · have hread : ((kill_use_listG killI i SlotName.argEnt
            ((s.insnAt i).arguments.length) s).insnAt i).slot1 = .void := hsl
        split
        · exact kill_use_void killI hk _ _ hiA
        · exact hsl
  rw [if_neg h8] at hmem ⊢
  by_cases h9 : ((s.insnAt i).opcode = Opcode.LOAD)
  · rw [if_pos h9] at hmem ⊢
    simp only [List.mem_cons, List.not_mem_nil, or_false] at hmem
    rcases hmem with rfl
    exact kill_use_void killI hk _ s hi
  rw [if_neg h9] at hmem ⊢
  by_cases h10 : ((s.insnAt i).opcode = Opcode.STORE)
  · rw [if_pos h10] at hmem ⊢
    have hi1 : i < (kill_useG killI ⟨i, .s1⟩ s).insns.length := by
      rw [(hkU _ _).insLen]
      exact hi
    simp only [List.mem_cons, List.not_mem_nil, or_false] at hmem
    rcases hmem with rfl | rfl
    · exact evolve_void (hkU ⟨i, .tgt⟩ _) (kill_use_void killI hk _ s hi)
    · exact kill_use_void killI hk _ _ hi1
  rw [if_neg h10] at hmem
  exact absurd hmem (List.not_mem_nil _)

/-- Claim C3 — kill refusal contract.  With `force = 0`: a volatile load, a
store, an entry, or a call to a non-pure callee is refused, with the state
returned untouched; every non-refused kill of a live instruction marks it
dead, voids the opcode's operand slots, and returns a phase word whose
REPEAT_CSE bit is set.  In particular the dispatcher leaves a user-less
volatile LOAD alone. -/
theorem kill_insn_contract (fuel i : Nat) (s : IR) (hf : 0 < fuel)
    (hlive : s.liveInsn i) :
    (kill_refused s i → kill_insnF fuel i false s = (0, s)) ∧
    (¬ kill_refused s i →
      (kill_insnF fuel i false s).1 % 2 = REPEAT_CSE ∧
      ((kill_insnF fuel i false s).2.insnAt i).bb = none ∧
      ∀ nm ∈ killSlots s i, (kill_insnF fuel i false s).2.readSlot ⟨i, nm⟩ = .void) ∧
    ((s.insnAt i).opcode = .LOAD ∧ (s.insnAt i).typ.volat = true ∧
        s.usersOf ((s.insnAt i).target) = [] →
      simplify_instruction fuel i s = (0, s)) := by
  obtain ⟨f, rfl⟩ : ∃ f, fuel = f + 1 := ⟨fuel - 1, by omega⟩
  obtain ⟨hlen, hbb⟩ := hlive
  have hk : ∀ (j : Nat) (t : IR),
      KillEvolves t ((fun j st => (kill_insnF f j false st).2) j t) :=
    fun j t => killEvolves_kill_insnF f j false t
  have hguard : (i < s.insns.length ∧ (s.insnAt i).bb ≠ none) := ⟨hlen, hbb⟩
  have hpartA : kill_refused s i → kill_insnF (f + 1) i false s = (0, s) := by
    intro href
    rw [kill_refused] at href
    try dsimp only at href
    rw [kill_insnF]
    dsimp only
    rw [if_pos hguard]
    rcases href with ⟨hop, hvol⟩ | hop | hop | ⟨hop, hpure⟩
    · rw [if_neg (by rw [hop]; rintro ⟨hc, -⟩; exact Opcode.noConfusion hc),
        if_pos ⟨hop, by simp, hvol⟩]
    · rw [if_neg (by rw [hop]; rintro ⟨hc, -⟩; exact Opcode.noConfusion hc),
        if_neg (by rw [hop]; rintro ⟨hc, -⟩; exact Opcode.noConfusion hc),
        if_pos ⟨hop, by simp⟩]
    · rw [if_neg (by rw [hop]; rintro ⟨hc, -⟩; exact Opcode.noConfusion hc),
        if_neg (by rw [hop]; rintro ⟨hc, -⟩; exact Opcode.noConfusion hc),
        if_neg (by rw [hop]; rintro ⟨hc, -⟩; exact Opcode.noConfusion hc),
        if_pos hop]
    · rw [if_pos ⟨hop, by simp, by simpa using hpure⟩]
  refine ⟨hpartA, ?_, ?_⟩
  · intro href
    rw [kill_refused] at href
    try dsimp only at href
    push_neg at href
    obtain ⟨nl, ns, ne, nc⟩ := href
    have hc1 : ¬ ((s.insnAt i).opcode = Opcode.CALL ∧ ¬ false = true ∧
        ¬ s.calleePure ((s.insnAt i).slot1) = true) := by
      rintro ⟨hCALL, -, hnp⟩
      exact (by simpa using nc hCALL : s.calleePure ((s.insnAt i).slot1) = true) |> hnp
    have hc2 : ¬ ((s.insnAt i).opcode = Opcode.LOAD ∧ ¬ false = true ∧
        (s.insnAt i).typ.volat = true) := by
      rintro ⟨hLOAD, -, hv⟩
      exact nl hLOAD hv
    have hc3 : ¬ ((s.insnAt i).opcode = Opcode.STORE ∧ ¬ false = true) := by
      rintro ⟨hSTORE, -⟩
      exact ns hSTORE
    rw [kill_insnF]
    dsimp only
    rw [if_pos hguard, if_neg hc1, if_neg hc2, if_neg hc3, if_neg ne]
    have eSlots : KillEvolves s (kill_insn_slots
        (fun j st => (kill_insnF f j false st).2) i ((s.insnAt i).opcode) s) :=
      killEvolves_kill_insn_slots _ hk i _ s
    have hlen1 : i < (kill_insn_slots (fun j st => (kill_insnF f j false st).2) i
        ((s.insnAt i).opcode) s).insns.length := by
      rw [eSlots.insLen]
      exact hlen
    refine ⟨?_, ?_, ?_⟩
    · show (_ ||| 1) % 2 = 1
      exact or_one_mod_two _
    · show (((kill_insn_slots (fun j st => (kill_insnF f j false st).2) i
          ((s.insnAt i).opcode) s).updInsn i
          (fun ins => { ins with bb := none })).insnAt i).bb = none
      rw [insnAt_updInsn]
      rw [if_pos ⟨rfl, hlen1⟩]
    · intro nm hnm
      have hv := kill_insn_slots_void (fun j st => (kill_insnF f j false st).2) hk i s
        hlen nm hnm
      exact evolve_void (killEvolves_trans (killEvolves_bbNone _ i)
        (killEvolves_phase _ _)) hv
  · rintro ⟨hop, hvol, husers⟩
    rw [simplify_instruction]
    dsimp only
    rw [if_neg hbb, hop]
    dsimp only
    have hhu : s.has_users ((s.insnAt i).target) = false := by
      simp [IR.has_users, husers]
    rw [if_pos (by simp [hhu])]
    exact hpartA (Or.inl ⟨hop, hvol⟩)

/-- Witness for `kill_insn_contract`, at a concrete volatile-load state. -/
theorem kill_insn_contract_witness :
    (0 < 5 ∧ IR.liveInsn
      { pseudos := [⟨.arg, [⟨0, .s1⟩]⟩, ⟨.reg 0, []⟩],
        insns := [{ opcode := .LOAD, size := 32, bb := some 0,
                    typ := { defaultCType with volat := true },
                    target := .id 1, slot1 := .id 0 }],
        blocks := [{ insns := [0] }] } 0) ∧
    (kill_refused
      { pseudos := [⟨.arg, [⟨0, .s1⟩]⟩, ⟨.reg 0, []⟩],
        insns := [{ opcode := .LOAD, size := 32, bb := some 0,
                    typ := { defaultCType with volat := true },
                    target := .id 1, slot1 := .id 0 }],
        blocks := [{ insns := [0] }] } 0 →
      kill_insnF 5 0 false
        { pseudos := [⟨.arg, [⟨0, .s1⟩]⟩, ⟨.reg 0, []⟩],
          insns := [{ opcode := .LOAD, size := 32, bb := some 0,
                      typ := { defaultCType with volat := true },
                      target := .id 1, slot1 := .id 0 }],
          blocks := [{ insns := [0] }] } =
        (0, { pseudos := [⟨.arg, [⟨0, .s1⟩]⟩, ⟨.reg 0, []⟩],
              insns := [{ opcode := .LOAD, size := 32, bb := some 0,
                          typ := { defaultCType with volat := true },
                          target := .id 1, slot1 := .id 0 }],
              blocks := [{ insns := [0] }] })) ∧
    True := by
  refine ⟨⟨by norm_num, by constructor <;> simp [IR.insnAt]⟩, ?_, trivial⟩
  have h := kill_insn_contract 5 0
    { pseudos := [⟨.arg, [⟨0, .s1⟩]⟩, ⟨.reg 0, []⟩],
      insns := [{ opcode := .LOAD, size := 32, bb := some 0,
                  typ := { defaultCType with volat := true },
                  target := .id 1, slot1 := .id 0 }],
      blocks := [{ insns := [0] }] }
    (by norm_num) (by constructor <;> simp [IR.insnAt])
  exact h.1

/-- Claim C4 counterexample.  The claim says that unbinding a φ-list entry is
non-cascading: the φ-source is NOT recursively killed even when the entry
pseudo's use list becomes empty.  In `phiCascadeState`, instruction 1 is a
live OP_PHISOURCE whose PHI pseudo is used only by the φ (instruction 0);
after `kill_insn(φ, 0)` the φ-source HAS been killed (its `bb` is null) —
`kill_use_list` uses the cascading `kill_use`. -/
theorem kill_phi_cascades_cex :
    phiCascadeState.liveInsn 1 ∧
    (phiCascadeState.insnAt 1).opcode = Opcode.PHISOURCE ∧
    ((kill_insnF 5 0 false phiCascadeState).2.insnAt 1).bb = none ∧
    ((kill_insnF 5 0 false phiCascadeState).2.insnAt 1).slot1 = .void := by
  refine ⟨⟨by decide, by decide⟩, by decide, by decide, by decide⟩

/-- Claim C4, amended — killing a φ unbinds every φ-list entry (the slots are
VOIDed and the φ dies), and the unbind is CASCADING: when an entry pseudo's
use list becomes empty, its defining φ-source is recursively killed.  The
cascade conjunct exhibits this for a φ with a single live entry. -/
theorem kill_phi_unbinds_and_cascades (fuel i : Nat) (s : IR) (hf : 0 < fuel)
    (hlive : s.liveInsn i) (hop : (s.insnAt i).opcode = .PHI) :
    (∀ j, j < (s.insnAt i).phiList.length →
      (kill_insnF fuel i false s).2.readSlot ⟨i, .phiEnt j⟩ = .void) ∧
    ((kill_insnF fuel i false s).2.insnAt i).bb = none ∧
    (∀ p d, 2 ≤ fuel → p < s.pseudos.length →
      (s.insnAt i).phiList = [.id p] →
      (s.pseudoAt p).kind = .phi d →
      (s.pseudoAt p).users = [⟨i, SlotName.phiEnt 0⟩] →
      d ≠ i → s.liveInsn d →
      (s.insnAt d).opcode = .PHISOURCE →
      ((kill_insnF fuel i false s).2.insnAt d).bb = none ∧
      ((kill_insnF fuel i false s).2.pseudoAt p).users = []) := by
  obtain ⟨f, rfl⟩ : ∃ f, fuel = f + 1 := ⟨fuel - 1, by omega⟩
  obtain ⟨hlen, hbb⟩ := hlive
  have hk : ∀ (j : Nat) (t : IR),
      KillEvolves t ((fun j st => (kill_insnF f j false st).2) j t) :=
    fun j t => killEvolves_kill_insnF f j false t
  have hguard : i < s.insns.length ∧ (s.insnAt i).bb ≠ none := ⟨hlen, hbb⟩
  have hstep : kill_insnF (f + 1) i false s =
      (let s1 := kill_insn_slots (fun j st => (kill_insnF f j false st).2) i
         ((s.insnAt i).opcode) s
       let s2 := s1.updInsn i (fun ins => { ins with bb := none })
       let s3 := { s2 with repeatPhase := s2.repeatPhase ||| REPEAT_CSE }
       (s3.repeatPhase, s3)) := by
    rw [kill_insnF]
    dsimp only
    rw [if_pos hguard,
      if_neg (by rw [hop]; rintro ⟨hc, -⟩; exact Opcode.noConfusion hc),
      if_neg (by rw [hop]; rintro ⟨hc, -⟩; exact Opcode.noConfusion hc),
      if_neg (by rw [hop]; rintro ⟨hc, -⟩; exact Opcode.noConfusion hc),
      if_neg (by rw [hop]; exact fun hc => Opcode.noConfusion hc)]
  have hslots : kill_insn_slots (fun j st => (kill_insnF f j false st).2) i
      ((s.insnAt i).opcode) s =
      kill_use_listG (fun j st => (kill_insnF f j false st).2) i SlotName.phiEnt
        ((s.insnAt i).phiList.length) s := by
    rw [kill_insn_slots]
    rw [if_neg (by rw [hop]; decide),
      if_neg (by rw [hop]; decide),
      if_neg (by rw [hop]; decide),
      if_pos hop]
  have eSlots : KillEvolves s (kill_use_listG (fun j st => (kill_insnF f j false st).2)
      i SlotName.phiEnt ((s.insnAt i).phiList.length) s) :=
    killEvolves_kill_use_list _ hk _ _ _ _
  have hlen1 : i < (kill_use_listG (fun j st => (kill_insnF f j false st).2)
      i SlotName.phiEnt ((s.insnAt i).phiList.length) s).insns.length := by
    rw [eSlots.insLen]
    exact hlen
  refine ⟨?_, ?_, ?_⟩
  · intro j hj
    have hv := kill_use_list_void (fun j st => (kill_insnF f j false st).2) hk i
      SlotName.phiEnt ((s.insnAt i).phiList.length) s hlen j (List.mem_range.mpr hj)
    rw [hstep]
    dsimp only
    rw [hslots]
    exact evolve_void (killEvolves_trans (killEvolves_bbNone _ i)
      (killEvolves_phase _ _)) hv
  · rw [hstep]
    dsimp only
    rw [hslots]
    show (((kill_use_listG (fun j st => (kill_insnF f j false st).2) i SlotName.phiEnt
        ((s.insnAt i).phiList.length) s).updInsn i
        (fun ins => { ins with bb := none })).insnAt i).bb = none
    rw [insnAt_updInsn, if_pos ⟨rfl, hlen1⟩]
  · intro p d hf2 hp hlist hkind husers hdi hlived hopd
    obtain ⟨g, rfl⟩ : ∃ g, f = g + 1 := ⟨f - 1, by omega⟩
    have hlistLen : (s.insnAt i).phiList.length = 1 := by
      rw [hlist]
      rfl
    have hread : s.readSlot ⟨i, .phiEnt 0⟩ = .id p := by
      simp [IR.readSlot, Instruction.readSlot, hlist]
    have hE3 : kill_use_listG (fun j st => (kill_insnF (g + 1) j false st).2) i
        SlotName.phiEnt ((s.insnAt i).phiList.length) s =
        kill_useG (fun j st => (kill_insnF (g + 1) j false st).2) ⟨i, .phiEnt 0⟩ s := by
      rw [hlistLen, kill_use_listG, show List.range 1 = [0] from by decide,
        List.foldl_cons, List.foldl_nil]
      dsimp only
      rw [hread, if_neg (fun hc => PseudoRef.noConfusion hc)]
    set sW := s.writeSlot ⟨i, .phiEnt 0⟩ PseudoRef.void with hsW
    have hE4 : kill_useG (fun j st => (kill_insnF (g + 1) j false st).2) ⟨i, .phiEnt 0⟩ s =
        rem_usageG (fun j st => (kill_insnF (g + 1) j false st).2) (.id p)
          ⟨i, .phiEnt 0⟩ true sW := by
      rw [kill_useG]
      try dsimp only
      rw [hread]
    set s2 := sW.updPseudo p (fun ps => { ps with users := ps.users.erase ⟨i, .phiEnt 0⟩ })
      with hs2
    have hpW : p < sW.pseudos.length := hp
    have hpseW : sW.pseudoAt p = s.pseudoAt p := rfl
    have husers2 : (s2.pseudoAt p).users = [] := by
      rw [hs2, pseudoAt_updPseudo, if_pos ⟨rfl, hpW⟩]
      show ((sW.pseudoAt p).users.erase ⟨i, .phiEnt 0⟩) = []
      rw [hpseW, husers, List.erase_cons_head]
    have hkind2 : (s2.pseudoAt p).kind = .phi d := by
      rw [hs2, pseudoAt_updPseudo, if_pos ⟨rfl, hpW⟩]
      show (sW.pseudoAt p).kind = .phi d
      rw [hpseW, hkind]
    have hE5 : rem_usageG (fun j st => (kill_insnF (g + 1) j false st).2) (.id p)
        ⟨i, .phiEnt 0⟩ true sW = (kill_insnF (g + 1) d false s2).2 := by
      unfold rem_usageG
      rw [if_pos (show has_use_list (PseudoRef.id p) = true from rfl)]
      show (let s1 := if sW.isSym (PseudoRef.id p) = true
              then { sW with repeatPhase := sW.repeatPhase ||| REPEAT_SYMBOL_CLEANUP }
              else sW
            let sB := s1.updPseudo p fun ps =>
              { ps with users := ps.users.erase ⟨i, .phiEnt 0⟩ }
            if true = true ∧ sB.usersOf (PseudoRef.id p) = [] then
              match sB.pseudoDef (PseudoRef.id p) with
              | some d => (kill_insnF (g + 1) d false sB).2
              | none => sB
            else sB) = (kill_insnF (g + 1) d false s2).2
      have hsym : sW.isSym (PseudoRef.id p) = false := by
        show (match (sW.pseudoAt p).kind with | .sym _ => true | _ => false) = false
        rw [hpseW, hkind]
      have hcond : (true = true ∧ (s2.usersOf (PseudoRef.id p)) = []) := by
        refine ⟨rfl, ?_⟩
        show (s2.pseudoAt p).users = []
        exact husers2
      have hdef : s2.pseudoDef (PseudoRef.id p) = some d := by
        show (match (s2.pseudoAt p).kind with
          | .reg d => some d
          | .phi d => some d
          | _ => none) = some d
        rw [hkind2]
      dsimp only
      rw [hsym]
      rw [if_neg (fun hc => Bool.noConfusion hc)]
      rw [← hs2]
      rw [if_pos hcond]
      rw [hdef]
    -- properties of the cascade kill of the φ-source d in state s2
    have hlenS2 : s2.insns.length = s.insns.length := by
      rw [hs2]
      show sW.insns.length = s.insns.length
      rw [hsW]
      exact length_insns_updInsn s _ _
    have hinsd : s2.insnAt d = s.insnAt d := by
      rw [hs2]
      show sW.insnAt d = s.insnAt d
      rw [hsW, IR.writeSlot, insnAt_updInsn]
      rw [if_neg (fun hc => hdi hc.1)]
    have hguardd : d < s2.insns.length ∧ (s2.insnAt d).bb ≠ none := by
      rw [hlenS2, hinsd]
      exact ⟨hlived.1, hlived.2⟩
    have hopd2 : (s2.insnAt d).opcode = .PHISOURCE := by
      rw [hinsd]
      exact hopd
    have hstepd : kill_insnF (g + 1) d false s2 =
        (let t1 := kill_insn_slots (fun j st => (kill_insnF g j false st).2) d
           ((s2.insnAt d).opcode) s2
         let t2 := t1.updInsn d (fun ins => { ins with bb := none })
         let t3 := { t2 with repeatPhase := t2.repeatPhase ||| REPEAT_CSE }
         (t3.repeatPhase, t3)) := by
      rw [kill_insnF]
      dsimp only
      rw [if_pos hguardd,
        if_neg (by rw [hopd2]; rintro ⟨hc, -⟩; exact Opcode.noConfusion hc),
        if_neg (by rw [hopd2]; rintro ⟨hc, -⟩; exact Opcode.noConfusion hc),
        if_neg (by rw [hopd2]; rintro ⟨hc, -⟩; exact Opcode.noConfusion hc),
        if_neg (by rw [hopd2]; exact fun hc => Opcode.noConfusion hc)]
    have eT1 : KillEvolves s2 (kill_insn_slots (fun j st => (kill_insnF g j false st).2) d
        ((s2.insnAt d).opcode) s2) :=
      killEvolves_kill_insn_slots _ (fun j t => killEvolves_kill_insnF g j false t) d _ s2
    have hlenT1 : d < (kill_insn_slots (fun j st => (kill_insnF g j false st).2) d
        ((s2.insnAt d).opcode) s2).insns.length := by
      rw [eT1.insLen]
      exact hguardd.1
    have hYbb : ((kill_insnF (g + 1) d false s2).2.insnAt d).bb = none := by
      rw [hstepd]
      dsimp only
      show (((kill_insn_slots (fun j st => (kill_insnF g j false st).2) d
          ((s2.insnAt d).opcode) s2).updInsn d
          (fun ins => { ins with bb := none })).insnAt d).bb = none
      rw [insnAt_updInsn, if_pos ⟨rfl, hlenT1⟩]
    have hYusers : ((kill_insnF (g + 1) d false s2).2.pseudoAt p).users = [] := by
      have hev := killEvolves_kill_insnF (g + 1) d false s2
      have hsub := hev.users (PseudoRef.id p)
      have : (s2.usersOf (PseudoRef.id p)) = [] := husers2
      rw [IR.usersOf, this] at hsub
      exact List.subset_nil.mp hsub
    -- assemble: rewrite the outer kill into the cascade result
    rw [hstep]
    dsimp only
    rw [hslots, hE3, hE4, hE5]
    constructor
    · show (((kill_insnF (g + 1) d false s2).2.updInsn i
          (fun ins => { ins with bb := none })).insnAt d).bb = none
      rw [insnAt_updInsn, if_neg (fun hc => hdi hc.1)]
      exact hYbb
    · exact hYusers

/-- Witness for `kill_phi_unbinds_and_cascades` at `phiCascadeState`. -/
theorem kill_phi_unbinds_and_cascades_witness :
    (0 < 5 ∧ phiCascadeState.liveInsn 0 ∧
      (phiCascadeState.insnAt 0).opcode = Opcode.PHI) ∧
    (((kill_insnF 5 0 false phiCascadeState).2.insnAt 0).bb = none) := by
  refine ⟨⟨by norm_num, ⟨by decide, by decide⟩, by decide⟩, ?_⟩
  exact (kill_phi_unbinds_and_cascades 5 0 phiCascadeState (by norm_num)
    ⟨by decide, by decide⟩ (by decide)).2.1

/-! ### The pure (cascade-free) effect of use insertion and removal -/

theorem insnAt_use_pseudo (p : PseudoRef) (sl : Slot) (s : IR) (j : Nat) :
    (use_pseudoF p sl s).insnAt j = (s.writeSlot sl p).insnAt j := by
  cases p <;> rfl

theorem length_insns_use_pseudo (p : PseudoRef) (sl : Slot) (s : IR) :
    (use_pseudoF p sl s).insns.length = s.insns.length := by
  cases p <;>
    simp [use_pseudoF, IR.updPseudo, IR.writeSlot, IR.updInsn, List.length_set]

theorem length_pseudos_use_pseudo (p : PseudoRef) (sl : Slot) (s : IR) :
    (use_pseudoF p sl s).pseudos.length = s.pseudos.length := by
  cases p <;>
    simp [use_pseudoF, IR.updPseudo, IR.writeSlot, IR.updInsn, List.length_set]

theorem pseudoAt_use_pseudo_ne (p : PseudoRef) (sl : Slot) (s : IR) (m : Nat)
    (h : p ≠ .id m) : (use_pseudoF p sl s).pseudoAt m = s.pseudoAt m := by
  cases p with
  | id n =>
    show ((s.writeSlot sl (PseudoRef.id n)).updPseudo n
        (fun ps => { ps with users := ps.users ++ [sl] })).pseudoAt m = s.pseudoAt m
    rw [pseudoAt_updPseudo, if_neg (by rintro ⟨rfl, -⟩; exact h rfl)]
    rfl
  | null => rfl
  | void => rfl
  | val v => rfl

theorem pseudoAt_use_pseudo_self (n : Nat) (sl : Slot) (s : IR)
    (hn : n < s.pseudos.length) :
    (use_pseudoF (.id n) sl s).pseudoAt n =
      { s.pseudoAt n with users := (s.pseudoAt n).users ++ [sl] } := by
  show ((s.writeSlot sl (PseudoRef.id n)).updPseudo n
      (fun ps => { ps with users := ps.users ++ [sl] })).pseudoAt n = _
  rw [pseudoAt_updPseudo, if_pos ⟨rfl, hn⟩]
  rfl

theorem insnAt_rem_pure (p : PseudoRef) (usep : Slot) (s : IR) (j : Nat) :
    (rem_usage_pure p usep s).insnAt j = s.insnAt j := by
  cases p with
  | id n =>
    show ((if s.isSym (PseudoRef.id n) then
        { s with repeatPhase := s.repeatPhase ||| REPEAT_SYMBOL_CLEANUP } else s).updPseudo n
        (fun ps => { ps with users := ps.users.erase usep })).insnAt j = s.insnAt j
    rw [insnAt_updPseudo]
    split <;> rfl
  | null => rfl
  | void => rfl
  | val v => rfl

theorem length_insns_rem_pure (p : PseudoRef) (usep : Slot) (s : IR) :
    (rem_usage_pure p usep s).insns.length = s.insns.length := by
  cases p with
  | id n =>
    show ((if s.isSym (PseudoRef.id n) then
        { s with repeatPhase := s.repeatPhase ||| REPEAT_SYMBOL_CLEANUP } else s).updPseudo n
        (fun ps => { ps with users := ps.users.erase usep })).insns.length = s.insns.length
    split <;> rfl
  | null => rfl
  | void => rfl
  | val v => rfl

theorem length_pseudos_rem_pure (p : PseudoRef) (usep : Slot) (s : IR) :
    (rem_usage_pure p usep s).pseudos.length = s.pseudos.length := by
  cases p with
  | id n =>
    show ((if s.isSym (PseudoRef.id n) then
        { s with repeatPhase := s.repeatPhase ||| REPEAT_SYMBOL_CLEANUP } else s).updPseudo n
        (fun ps => { ps with users := ps.users.erase usep })).pseudos.length =
      s.pseudos.length
    split <;> simp [IR.updPseudo, List.length_set]
  | null => rfl
  | void => rfl
  | val v => rfl

theorem pseudoAt_rem_pure_ne (p : PseudoRef) (usep : Slot) (s : IR) (m : Nat)
    (h : p ≠ .id m) : (rem_usage_pure p usep s).pseudoAt m = s.pseudoAt m := by
  cases p with
  | id n =>
    show ((if s.isSym (PseudoRef.id n) then
        { s with repeatPhase := s.repeatPhase ||| REPEAT_SYMBOL_CLEANUP } else s).updPseudo n
        (fun ps => { ps with users := ps.users.erase usep })).pseudoAt m = s.pseudoAt m
    rw [pseudoAt_updPseudo, if_neg (by rintro ⟨rfl, -⟩; exact h rfl)]
    split <;> rfl
  | null => rfl
  | void => rfl
  | val v => rfl

theorem pseudoAt_rem_pure_self (n : Nat) (usep : Slot) (s : IR)
    (hn : n < s.pseudos.length) :
    (rem_usage_pure (.id n) usep s).pseudoAt n =
      { s.pseudoAt n with users := (s.pseudoAt n).users.erase usep } := by
  show ((if s.isSym (PseudoRef.id n) then
      { s with repeatPhase := s.repeatPhase ||| REPEAT_SYMBOL_CLEANUP } else s).updPseudo n
      (fun ps => { ps with users := ps.users.erase usep })).pseudoAt n = _
  split
  · rw [pseudoAt_updPseudo, if_pos ⟨rfl, hn⟩]
    rfl
  · rw [pseudoAt_updPseudo, if_pos ⟨rfl, hn⟩]

theorem pseudoDef_out (s : IR) (m : Nat) (h : s.pseudos.length ≤ m) :
    s.pseudoDef (.id m) = none := by
  have hd : s.pseudoAt m = defaultPseudo := by
    rw [IR.pseudoAt, List.getD_eq_getElem?_getD, List.getElem?_eq_none h]
    rfl
  simp only [IR.pseudoDef, hd]
  rfl

theorem rem_usage_eq_pure (killI : Nat → IR → IR) (p : PseudoRef) (usep : Slot)
    (kill : Bool) (s : IR)
    (h : (s.usersOf p).erase usep ≠ [] ∨ s.pseudoDef p = none) :
    rem_usageG killI p usep kill s = rem_usage_pure p usep s := by
  cases p with
  | null => rfl
  | void => rfl
  | val v => rfl
  | id n => ?_
  unfold rem_usageG
  rw [if_pos (show has_use_list (PseudoRef.id n) = true from rfl)]
  show (let s1 := if s.isSym (PseudoRef.id n) = true
      then { s with repeatPhase := s.repeatPhase ||| REPEAT_SYMBOL_CLEANUP } else s
    let s2 := s1.updPseudo n fun ps => { ps with users := ps.users.erase usep }
    if kill = true ∧ s2.usersOf (PseudoRef.id n) = [] then
      match s2.pseudoDef (PseudoRef.id n) with
      | some d => killI d s2
      | none => s2
    else s2) = rem_usage_pure (PseudoRef.id n) usep s
  have hpure : rem_usage_pure (PseudoRef.id n) usep s =
      (if s.isSym (PseudoRef.id n) = true
        then { s with repeatPhase := s.repeatPhase ||| REPEAT_SYMBOL_CLEANUP }
        else s).updPseudo n (fun ps => { ps with users := ps.users.erase usep }) := rfl
  rw [hpure]
  generalize hS1 : (if s.isSym (PseudoRef.id n) = true
      then { s with repeatPhase := s.repeatPhase ||| REPEAT_SYMBOL_CLEANUP }
      else s) = s1
  have hps : ∀ m, s1.pseudoAt m = s.pseudoAt m := by
    intro m; rw [← hS1]; split <;> rfl
  have hlen1 : s1.pseudos.length = s.pseudos.length := by
    rw [← hS1]; split <;> rfl
  show (let s2 := s1.updPseudo n fun ps => { ps with users := ps.users.erase usep }
    if kill = true ∧ s2.usersOf (PseudoRef.id n) = [] then
      match s2.pseudoDef (PseudoRef.id n) with
      | some d => killI d s2
      | none => s2
    else s2) = s1.updPseudo n (fun ps => { ps with users := ps.users.erase usep })
  generalize hS2 : (s1.updPseudo n fun ps => { ps with users := ps.users.erase usep }) = s2
  have hu : s2.usersOf (PseudoRef.id n) = ((s.pseudoAt n).users).erase usep := by
    rw [← hS2]
    show ((s1.updPseudo n
        (fun ps => { ps with users := ps.users.erase usep })).pseudoAt n).users = _
    rw [pseudoAt_updPseudo]
    by_cases hlt : n < s1.pseudos.length
    · rw [if_pos ⟨rfl, hlt⟩, hps]
    · rw [if_neg (fun hc => hlt hc.2), hps]
      have hd : s.pseudoAt n = defaultPseudo := by
        rw [IR.pseudoAt, List.getD_eq_getElem?_getD,
          List.getElem?_eq_none (by rw [← hlen1]; exact le_of_not_lt hlt)]
        rfl
      rw [hd]
      rfl
  have hkind : (s2.pseudoAt n).kind = (s.pseudoAt n).kind := by
    rw [← hS2, pseudoAt_updPseudo]
    by_cases hlt : n < s1.pseudos.length
    · rw [if_pos ⟨rfl, hlt⟩, hps]
    · rw [if_neg (fun hc => hlt hc.2), hps]
  have hdef : s2.pseudoDef (PseudoRef.id n) = s.pseudoDef (PseudoRef.id n) := by
    simp only [IR.pseudoDef, hkind]
  by_cases hcase : kill = true ∧ s2.usersOf (PseudoRef.id n) = []
  · rw [if_pos hcase]
    rcases h with h | h
    · exact absurd (hu.symm.trans hcase.2) h
    · rw [hdef, h]
  · rw [if_neg hcase]

/-! ### Operand-slot facts for the comparison opcodes -/

theorem opSlots_bincmp (insn : Instruction) (h : insn.opcode.isBincmpRange = true) :
    operandSlots insn = [.s1, .s2] := by
  unfold operandSlots
  revert h
  cases insn.opcode <;> intro h <;> first | rfl | exact absurd h (by decide)

theorem swap_bincmp (op : Opcode) (h : op.isBincmpRange = true) :
    op.swap.isBincmpRange = true := by
  revert h
  cases op <;> decide

theorem pseudoAt_out (s : IR) (r : Nat) (h : s.pseudos.length ≤ r) :
    s.pseudoAt r = defaultPseudo := by
  rw [IR.pseudoAt, List.getD_eq_getElem?_getD, List.getElem?_eq_none h]
  rfl

theorem insnAt_writeSlot_self (s : IR) (i : Nat) (nm : SlotName) (p : PseudoRef)
    (hi : i < s.insns.length) :
    (s.writeSlot ⟨i, nm⟩ p).insnAt i = (s.insnAt i).writeSlot nm p := by
  rw [IR.writeSlot, insnAt_updInsn, if_pos ⟨rfl, hi⟩]

theorem insnAt_writeSlot_ne (s : IR) (sl : Slot) (p : PseudoRef) (j : Nat)
    (h : j ≠ sl.insn) : (s.writeSlot sl p).insnAt j = s.insnAt j := by
  rw [IR.writeSlot, insnAt_updInsn, if_neg (fun hc => h hc.1)]

theorem kind_use_pseudo (p : PseudoRef) (sl : Slot) (s : IR) (r : Nat) :
    ((use_pseudoF p sl s).pseudoAt r).kind = (s.pseudoAt r).kind := by
  by_cases h : p = .id r
  · subst h
    by_cases hr : r < s.pseudos.length
    · rw [pseudoAt_use_pseudo_self r sl s hr]
    · rw [pseudoAt_out _ _ (by rw [length_pseudos_use_pseudo]; exact le_of_not_lt hr),
        pseudoAt_out _ _ (le_of_not_lt hr)]
  · rw [pseudoAt_use_pseudo_ne _ _ _ _ h]

theorem kind_rem_pure (p : PseudoRef) (usep : Slot) (s : IR) (r : Nat) :
    ((rem_usage_pure p usep s).pseudoAt r).kind = (s.pseudoAt r).kind := by
  by_cases h : p = .id r
  · subst h
    by_cases hr : r < s.pseudos.length
    · rw [pseudoAt_rem_pure_self r usep s hr]
    · rw [pseudoAt_out _ _ (by rw [length_pseudos_rem_pure]; exact le_of_not_lt hr),
        pseudoAt_out _ _ (le_of_not_lt hr)]
  · rw [pseudoAt_rem_pure_ne _ _ _ _ h]

/-- `switch_pseudo` on the two operand slots of one instruction never triggers
the removal cascade: each `rem_usage` still sees the freshly inserted use of
the other slot (or the pseudo has no defining instruction at all), so the
whole call is the pure four-step rebinding. -/
theorem switch_pseudo_eq_pure (fuel i : Nat) (s : IR)
    (hne : (s.insnAt i).slot1 ≠ (s.insnAt i).slot2) :
    switch_pseudoF fuel ⟨i, .s1⟩ ⟨i, .s2⟩ s =
      rem_usage_pure ((s.insnAt i).slot2) ⟨i, .s2⟩
        (rem_usage_pure ((s.insnAt i).slot1) ⟨i, .s1⟩
          (use_pseudoF ((s.insnAt i).slot1) ⟨i, .s2⟩
            (use_pseudoF ((s.insnAt i).slot2) ⟨i, .s1⟩ s))) := by
  have hsl21 : (⟨i, SlotName.s2⟩ : Slot) ≠ ⟨i, SlotName.s1⟩ := by
    intro h; injection h with h1 h2; exact SlotName.noConfusion h2
  have hsl12 : (⟨i, SlotName.s1⟩ : Slot) ≠ ⟨i, SlotName.s2⟩ := fun h => hsl21 h.symm
  have hdis1 : ((use_pseudoF ((s.insnAt i).slot1) ⟨i, SlotName.s2⟩
        (use_pseudoF ((s.insnAt i).slot2) ⟨i, SlotName.s1⟩ s)).usersOf
          ((s.insnAt i).slot1)).erase ⟨i, SlotName.s1⟩ ≠ [] ∨
      (use_pseudoF ((s.insnAt i).slot1) ⟨i, SlotName.s2⟩
        (use_pseudoF ((s.insnAt i).slot2) ⟨i, SlotName.s1⟩ s)).pseudoDef
          ((s.insnAt i).slot1) = none := by
    cases hc : (s.insnAt i).slot1 with
    | null => exact Or.inr rfl
    | void => exact Or.inr rfl
    | val v => exact Or.inr rfl
    | id m =>
      by_cases hm : m < s.pseudos.length
      · left
        have hm1 : m <
            (use_pseudoF ((s.insnAt i).slot2) ⟨i, SlotName.s1⟩ s).pseudos.length := by
          rw [length_pseudos_use_pseudo]; exact hm
        show (((use_pseudoF (PseudoRef.id m) ⟨i, SlotName.s2⟩
            (use_pseudoF ((s.insnAt i).slot2) ⟨i, SlotName.s1⟩ s)).pseudoAt m).users).erase
              ⟨i, SlotName.s1⟩ ≠ []
        rw [pseudoAt_use_pseudo_self m _ _ hm1]
        show ((((use_pseudoF ((s.insnAt i).slot2) ⟨i, SlotName.s1⟩ s).pseudoAt m).users ++
            [(⟨i, SlotName.s2⟩ : Slot)]).erase ⟨i, SlotName.s1⟩) ≠ []
        exact List.ne_nil_of_mem ((List.mem_erase_of_ne hsl21).2
          (List.mem_append_right _ (List.mem_singleton_self _)))
      · right
        apply pseudoDef_out
        rw [length_pseudos_use_pseudo, length_pseudos_use_pseudo]
        exact le_of_not_lt hm
  have hdis2 : ((rem_usage_pure ((s.insnAt i).slot1) ⟨i, SlotName.s1⟩
        (use_pseudoF ((s.insnAt i).slot1) ⟨i, SlotName.s2⟩
          (use_pseudoF ((s.insnAt i).slot2) ⟨i, SlotName.s1⟩ s))).usersOf
          ((s.insnAt i).slot2)).erase ⟨i, SlotName.s2⟩ ≠ [] ∨
      (rem_usage_pure ((s.insnAt i).slot1) ⟨i, SlotName.s1⟩
        (use_pseudoF ((s.insnAt i).slot1) ⟨i, SlotName.s2⟩
          (use_pseudoF ((s.insnAt i).slot2) ⟨i, SlotName.s1⟩ s))).pseudoDef
          ((s.insnAt i).slot2) = none := by
    cases hc : (s.insnAt i).slot2 with
    | null => exact Or.inr rfl
    | void => exact Or.inr rfl
    | val v => exact Or.inr rfl
    | id n =>
      rw [hc] at hne
      by_cases hn : n < s.pseudos.length
      · left
        show (((rem_usage_pure ((s.insnAt i).slot1) ⟨i, SlotName.s1⟩
            (use_pseudoF ((s.insnAt i).slot1) ⟨i, SlotName.s2⟩
              (use_pseudoF (PseudoRef.id n) ⟨i, SlotName.s1⟩ s))).pseudoAt n).users).erase
              ⟨i, SlotName.s2⟩ ≠ []
        rw [pseudoAt_rem_pure_ne _ _ _ _ hne, pseudoAt_use_pseudo_ne _ _ _ _ hne,
          pseudoAt_use_pseudo_self n _ _ hn]
        show (((s.pseudoAt n).users ++ [(⟨i, SlotName.s1⟩ : Slot)]).erase
            ⟨i, SlotName.s2⟩) ≠ []
        exact List.ne_nil_of_mem ((List.mem_erase_of_ne hsl12).2
          (List.mem_append_right _ (List.mem_singleton_self _)))
      · right
        apply pseudoDef_out
        rw [length_pseudos_rem_pure, length_pseudos_use_pseudo,
          length_pseudos_use_pseudo]
        exact le_of_not_lt hn
  have hstep : switch_pseudoF fuel ⟨i, SlotName.s1⟩ ⟨i, SlotName.s2⟩ s =
      rem_usageG (killOf fuel) ((s.insnAt i).slot2) ⟨i, SlotName.s2⟩ true
        (rem_usageG (killOf fuel) ((s.insnAt i).slot1) ⟨i, SlotName.s1⟩ true
          (use_pseudoF ((s.insnAt i).slot1) ⟨i, SlotName.s2⟩
            (use_pseudoF ((s.insnAt i).slot2) ⟨i, SlotName.s1⟩ s))) := rfl
  rw [hstep, rem_usage_eq_pure _ _ _ _ _ hdis1, rem_usage_eq_pure _ _ _ _ _ hdis2]

theorem length_insns_switch (fuel i : Nat) (s : IR)
    (hne : (s.insnAt i).slot1 ≠ (s.insnAt i).slot2) :
    (switch_pseudoF fuel ⟨i, .s1⟩ ⟨i, .s2⟩ s).insns.length = s.insns.length := by
  rw [switch_pseudo_eq_pure fuel i s hne, length_insns_rem_pure, length_insns_rem_pure,
    length_insns_use_pseudo, length_insns_use_pseudo]

theorem length_pseudos_switch (fuel i : Nat) (s : IR)
    (hne : (s.insnAt i).slot1 ≠ (s.insnAt i).slot2) :
    (switch_pseudoF fuel ⟨i, .s1⟩ ⟨i, .s2⟩ s).pseudos.length = s.pseudos.length := by
  rw [switch_pseudo_eq_pure fuel i s hne, length_pseudos_rem_pure,
    length_pseudos_rem_pure, length_pseudos_use_pseudo, length_pseudos_use_pseudo]

theorem switch_insnAt_i (fuel i : Nat) (s : IR) (hi : i < s.insns.length)
    (hne : (s.insnAt i).slot1 ≠ (s.insnAt i).slot2) :
    (switch_pseudoF fuel ⟨i, .s1⟩ ⟨i, .s2⟩ s).insnAt i =
      { s.insnAt i with slot1 := (s.insnAt i).slot2, slot2 := (s.insnAt i).slot1 } := by
  have h2 : i < (use_pseudoF ((s.insnAt i).slot2) ⟨i, SlotName.s1⟩ s).insns.length := by
    rw [length_insns_use_pseudo]; exact hi
  rw [switch_pseudo_eq_pure fuel i s hne, insnAt_rem_pure, insnAt_rem_pure,
    insnAt_use_pseudo, insnAt_writeSlot_self _ _ _ _ h2,
    insnAt_use_pseudo, insnAt_writeSlot_self _ _ _ _ hi]
  rfl

theorem switch_insnAt_ne (fuel i : Nat) (s : IR) (j : Nat) (hj : j ≠ i)
    (hne : (s.insnAt i).slot1 ≠ (s.insnAt i).slot2) :
    (switch_pseudoF fuel ⟨i, .s1⟩ ⟨i, .s2⟩ s).insnAt j = s.insnAt j := by
  rw [switch_pseudo_eq_pure fuel i s hne, insnAt_rem_pure, insnAt_rem_pure,
    insnAt_use_pseudo, insnAt_writeSlot_ne _ _ _ _ hj,
    insnAt_use_pseudo, insnAt_writeSlot_ne _ _ _ _ hj]

theorem switch_pseudoAt (fuel i : Nat) (s : IR) (r : Nat)
    (hne : (s.insnAt i).slot1 ≠ (s.insnAt i).slot2)
    (h1 : (s.insnAt i).slot1 ≠ .id r) (h2 : (s.insnAt i).slot2 ≠ .id r) :
    (switch_pseudoF fuel ⟨i, .s1⟩ ⟨i, .s2⟩ s).pseudoAt r = s.pseudoAt r := by
  rw [switch_pseudo_eq_pure fuel i s hne,
    pseudoAt_rem_pure_ne _ _ _ _ h2, pseudoAt_rem_pure_ne _ _ _ _ h1,
    pseudoAt_use_pseudo_ne _ _ _ _ h1, pseudoAt_use_pseudo_ne _ _ _ _ h2]

theorem switch_pseudoAt_right (fuel i : Nat) (s : IR) (n : Nat)
    (hne : (s.insnAt i).slot1 ≠ (s.insnAt i).slot2)
    (h2 : (s.insnAt i).slot2 = .id n) (hn : n < s.pseudos.length) :
    (switch_pseudoF fuel ⟨i, .s1⟩ ⟨i, .s2⟩ s).pseudoAt n =
      { s.pseudoAt n with users :=
          ((s.pseudoAt n).users ++ [(⟨i, SlotName.s1⟩ : Slot)]).erase ⟨i, SlotName.s2⟩ } := by
  have h1n : (s.insnAt i).slot1 ≠ PseudoRef.id n := by rw [← h2]; exact hne
  rw [switch_pseudo_eq_pure fuel i s hne, h2]
  rw [pseudoAt_rem_pure_self n _ _ (by
    rw [length_pseudos_rem_pure, length_pseudos_use_pseudo, length_pseudos_use_pseudo]
    exact hn)]
  rw [pseudoAt_rem_pure_ne _ _ _ _ h1n, pseudoAt_use_pseudo_ne _ _ _ _ h1n]
  rw [pseudoAt_use_pseudo_self n _ _ hn]

theorem switch_kind (fuel i : Nat) (s : IR) (r : Nat)
    (hne : (s.insnAt i).slot1 ≠ (s.insnAt i).slot2) :
    ((switch_pseudoF fuel ⟨i, .s1⟩ ⟨i, .s2⟩ s).pseudoAt r).kind =
      (s.pseudoAt r).kind := by
  rw [switch_pseudo_eq_pure fuel i s hne, kind_rem_pure, kind_rem_pure,
    kind_use_pseudo, kind_use_pseudo]

/-- Claim C5 — comparison canonicalization.  For a live comparison
instruction: if the operands are already in canonical order the call returns
0 and leaves the state untouched; otherwise the two operand slots are
exchanged, the opcode is replaced by its swapped counterpart, and the
use-list exactness invariant for live REG pseudos is preserved. -/
theorem canonicalize_compare_contract (fuel i : Nat) (s : IR)
    (hlive : s.liveInsn i)
    (hop : (s.insnAt i).opcode.isBincmpRange = true)
    (hinv : regUseInv s) :
    (canonical_order s ((s.insnAt i).slot1) ((s.insnAt i).slot2) = true →
      canonicalize_compare fuel i s = (0, s)) ∧
    (canonical_order s ((s.insnAt i).slot1) ((s.insnAt i).slot2) = false →
      ((canonicalize_compare fuel i s).2.insnAt i).slot1 = (s.insnAt i).slot2 ∧
      ((canonicalize_compare fuel i s).2.insnAt i).slot2 = (s.insnAt i).slot1 ∧
      ((canonicalize_compare fuel i s).2.insnAt i).opcode = (s.insnAt i).opcode.swap ∧
      regUseInv (canonicalize_compare fuel i s).2) := by
  constructor
  · intro hc
    rw [canonicalize_compare, if_pos hc]
  · intro hcanon
    have hi : i < s.insns.length := hlive.1
    have hvs : ((s.insnAt i).slot1.isVal = true ∧ (s.insnAt i).slot2.isVal = false) ∨
        ((s.insnAt i).slot1.isVal = false ∧ s.isSym ((s.insnAt i).slot1) = true ∧
          s.isSym ((s.insnAt i).slot2) = false ∧ (s.insnAt i).slot2.isVal = false) := by
      rw [canonical_order] at hcanon
      by_cases hv : (s.insnAt i).slot1.isVal = true
      · rw [if_pos hv] at hcanon
        exact Or.inl ⟨hv, hcanon⟩
      · rw [if_neg hv] at hcanon
        by_cases hs : s.isSym ((s.insnAt i).slot1) = true
        · rw [if_pos hs] at hcanon
          rcases Bool.or_eq_false_iff.1 hcanon with ⟨ha, hb⟩
          exact Or.inr ⟨Bool.eq_false_iff.2 hv, hs, ha, hb⟩
        · rw [if_neg hs] at hcanon
          exact Bool.noConfusion hcanon
    have hne : (s.insnAt i).slot1 ≠ (s.insnAt i).slot2 := by
      intro he
      rcases hvs with ⟨hv1, hv2⟩ | ⟨_, hs1, hs2, _⟩
      · rw [he, hv2] at hv1
        exact Bool.noConfusion hv1
      · rw [he, hs2] at hs1
        exact Bool.noConfusion hs1
    have hp1reg : ∀ q, s.liveRegPseudo q → (s.insnAt i).slot1 ≠ PseudoRef.id q := by
      intro q hq he
      rcases hq with ⟨_, d, hk, _⟩
      rcases hvs with ⟨hv1, _⟩ | ⟨_, hs1, _, _⟩
      · rw [he] at hv1
        simp [PseudoRef.isVal] at hv1
      · rw [he] at hs1
        simp only [IR.isSym, hk] at hs1
        exact Bool.noConfusion hs1
    have hFinsn : ∀ j, (canonicalize_compare fuel i s).2.insnAt j =
        ((switch_pseudoF fuel ⟨i, SlotName.s1⟩ ⟨i, SlotName.s2⟩ s).updInsn i
          (fun ins => { ins with opcode := ins.opcode.swap })).insnAt j := by
      intro j
      rw [canonicalize_compare, if_neg (fun hc => Bool.false_ne_true (hcanon ▸ hc))]
      rfl
    have hFpseudo : ∀ r, (canonicalize_compare fuel i s).2.pseudoAt r =
        (switch_pseudoF fuel ⟨i, SlotName.s1⟩ ⟨i, SlotName.s2⟩ s).pseudoAt r := by
      intro r
      rw [canonicalize_compare, if_neg (fun hc => Bool.false_ne_true (hcanon ▸ hc))]
      rfl
    have hFlenI : (canonicalize_compare fuel i s).2.insns.length =
        (switch_pseudoF fuel ⟨i, SlotName.s1⟩ ⟨i, SlotName.s2⟩ s).insns.length := by
      rw [canonicalize_compare, if_neg (fun hc => Bool.false_ne_true (hcanon ▸ hc))]
      show ((switch_pseudoF fuel ⟨i, SlotName.s1⟩ ⟨i, SlotName.s2⟩ s).updInsn i
        (fun ins => { ins with opcode := ins.opcode.swap })).insns.length = _
      exact length_insns_updInsn _ _ _
    have hFlenP : (canonicalize_compare fuel i s).2.pseudos.length =
        (switch_pseudoF fuel ⟨i, SlotName.s1⟩ ⟨i, SlotName.s2⟩ s).pseudos.length := by
      rw [canonicalize_compare, if_neg (fun hc => Bool.false_ne_true (hcanon ▸ hc))]
      rfl
    have hXi : (canonicalize_compare fuel i s).2.insnAt i =
        { s.insnAt i with
            slot1 := (s.insnAt i).slot2,
            slot2 := (s.insnAt i).slot1,
            opcode := (s.insnAt i).opcode.swap } := by
      rw [hFinsn i, insnAt_updInsn,
        if_pos ⟨rfl, by rw [length_insns_switch fuel i s hne]; exact hi⟩,
        switch_insnAt_i fuel i s hi hne]
    refine ⟨by simp only [hXi], by simp only [hXi], by simp only [hXi], ?_⟩
    have hinsn_ne : ∀ j, j ≠ i →
        (canonicalize_compare fuel i s).2.insnAt j = s.insnAt j := by
      intro j hj
      rw [hFinsn j, insnAt_updInsn, if_neg (fun hc => hj hc.1),
        switch_insnAt_ne fuel i s j hj hne]
    have hbbF : ∀ j, ((canonicalize_compare fuel i s).2.insnAt j).bb =
        (s.insnAt j).bb := by
      intro j
      by_cases hj : j = i
      · subst hj
        rw [hXi]
      · rw [hinsn_ne j hj]
    have hlenIF : (canonicalize_compare fuel i s).2.insns.length = s.insns.length :=
      hFlenI.trans (length_insns_switch fuel i s hne)
    have hlenPF : (canonicalize_compare fuel i s).2.pseudos.length =
        s.pseudos.length :=
      hFlenP.trans (length_pseudos_switch fuel i s hne)
    have hkindF : ∀ r, ((canonicalize_compare fuel i s).2.pseudoAt r).kind =
        (s.pseudoAt r).kind := by
      intro r
      rw [hFpseudo r]
      exact switch_kind fuel i s r hne
    have hliveF : ∀ j, (canonicalize_compare fuel i s).2.liveInsn j ↔ s.liveInsn j := by
      intro j
      rw [IR.liveInsn, IR.liveInsn, hlenIF, hbbF j]
    have hopsF : ∀ j, operandSlots ((canonicalize_compare fuel i s).2.insnAt j) =
        operandSlots (s.insnAt j) := by
      intro j
      by_cases hj : j = i
      · subst hj
        rw [hXi, opSlots_bincmp _ (swap_bincmp _ hop), opSlots_bincmp _ hop]
      · rw [hinsn_ne j hj]
    have hread1 : (canonicalize_compare fuel i s).2.readSlot ⟨i, SlotName.s1⟩ =
        (s.insnAt i).slot2 := by
      show ((canonicalize_compare fuel i s).2.insnAt i).readSlot SlotName.s1 = _
      rw [hXi]
      rfl
    have hread2 : (canonicalize_compare fuel i s).2.readSlot ⟨i, SlotName.s2⟩ =
        (s.insnAt i).slot1 := by
      show ((canonicalize_compare fuel i s).2.insnAt i).readSlot SlotName.s2 = _
      rw [hXi]
      rfl
    have hread_ne : ∀ sl : Slot, sl ≠ ⟨i, SlotName.s1⟩ → sl ≠ ⟨i, SlotName.s2⟩ →
        (canonicalize_compare fuel i s).2.readSlot sl = s.readSlot sl := by
      rintro ⟨j, nm⟩ h1 h2
      by_cases hj : j = i
      · subst j
        show ((canonicalize_compare fuel i s).2.insnAt i).readSlot nm =
          (s.insnAt i).readSlot nm
        rw [hXi]
        cases nm with
        | s1 => exact absurd rfl h1
        | s2 => exact absurd rfl h2
        | s3 => rfl
        | tgt => rfl
        | phiEnt k => rfl
        | argEnt k => rfl
      · show ((canonicalize_compare fuel i s).2.insnAt j).readSlot nm =
          (s.insnAt j).readSlot nm
        rw [hinsn_ne j hj]
    have husersF_ne : ∀ r, (s.insnAt i).slot1 ≠ PseudoRef.id r →
        (s.insnAt i).slot2 ≠ PseudoRef.id r →
        (canonicalize_compare fuel i s).2.pseudoAt r = s.pseudoAt r := by
      intro r h1 h2
      rw [hFpseudo r]
      exact switch_pseudoAt fuel i s r hne h1 h2
    have husersF_right : ∀ n, (s.insnAt i).slot2 = PseudoRef.id n →
        n < s.pseudos.length →
        (canonicalize_compare fuel i s).2.pseudoAt n =
          { s.pseudoAt n with users :=
              ((s.pseudoAt n).users ++
                [(⟨i, SlotName.s1⟩ : Slot)]).erase ⟨i, SlotName.s2⟩ } := by
      intro n h2 hn
      rw [hFpseudo n]
      exact switch_pseudoAt_right fuel i s n hne h2 hn
    intro q hq
    have hqs : s.liveRegPseudo q := by
      rcases hq with ⟨hql, d, hk, hd⟩
      refine ⟨by rw [← hlenPF]; exact hql, d, ?_, (hliveF d).1 hd⟩
      rw [← hkindF q]
      exact hk
    rcases hinv q hqs with ⟨hnd, hmem⟩
    have hp1q : (s.insnAt i).slot1 ≠ PseudoRef.id q := hp1reg q hqs
    by_cases hq2 : (s.insnAt i).slot2 = PseudoRef.id q
    · have hPA := husersF_right q hq2 hqs.1
      have hsl2mem : (⟨i, SlotName.s2⟩ : Slot) ∈ (s.pseudoAt q).users := by
        refine (hmem _).2 ⟨hlive, ?_, hq2⟩
        rw [opSlots_bincmp _ hop]
        show SlotName.s2 ∈ [SlotName.s1, SlotName.s2]
        decide
      have hsl1nmem : (⟨i, SlotName.s1⟩ : Slot) ∉ (s.pseudoAt q).users := by
        intro hmem1
        exact hp1q ((hmem _).1 hmem1).2.2
      have hErw : ((s.pseudoAt q).users ++ [(⟨i, SlotName.s1⟩ : Slot)]).erase
          ⟨i, SlotName.s2⟩ =
          (s.pseudoAt q).users.erase ⟨i, SlotName.s2⟩ ++ [(⟨i, SlotName.s1⟩ : Slot)] :=
        List.erase_append_left _ hsl2mem
      constructor
      · show (((canonicalize_compare fuel i s).2.pseudoAt q).users).Nodup
        rw [hPA]
        show (((s.pseudoAt q).users ++ [(⟨i, SlotName.s1⟩ : Slot)]).erase
          ⟨i, SlotName.s2⟩).Nodup
        rw [hErw]
        refine List.nodup_append.2 ⟨hnd.erase _, List.nodup_singleton _, ?_⟩
        intro a ha hb
        rw [List.mem_singleton] at hb
        subst hb
        exact hsl1nmem (List.erase_subset _ _ ha)
      · intro sl
        show sl ∈ ((canonicalize_compare fuel i s).2.pseudoAt q).users ↔ _
        rw [hPA]
        show sl ∈ ((s.pseudoAt q).users ++ [(⟨i, SlotName.s1⟩ : Slot)]).erase
          ⟨i, SlotName.s2⟩ ↔ _
        rw [hErw]
        by_cases he1 : sl = ⟨i, SlotName.s1⟩
        · subst he1
          refine iff_of_true (List.mem_append_right _ (List.mem_singleton_self _))
            ⟨(hliveF i).2 hlive, ?_, by rw [hread1]; exact hq2⟩
          rw [hopsF i, opSlots_bincmp _ hop]
          show SlotName.s1 ∈ [SlotName.s1, SlotName.s2]
          decide
        · by_cases he2 : sl = ⟨i, SlotName.s2⟩
          · subst he2
            apply iff_of_false
            · intro hmem2
              rcases List.mem_append.1 hmem2 with h | h
              · exact ((List.Nodup.mem_erase_iff hnd).1 h).1 rfl
              · rw [List.mem_singleton] at h
                exact he1 h
            · rintro ⟨_, _, hr⟩
              rw [hread2] at hr
              exact hp1q hr
          · have hLHS : (sl ∈ (s.pseudoAt q).users.erase ⟨i, SlotName.s2⟩ ++
                [(⟨i, SlotName.s1⟩ : Slot)]) ↔ sl ∈ (s.pseudoAt q).users := by
              rw [List.mem_append, List.mem_singleton]
              constructor
              · rintro (h | h)
                · exact ((List.Nodup.mem_erase_iff hnd).1 h).2
                · exact absurd h he1
              · intro h
                exact Or.inl ((List.Nodup.mem_erase_iff hnd).2 ⟨he2, h⟩)
            rw [hLHS, hmem sl]
            constructor
            · rintro ⟨h1, h2, h3⟩
              exact ⟨(hliveF _).2 h1, by rw [hopsF]; exact h2,
                by rw [hread_ne sl he1 he2]; exact h3⟩
            · rintro ⟨h1, h2, h3⟩
              refine ⟨(hliveF _).1 h1, ?_, ?_⟩
              · rw [hopsF] at h2
                exact h2
              · rw [hread_ne sl he1 he2] at h3
                exact h3
    · have hPA := husersF_ne q hp1q hq2
      constructor
      · show (((canonicalize_compare fuel i s).2.pseudoAt q).users).Nodup
        rw [hPA]
        exact hnd
      · intro sl
        show sl ∈ ((canonicalize_compare fuel i s).2.pseudoAt q).users ↔ _
        rw [hPA, hmem sl]
        by_cases he1 : sl = ⟨i, SlotName.s1⟩
        · subst he1
          apply iff_of_false
          · rintro ⟨_, _, h3⟩
            exact hp1q h3
          · rintro ⟨_, _, h3⟩
            rw [hread1] at h3
            exact hq2 h3
        · by_cases he2 : sl = ⟨i, SlotName.s2⟩
          · subst he2
            apply iff_of_false
            · rintro ⟨_, _, h3⟩
              exact hq2 h3
            · rintro ⟨_, _, h3⟩
              rw [hread2] at h3
              exact hp1q h3
          · constructor
            · rintro ⟨h1, h2, h3⟩
              exact ⟨(hliveF _).2 h1, by rw [hopsF]; exact h2,
                by rw [hread_ne sl he1 he2]; exact h3⟩
            · rintro ⟨h1, h2, h3⟩
              refine ⟨(hliveF _).1 h1, ?_, ?_⟩
              · rw [hopsF] at h2
                exact h2
              · rw [hread_ne sl he1 he2] at h3
                exact h3

/-- Witness for `canonicalize_compare_contract` at the S3 state:
`t = SET_LT.32 5, y` canonicalizes to `t = SET_GT.32 y, 5`, with the use-list
invariant intact. -/
theorem canonicalize_compare_contract_witness :
    (sCmp.liveInsn 0 ∧ (sCmp.insnAt 0).opcode.isBincmpRange = true ∧
      regUseInv sCmp ∧
      canonical_order sCmp ((sCmp.insnAt 0).slot1) ((sCmp.insnAt 0).slot2) = false) ∧
    (((canonicalize_compare 1 0 sCmp).2.insnAt 0).slot1 = PseudoRef.id 0 ∧
      ((canonicalize_compare 1 0 sCmp).2.insnAt 0).slot2 = PseudoRef.val 5 ∧
      ((canonicalize_compare 1 0 sCmp).2.insnAt 0).opcode = Opcode.SET_GT ∧
      regUseInv (canonicalize_compare 1 0 sCmp).2) := by
  have hinv : regUseInv sCmp := by
    intro n hn
    rcases hn with ⟨hlt, d, hk, hd⟩
    have h2 : n < 2 := hlt
    rcases (show n = 0 ∨ n = 1 by omega) with rfl | rfl
    · rw [show (sCmp.pseudoAt 0).kind = PseudoKind.arg from rfl] at hk
      exact PseudoKind.noConfusion hk
    · constructor
      · decide
      · intro sl
        constructor
        · intro hmem
          rw [show (sCmp.pseudoAt 1).users = [] from rfl] at hmem
          exact absurd hmem (List.not_mem_nil sl)
        · rintro ⟨hlv, hopn, hread⟩
          rcases sl with ⟨j, nm⟩
          have hj : j = 0 := by
            have hj1 : j < 1 := hlv.1
            omega
          subst j
          have hnm : nm = SlotName.s1 ∨ nm = SlotName.s2 := by
            rw [show operandSlots (sCmp.insnAt 0) = [SlotName.s1, SlotName.s2]
              from rfl] at hopn
            simpa using hopn
          rcases hnm with rfl | rfl
          · exact absurd hread (by decide)
          · exact absurd hread (by decide)
  refine ⟨⟨⟨by decide, by decide⟩, by decide, hinv, by decide⟩, ?_⟩
  have h := (canonicalize_compare_contract 1 0 sCmp ⟨by decide, by decide⟩ (by decide)
    hinv).2 (by decide)
  exact ⟨h.1, h.2.1, h.2.2.1, h.2.2.2⟩

/-- Claim C2 counterexample: at width 32 the evaluator does NOT abandon
`DIVS (MIN_32, -1)`.  The C overflow guard compares the sign-extended left
operand (`0xFFFFFFFF80000000`) against the unsigned pattern
`1ULL << (size-1)` (`0x0000000080000000`); they differ for every width below
64, so the fold proceeds and yields the wrapped value `2^31`. -/
theorem eval_divs_overflow_cex :
    eval_insn Opcode.DIVS 32 (-2147483648) (-1) = some 2147483648 := by decide

/-- Witness for `eval_matches_spec` at `DIVS.8 (-7) 2`: truncating signed
division folds to `-3` masked to 8 bits. -/
theorem eval_matches_spec_witness :
    ((1 : Nat) ≤ 8 ∧ (8 : Nat) ≤ 64 ∧ -(2 ^ (8 - 1) : Int) ≤ -7 ∧
      (-7 : Int) < 2 ^ 8 ∧ -(2 ^ (8 - 1) : Int) ≤ 2 ∧ (2 : Int) < 2 ^ 8 ∧
      shiftOk Opcode.DIVS 8 2) ∧
    (eval_insn Opcode.DIVS 8 (-7) 2).map (fun r => r % 2 ^ 8) =
      evalSpec Opcode.DIVS 8 (-7) 2 := by
  refine ⟨⟨by norm_num, by norm_num, by norm_num, by norm_num, by norm_num,
    by norm_num, trivial⟩, ?_⟩
  exact eval_matches_spec Opcode.DIVS 8 (-7) 2 (by norm_num) (by norm_num)
    (by norm_num) (by norm_num) (by norm_num) (by norm_num) trivial

/-! ### Retargeting: `convert_instruction_target` and `replace_with_pseudo` -/

theorem readSlot_writeSlotI_self (insn : Instruction) (nm : SlotName) (p : PseudoRef)
    (h : match nm with
      | .phiEnt j => j < insn.phiList.length
      | .argEnt j => j < insn.arguments.length
      | _ => True) :
    (insn.writeSlot nm p).readSlot nm = p := by
  cases nm with
  | s1 => rfl
  | s2 => rfl
  | s3 => rfl
  | tgt => rfl
  | phiEnt j =>
    have hj : j < insn.phiList.length := h
    show (insn.phiList.set j p).getD j .void = p
    simp only [List.getD_eq_getElem?_getD, List.getElem?_set]
    simp [hj]
  | argEnt j =>
    have hj : j < insn.arguments.length := h
    show (insn.arguments.set j p).getD j .void = p
    simp only [List.getD_eq_getElem?_getD, List.getElem?_set]
    simp [hj]

theorem readSlot_writeSlot_self (s : IR) (sl : Slot) (p : PseudoRef)
    (h : slotInBounds s sl) : (s.writeSlot sl p).readSlot sl = p := by
  rcases sl with ⟨i, nm⟩
  rcases h with ⟨hi, hnm⟩
  rw [IR.readSlot, IR.writeSlot, insnAt_updInsn, if_pos ⟨rfl, hi⟩]
  exact readSlot_writeSlotI_self _ _ _ hnm

theorem slotInBounds_writeSlot (s : IR) (a : Slot) (p : PseudoRef) (x : Slot)
    (h : slotInBounds s x) : slotInBounds (s.writeSlot a p) x := by
  rcases x with ⟨xi, xnm⟩
  rcases h with ⟨hxi, hnm⟩
  refine ⟨by rw [IR.writeSlot, length_insns_updInsn]; exact hxi, ?_⟩
  cases xnm with
  | s1 => trivial
  | s2 => trivial
  | s3 => trivial
  | tgt => trivial
  | phiEnt j =>
    show j < ((s.writeSlot a p).insnAt xi).phiList.length
    rcases a with ⟨ai, anm⟩
    rw [IR.writeSlot, insnAt_updInsn]
    split
    · next hc =>
      rw [phiLen_writeSlotI]
      rw [hc.1] at hnm
      exact hnm
    · exact hnm
  | argEnt j =>
    show j < ((s.writeSlot a p).insnAt xi).arguments.length
    rcases a with ⟨ai, anm⟩
    rw [IR.writeSlot, insnAt_updInsn]
    split
    · next hc =>
      rw [argLen_writeSlotI]
      rw [hc.1] at hnm
      exact hnm
    · exact hnm

theorem foldl_writeSlot_read (p : PseudoRef) (entries : List Slot) (s : IR) (sl : Slot)
    (hb : ∀ x ∈ entries, slotInBounds s x) :
    (entries.foldl (fun st x => st.writeSlot x p) s).readSlot sl =
      if sl ∈ entries then p else s.readSlot sl := by
  induction entries generalizing s with
  | nil => rw [List.foldl_nil, if_neg (List.not_mem_nil sl)]
  | cons a t ih =>
    rw [List.foldl_cons, ih (s.writeSlot a p) (fun x hx =>
      slotInBounds_writeSlot s a p x (hb x (List.mem_cons_of_mem a hx)))]
    by_cases h1 : sl ∈ t
    · rw [if_pos h1, if_pos (List.mem_cons_of_mem a h1)]
    · rw [if_neg h1]
      by_cases h2 : sl = a
      · subst h2
        rw [if_pos (List.mem_cons_self sl t),
          readSlot_writeSlot_self s sl p (hb sl (List.mem_cons_self sl t))]
      · rw [if_neg (fun hc => (List.mem_cons.1 hc).elim h2 h1),
          readSlot_writeSlot_ne s h2 p]

theorem foldl_writeSlot_lenI (p : PseudoRef) (entries : List Slot) (s : IR) :
    (entries.foldl (fun st x => st.writeSlot x p) s).insns.length = s.insns.length := by
  induction entries generalizing s with
  | nil => rfl
  | cons a t ih =>
    rw [List.foldl_cons, ih, IR.writeSlot, length_insns_updInsn]

theorem readSlot_appendUsers (s : IR) (q : PseudoRef) (entries : List Slot) (sl : Slot) :
    (s.appendUsers q entries).readSlot sl = s.readSlot sl := by
  cases q <;> rfl

theorem readSlot_clearUsers (s : IR) (q : PseudoRef) (sl : Slot) :
    (s.clearUsers q).readSlot sl = s.readSlot sl := by
  cases q <;> rfl

theorem length_insns_appendUsers (s : IR) (q : PseudoRef) (entries : List Slot) :
    (s.appendUsers q entries).insns.length = s.insns.length := by
  cases q <;> rfl

theorem length_insns_clearUsers (s : IR) (q : PseudoRef) :
    (s.clearUsers q).insns.length = s.insns.length := by
  cases q <;> rfl

theorem length_insns_convert (i : Nat) (p : PseudoRef) (s : IR) :
    (convert_instruction_target i p s).insns.length = s.insns.length := by
  rw [convert_instruction_target]
  show (if (s.insnAt i).target = p then s
    else ((((s.usersOf ((s.insnAt i).target)).foldl (fun st x => st.writeSlot x p)
        s).appendUsers p (s.usersOf ((s.insnAt i).target))).clearUsers
      ((s.insnAt i).target))).insns.length = s.insns.length
  split
  · rfl
  · rw [length_insns_clearUsers, length_insns_appendUsers, foldl_writeSlot_lenI]

theorem convert_readSlot (i : Nat) (p : PseudoRef) (s : IR)
    (hne : (s.insnAt i).target ≠ p)
    (hb : ∀ x ∈ s.usersOf ((s.insnAt i).target), slotInBounds s x)
    (sl : Slot) (hsl : sl ∈ s.usersOf ((s.insnAt i).target)) :
    (convert_instruction_target i p s).readSlot sl = p := by
  rw [convert_instruction_target]
  show (if (s.insnAt i).target = p then s
    else ((((s.usersOf ((s.insnAt i).target)).foldl (fun st x => st.writeSlot x p)
        s).appendUsers p (s.usersOf ((s.insnAt i).target))).clearUsers
      ((s.insnAt i).target))).readSlot sl = p
  rw [if_neg hne, readSlot_clearUsers, readSlot_appendUsers,
    foldl_writeSlot_read p _ s sl hb, if_pos hsl]

theorem readSlot_updInsn_bbNone (s : IR) (i : Nat) (sl : Slot) :
    (s.updInsn i (fun ins => { ins with bb := none })).readSlot sl = s.readSlot sl := by
  rcases sl with ⟨j, nm⟩
  rw [IR.readSlot, IR.readSlot, insnAt_updInsn]
  split
  · next hc =>
    rcases hc with ⟨rfl, _⟩
    cases nm <;> rfl
  · rfl

/-- `replace_with_pseudo` decomposed: the state is the retargeted state, run
through the opcode's `kill_use` clean-up (a kill evolution), with the
instruction then marked dead; the return value is REPEAT_CSE. -/
theorem replace_with_pseudo_spec (fuel i : Nat) (p : PseudoRef) (s : IR) :
    ∃ t, KillEvolves (convert_instruction_target i p s) t ∧
      replace_with_pseudo fuel i p s =
        (REPEAT_CSE, t.updInsn i (fun ins => { ins with bb := none })) := by
  have hk : ∀ j u, KillEvolves u (killOf fuel j u) := fun j u => killEvolves_killOf fuel j u
  refine ⟨if ((convert_instruction_target i p s).insnAt i).opcode = Opcode.SEL ∨
        ((convert_instruction_target i p s).insnAt i).opcode = Opcode.RANGE then
      kill_useG (killOf fuel) ⟨i, SlotName.s1⟩ (kill_useG (killOf fuel) ⟨i, SlotName.s2⟩
        (kill_useG (killOf fuel) ⟨i, SlotName.s3⟩ (convert_instruction_target i p s)))
    else if (((convert_instruction_target i p s).insnAt i).opcode).isBinaryToBincmpEnd then
      kill_useG (killOf fuel) ⟨i, SlotName.s1⟩ (kill_useG (killOf fuel) ⟨i, SlotName.s2⟩
        (convert_instruction_target i p s))
    else if ((convert_instruction_target i p s).insnAt i).opcode = Opcode.NOT ∨
        ((convert_instruction_target i p s).insnAt i).opcode = Opcode.NEG ∨
        ((convert_instruction_target i p s).insnAt i).opcode = Opcode.SYMADDR ∨
        ((convert_instruction_target i p s).insnAt i).opcode = Opcode.CAST ∨
        ((convert_instruction_target i p s).insnAt i).opcode = Opcode.SCAST ∨
        ((convert_instruction_target i p s).insnAt i).opcode = Opcode.FPCAST ∨
        ((convert_instruction_target i p s).insnAt i).opcode = Opcode.PTRCAST then
      kill_useG (killOf fuel) ⟨i, SlotName.s1⟩ (convert_instruction_target i p s)
    else convert_instruction_target i p s, ?_, rfl⟩
  split_ifs
  · exact killEvolves_trans (killEvolves_kill_use _ hk _ _)
      (killEvolves_trans (killEvolves_kill_use _ hk _ _) (killEvolves_kill_use _ hk _ _))
  · exact killEvolves_trans (killEvolves_kill_use _ hk _ _) (killEvolves_kill_use _ hk _ _)
  · exact killEvolves_kill_use _ hk _ _
  · exact killEvolves_refl _

/-- What `replace_with_pseudo` observably does: REPEAT_CSE is returned, the
instruction is dead, and every former user slot of the target now holds the
replacement (or was VOIDed by the clean-up cascade). -/
theorem replace_with_pseudo_contract (fuel i : Nat) (p : PseudoRef) (s : IR)
    (hlive : s.liveInsn i) (hpt : p ≠ (s.insnAt i).target)
    (hb : ∀ sl ∈ s.usersOf ((s.insnAt i).target), slotInBounds s sl) :
    (replace_with_pseudo fuel i p s).1 = REPEAT_CSE ∧
    ((replace_with_pseudo fuel i p s).2.insnAt i).bb = none ∧
    ∀ sl ∈ s.usersOf ((s.insnAt i).target),
      (replace_with_pseudo fuel i p s).2.readSlot sl = p ∨
      (replace_with_pseudo fuel i p s).2.readSlot sl = PseudoRef.void := by
  obtain ⟨t, hev, heq⟩ := replace_with_pseudo_spec fuel i p s
  refine ⟨by rw [heq], ?_, ?_⟩
  · rw [heq]
    show ((t.updInsn i (fun ins => { ins with bb := none })).insnAt i).bb = none
    have hlen : i < t.insns.length := by
      rw [hev.insLen, length_insns_convert]
      exact hlive.1
    rw [insnAt_updInsn, if_pos ⟨rfl, hlen⟩]
  · intro sl hsl
    have h0 : (convert_instruction_target i p s).readSlot sl = p :=
      convert_readSlot i p s (fun hc => hpt hc.symm) hb sl hsl
    have hfin : (replace_with_pseudo fuel i p s).2.readSlot sl = t.readSlot sl := by
      rw [heq]
      show (t.updInsn i (fun ins => { ins with bb := none })).readSlot sl =
        t.readSlot sl
      rw [readSlot_updInsn_bbNone]
    rcases hev.slots sl with h | h
    · left
      rw [hfin, h, h0]
    · right
      rw [hfin, h]

/-- Claim C6 — right-constant identities.  For `simplify_constant_rightside`:
a zero right constant on ADD/SUB/OR/XOR/SHL/LSR/OR_BOOL drops the result to
src1; SUB with a nonzero constant is rewritten in place to `ADD src1, -c`;
AND with zero drops to the constant 0 (src2); MODU/MODS by 1 drop to the
constant 0.  The drop is `replace_with_pseudo`: it returns REPEAT_CSE, marks
the instruction dead, and rewrites every former user slot of the target to
the replacement (a slot can only additionally be VOIDed by the operand
clean-up cascade). -/
theorem simplify_constant_rightside_contract (fuel i : Nat) (s : IR)
    (hlive : s.liveInsn i) :
    (((s.insnAt i).opcode = Opcode.ADD ∨ (s.insnAt i).opcode = Opcode.SUB ∨
      (s.insnAt i).opcode = Opcode.OR ∨ (s.insnAt i).opcode = Opcode.XOR ∨
      (s.insnAt i).opcode = Opcode.SHL ∨ (s.insnAt i).opcode = Opcode.LSR ∨
      (s.insnAt i).opcode = Opcode.OR_BOOL) →
      (s.insnAt i).slot2 = PseudoRef.val 0 →
      simplify_constant_rightside fuel i s =
        replace_with_pseudo fuel i ((s.insnAt i).slot1) s) ∧
    ((s.insnAt i).opcode = Opcode.SUB →
      ∀ c : Int, (s.insnAt i).slot2 = PseudoRef.val c → c ≠ 0 →
      simplify_constant_rightside fuel i s =
        (REPEAT_CSE, s.updInsn i (fun ins =>
          { ins with opcode := Opcode.ADD, slot2 := PseudoRef.val (wrap64 (-c)) }))) ∧
    ((s.insnAt i).opcode = Opcode.AND → (s.insnAt i).slot2 = PseudoRef.val 0 →
      simplify_constant_rightside fuel i s =
        replace_with_pseudo fuel i ((s.insnAt i).slot2) s) ∧
    (((s.insnAt i).opcode = Opcode.MODU ∨ (s.insnAt i).opcode = Opcode.MODS) →
      (s.insnAt i).slot2 = PseudoRef.val 1 →
      simplify_constant_rightside fuel i s =
        replace_with_pseudo fuel i (PseudoRef.val 0) s) ∧
    (∀ p, p ≠ (s.insnAt i).target →
      (∀ sl ∈ s.usersOf ((s.insnAt i).target), slotInBounds s sl) →
      (replace_with_pseudo fuel i p s).1 = REPEAT_CSE ∧
      ((replace_with_pseudo fuel i p s).2.insnAt i).bb = none ∧
      ∀ sl ∈ s.usersOf ((s.insnAt i).target),
        (replace_with_pseudo fuel i p s).2.readSlot sl = p ∨
        (replace_with_pseudo fuel i p s).2.readSlot sl = PseudoRef.void) := by
  refine ⟨?_, ?_, ?_, ?_, ?_⟩
  · intro hrow hval
    rcases hrow with h | h | h | h | h | h | h <;>
      · simp only [simplify_constant_rightside]
        rw [h, hval]
        rfl
  · intro hsub c hval hc
    simp only [simplify_constant_rightside]
    rw [hsub, hval]
    rw [if_pos (show (PseudoRef.val c).value ≠ 0 from hc)]
    rfl
  · intro hand hval
    simp only [simplify_constant_rightside]
    rw [hand, hval]
    rfl
  · intro hrow hval
    rcases hrow with h | h <;>
      · simp only [simplify_constant_rightside]
        rw [h, hval]
        rfl
  · intro p hpt hb
    exact replace_with_pseudo_contract fuel i p s hlive hpt hb

/-- Witness for `simplify_constant_rightside_contract` at the S2 state:
`t = ADD.32 x, 0` drops to `x` — the call becomes `replace_with_pseudo` on
src1, which returns REPEAT_CSE, marks the ADD dead, and rewrites `t`'s use in
the COPY to `x` (or VOID under cascade; here it is `x`). -/
theorem simplify_constant_rightside_contract_witness :
    (sAdd0.liveInsn 0 ∧ (sAdd0.insnAt 0).opcode = Opcode.ADD ∧
      (sAdd0.insnAt 0).slot2 = PseudoRef.val 0 ∧
      PseudoRef.id 0 ≠ (sAdd0.insnAt 0).target) ∧
    (simplify_constant_rightside 2 0 sAdd0 =
        replace_with_pseudo 2 0 ((sAdd0.insnAt 0).slot1) sAdd0 ∧
      (replace_with_pseudo 2 0 (PseudoRef.id 0) sAdd0).1 = REPEAT_CSE ∧
      ((replace_with_pseudo 2 0 (PseudoRef.id 0) sAdd0).2.insnAt 0).bb = none ∧
      ((replace_with_pseudo 2 0 (PseudoRef.id 0) sAdd0).2.readSlot ⟨1, SlotName.s1⟩ =
          PseudoRef.id 0 ∨
        (replace_with_pseudo 2 0 (PseudoRef.id 0) sAdd0).2.readSlot ⟨1, SlotName.s1⟩ =
          PseudoRef.void)) := by
  have hb : ∀ sl ∈ sAdd0.usersOf ((sAdd0.insnAt 0).target), slotInBounds sAdd0 sl := by
    intro sl hsl
    rw [show sAdd0.usersOf ((sAdd0.insnAt 0).target) = [⟨1, SlotName.s1⟩] from rfl] at hsl
    rw [List.mem_singleton] at hsl
    subst hsl
    exact ⟨by decide, trivial⟩
  have h := simplify_constant_rightside_contract 2 0 sAdd0 ⟨by decide, by decide⟩
  have hrep := h.2.2.2.2 (PseudoRef.id 0) (by decide) hb
  refine ⟨⟨⟨by decide, by decide⟩, by decide, by decide, by decide⟩,
    h.1 (Or.inl (by decide)) (by decide), hrep.1, hrep.2.1, ?_⟩
  exact hrep.2.2 ⟨1, SlotName.s1⟩ (by decide)

theorem insnAt_updBB (s : IR) (b : Nat) (f : BasicBlock → BasicBlock) (j : Nat) :
    (s.updBB b f).insnAt j = s.insnAt j := rfl

theorem foldl_updBB_insnAt (l : List Nat) (bbId : Nat) (s : IR) (j : Nat) :
    ((l.foldl (fun st c => st.updBB c
        (fun b => { b with parents := b.parents.erase bbId })) s).insnAt j) =
      s.insnAt j := by
  induction l generalizing s with
  | nil => rfl
  | cons a t ih =>
    rw [List.foldl_cons, ih]
    rfl

theorem insnAt_insert_branch (fuel bbId i target : Nat) (s : IR) (j : Nat) :
    (insert_branch fuel bbId i target s).insnAt j =
      ((kill_useG (killOf fuel) ⟨i, SlotName.s1⟩ s).updInsn i (fun ins =>
        { ins with opcode := .BR, slot1 := .null, bbTrue := some target,
                   bbFalse := none, multijmpList := [] })).insnAt j := by
  simp only [insert_branch]
  rw [foldl_updBB_insnAt]
  rfl

theorem selectCase_sound (l : List Multijmp) (v : Int) (jmp : Multijmp)
    (h : selectCase l v = some jmp) :
    jmp ∈ l ∧ (jmp.endi < jmp.begi ∨ (jmp.begi ≤ v ∧ v ≤ jmp.endi)) := by
  induction l with
  | nil => cases h
  | cons a t ih =>
    rw [selectCase] at h
    by_cases hc : a.endi < a.begi ∨ (a.begi ≤ v ∧ v ≤ a.endi)
    · rw [if_pos hc] at h
      injection h with h2
      subst h2
      exact ⟨List.mem_cons_self _ _, hc⟩
    · rw [if_neg hc] at h
      have ht := ih h
      exact ⟨List.mem_cons_of_mem _ ht.1, ht.2⟩

theorem selectCase_none (l : List Multijmp) (v : Int) (h : selectCase l v = none) :
    ∀ jmp ∈ l, ¬(jmp.endi < jmp.begi ∨ (jmp.begi ≤ v ∧ v ≤ jmp.endi)) := by
  induction l with
  | nil =>
    intro jmp hj
    exact absurd hj (List.not_mem_nil jmp)
  | cons a t ih =>
    rw [selectCase] at h
    by_cases hc : a.endi < a.begi ∨ (a.begi ≤ v ∧ v ≤ a.endi)
    · rw [if_pos hc] at h
      cases h
    · rw [if_neg hc] at h
      intro jmp hj
      rcases List.mem_cons.1 hj with rfl | hj2
      · exact hc
      · exact ih h jmp hj2

/-- Claim C7 — switch folding.  For a live switch whose scrutinee is `VAL v`:
when the linear scan finds an entry (the first default case — `begin > end` —
or the first whose inclusive range contains `v`), the call returns REPEAT_CSE
and converts the instruction to an unconditional branch (`OP_BR` with the
entry's target); when no entry qualifies, the warning "Impossible case
statement" is appended and everything else is left intact. -/
theorem simplify_switch_contract (fuel i : Nat) (s : IR) (v : Int)
    (hv : (s.insnAt i).slot1 = PseudoRef.val v) (hi : i < s.insns.length) :
    (∀ jmp, selectCase (s.insnAt i).multijmpList v = some jmp →
      jmp ∈ (s.insnAt i).multijmpList ∧
      (jmp.endi < jmp.begi ∨ (jmp.begi ≤ v ∧ v ≤ jmp.endi)) ∧
      ∀ bbId, (s.insnAt i).bb = some bbId →
        simplify_switch fuel i s =
          (REPEAT_CSE, insert_branch fuel bbId i jmp.target s) ∧
        ((insert_branch fuel bbId i jmp.target s).insnAt i).opcode = Opcode.BR ∧
        ((insert_branch fuel bbId i jmp.target s).insnAt i).bbTrue =
          some jmp.target) ∧
    (selectCase (s.insnAt i).multijmpList v = none →
      (∀ jmp ∈ (s.insnAt i).multijmpList,
        ¬(jmp.endi < jmp.begi ∨ (jmp.begi ≤ v ∧ v ≤ jmp.endi))) ∧
      simplify_switch fuel i s =
        (0, { s with warnings := s.warnings ++ ["Impossible case statement"] })) := by
  have hs1len : i < (kill_useG (killOf fuel) ⟨i, SlotName.s1⟩ s).insns.length := by
    rw [(killEvolves_kill_use _ (fun j u => killEvolves_killOf fuel j u) _ _).insLen]
    exact hi
  constructor
  · intro jmp hsel
    have hsound := selectCase_sound _ _ _ hsel
    refine ⟨hsound.1, hsound.2, ?_⟩
    intro bbId hbb
    have hsel' : selectCase (s.insnAt i).multijmpList ((PseudoRef.val v).value) =
        some jmp := hsel
    refine ⟨?_, ?_, ?_⟩
    · simp only [simplify_switch]
      rw [hv, if_neg (fun hc => hc rfl), hsel', hbb]
    · rw [insnAt_insert_branch, insnAt_updInsn, if_pos ⟨rfl, hs1len⟩]
    · rw [insnAt_insert_branch, insnAt_updInsn, if_pos ⟨rfl, hs1len⟩]
  · intro hsel
    have hsel' : selectCase (s.insnAt i).multijmpList ((PseudoRef.val v).value) =
        none := hsel
    refine ⟨selectCase_none _ _ hsel, ?_⟩
    simp only [simplify_switch]
    rw [hv, if_neg (fun hc => hc rfl), hsel']

/-- Witness for `simplify_switch_contract` at the S6 state: value 7 selects
the `[6..10] -> B` entry, the switch becomes `BR B` (block 2), and the edges
to A and D disappear from block 0's children and from A's and D's parents. -/
theorem simplify_switch_contract_witness :
    ((sSwitch.insnAt 0).slot1 = PseudoRef.val 7 ∧ 0 < sSwitch.insns.length ∧
      selectCase (sSwitch.insnAt 0).multijmpList 7 = some ⟨2, 6, 10⟩ ∧
      (sSwitch.insnAt 0).bb = some 0) ∧
    (simplify_switch 2 0 sSwitch = (REPEAT_CSE, insert_branch 2 0 0 2 sSwitch) ∧
      ((insert_branch 2 0 0 2 sSwitch).insnAt 0).opcode = Opcode.BR ∧
      ((insert_branch 2 0 0 2 sSwitch).insnAt 0).bbTrue = some 2) ∧
    ((insert_branch 2 0 0 2 sSwitch).bbAt 0).children = [2] ∧
    ((insert_branch 2 0 0 2 sSwitch).bbAt 1).parents = [] ∧
    ((insert_branch 2 0 0 2 sSwitch).bbAt 2).parents = [0] ∧
    ((insert_branch 2 0 0 2 sSwitch).bbAt 3).parents = [] := by
  have h := (simplify_switch_contract 2 0 sSwitch 7 (by decide) (by decide)).1
    ⟨2, 6, 10⟩ (by decide)
  have h2 := h.2.2 0 (by decide)
  exact ⟨⟨by decide, by decide, by decide, by decide⟩,
    ⟨h2.1, h2.2.1, h2.2.2⟩, by decide, by decide, by decide, by decide⟩

theorem readSlot_use_pseudo (p : PseudoRef) (sl : Slot) (s : IR) (x : Slot) :
    (use_pseudoF p sl s).readSlot x = (s.writeSlot sl p).readSlot x := by
  cases p <;> rfl

theorem readSlot_rem_pure (p : PseudoRef) (usep : Slot) (s : IR) (x : Slot) :
    (rem_usage_pure p usep s).readSlot x = s.readSlot x := by
  show ((rem_usage_pure p usep s).insnAt x.insn).readSlot x.name =
    (s.insnAt x.insn).readSlot x.name
  rw [insnAt_rem_pure]

theorem slotInBounds_use_pseudo (p : PseudoRef) (sl : Slot) (s : IR) (x : Slot)
    (h : slotInBounds s x) : slotInBounds (use_pseudoF p sl s) x := by
  cases p with
  | id n =>
    show slotInBounds ((s.writeSlot sl (PseudoRef.id n)).updPseudo n
      (fun ps => { ps with users := ps.users ++ [sl] })) x
    exact slotInBounds_writeSlot s sl (PseudoRef.id n) x h
  | null => exact slotInBounds_writeSlot s sl .null x h
  | void => exact slotInBounds_writeSlot s sl .void x h
  | val v => exact slotInBounds_writeSlot s sl (.val v) x h

/-- Like `switch_pseudo_eq_pure` but for two arbitrary distinct slots holding
distinct pseudos, as used by the associative reordering (`def.src1` against
`insn.src2`). -/
theorem switch_pseudo_eq_pure2 (fuel : Nat) (sl1 sl2 : Slot) (s : IR)
    (hsl : sl1 ≠ sl2) (hp : s.readSlot sl1 ≠ s.readSlot sl2) :
    switch_pseudoF fuel sl1 sl2 s =
      rem_usage_pure (s.readSlot sl2) sl2
        (rem_usage_pure (s.readSlot sl1) sl1
          (use_pseudoF (s.readSlot sl1) sl2 (use_pseudoF (s.readSlot sl2) sl1 s))) := by
  have hsl' : sl2 ≠ sl1 := fun h => hsl h.symm
  have hdis1 : ((use_pseudoF (s.readSlot sl1) sl2
        (use_pseudoF (s.readSlot sl2) sl1 s)).usersOf (s.readSlot sl1)).erase sl1 ≠ [] ∨
      (use_pseudoF (s.readSlot sl1) sl2
        (use_pseudoF (s.readSlot sl2) sl1 s)).pseudoDef (s.readSlot sl1) = none := by
    cases hc : s.readSlot sl1 with
    | null => exact Or.inr rfl
    | void => exact Or.inr rfl
    | val v => exact Or.inr rfl
    | id m =>
      by_cases hm : m < s.pseudos.length
      · left
        have hm1 : m < (use_pseudoF (s.readSlot sl2) sl1 s).pseudos.length := by
          rw [length_pseudos_use_pseudo]; exact hm
        show (((use_pseudoF (PseudoRef.id m) sl2
            (use_pseudoF (s.readSlot sl2) sl1 s)).pseudoAt m).users).erase sl1 ≠ []
        rw [pseudoAt_use_pseudo_self m _ _ hm1]
        show ((((use_pseudoF (s.readSlot sl2) sl1 s).pseudoAt m).users ++
            [sl2]).erase sl1) ≠ []
        exact List.ne_nil_of_mem ((List.mem_erase_of_ne hsl').2
          (List.mem_append_right _ (List.mem_singleton_self _)))
      · right
        apply pseudoDef_out
        rw [length_pseudos_use_pseudo, length_pseudos_use_pseudo]
        exact le_of_not_lt hm
  have hdis2 : ((rem_usage_pure (s.readSlot sl1) sl1
        (use_pseudoF (s.readSlot sl1) sl2
          (use_pseudoF (s.readSlot sl2) sl1 s))).usersOf (s.readSlot sl2)).erase
          sl2 ≠ [] ∨
      (rem_usage_pure (s.readSlot sl1) sl1
        (use_pseudoF (s.readSlot sl1) sl2
          (use_pseudoF (s.readSlot sl2) sl1 s))).pseudoDef (s.readSlot sl2) = none := by
    cases hc : s.readSlot sl2 with
    | null => exact Or.inr rfl
    | void => exact Or.inr rfl
    | val v => exact Or.inr rfl
    | id n =>
      rw [hc] at hp
      by_cases hn : n < s.pseudos.length
      · left
        show (((rem_usage_pure (s.readSlot sl1) sl1
            (use_pseudoF (s.readSlot sl1) sl2
              (use_pseudoF (PseudoRef.id n) sl1 s))).pseudoAt n).users).erase sl2 ≠ []
        rw [pseudoAt_rem_pure_ne _ _ _ _ hp, pseudoAt_use_pseudo_ne _ _ _ _ hp,
          pseudoAt_use_pseudo_self n _ _ hn]
        show (((s.pseudoAt n).users ++ [sl1]).erase sl2) ≠ []
        exact List.ne_nil_of_mem ((List.mem_erase_of_ne hsl).2
          (List.mem_append_right _ (List.mem_singleton_self _)))
      · right
        apply pseudoDef_out
        rw [length_pseudos_rem_pure, length_pseudos_use_pseudo,
          length_pseudos_use_pseudo]
        exact le_of_not_lt hn
  have hstep : switch_pseudoF fuel sl1 sl2 s =
      rem_usageG (killOf fuel) (s.readSlot sl2) sl2 true
        (rem_usageG (killOf fuel) (s.readSlot sl1) sl1 true
          (use_pseudoF (s.readSlot sl1) sl2
            (use_pseudoF (s.readSlot sl2) sl1 s))) := rfl
  rw [hstep, rem_usage_eq_pure _ _ _ _ _ hdis1, rem_usage_eq_pure _ _ _ _ _ hdis2]

theorem switch2_read1 (fuel : Nat) (sl1 sl2 : Slot) (s : IR)
    (hsl : sl1 ≠ sl2) (hp : s.readSlot sl1 ≠ s.readSlot sl2)
    (hb1 : slotInBounds s sl1) :
    (switch_pseudoF fuel sl1 sl2 s).readSlot sl1 = s.readSlot sl2 := by
  rw [switch_pseudo_eq_pure2 fuel sl1 sl2 s hsl hp, readSlot_rem_pure,
    readSlot_rem_pure, readSlot_use_pseudo, readSlot_writeSlot_ne _ hsl _,
    readSlot_use_pseudo, readSlot_writeSlot_self s sl1 _ hb1]

theorem switch2_read2 (fuel : Nat) (sl1 sl2 : Slot) (s : IR)
    (hsl : sl1 ≠ sl2) (hp : s.readSlot sl1 ≠ s.readSlot sl2)
    (hb2 : slotInBounds s sl2) :
    (switch_pseudoF fuel sl1 sl2 s).readSlot sl2 = s.readSlot sl1 := by
  rw [switch_pseudo_eq_pure2 fuel sl1 sl2 s hsl hp, readSlot_rem_pure,
    readSlot_rem_pure, readSlot_use_pseudo,
    readSlot_writeSlot_self _ sl2 _
      (slotInBounds_use_pseudo (s.readSlot sl2) sl1 s sl2 hb2)]

/-- Claim C8 counterexample.  All the conditions the claim lists hold at
instruction 1 of `sAssoc2` — simple src2, src1 a REG defined by a same-opcode
instruction with a simple src2 — yet nothing is swapped and 0 is returned,
because the inner result `t1` has two users and the code additionally
requires `pseudo_user_list_size(def->target->users) == 1`. -/
theorem assoc_two_users_cex :
    simple_pseudo sAssoc2 ((sAssoc2.insnAt 1).slot2) = true ∧
    sAssoc2.isReg ((sAssoc2.insnAt 1).slot1) = true ∧
    sAssoc2.pseudoDef ((sAssoc2.insnAt 1).slot1) = some 0 ∧
    (sAssoc2.insnAt 0).opcode = (sAssoc2.insnAt 1).opcode ∧
    simple_pseudo sAssoc2 ((sAssoc2.insnAt 0).slot2) = true ∧
    simplify_associative_binop 2 1 sAssoc2 = (0, sAssoc2) := by decide

/-- Claim C8, amended — associative reordering fires only when additionally
the defining instruction is distinct from the current one and its target has
exactly ONE user; then `def.src1` and `insn.src2` are exchanged and
REPEAT_CSE is returned. -/
theorem simplify_associative_contract (fuel i d : Nat) (s : IR)
    (h1 : simple_pseudo s ((s.insnAt i).slot2) = true)
    (h2 : s.isReg ((s.insnAt i).slot1) = true)
    (h3 : s.pseudoDef ((s.insnAt i).slot1) = some d)
    (hdi : d ≠ i)
    (h4 : (s.insnAt d).opcode = (s.insnAt i).opcode)
    (h5 : simple_pseudo s ((s.insnAt d).slot2) = true)
    (h6 : (s.usersOf ((s.insnAt d).target)).length = 1)
    (hd : d < s.insns.length) (hi : i < s.insns.length)
    (hne : (s.insnAt d).slot1 ≠ (s.insnAt i).slot2) :
    simplify_associative_binop fuel i s =
      (REPEAT_CSE, switch_pseudoF fuel ⟨d, .s1⟩ ⟨i, .s2⟩ s) ∧
    (switch_pseudoF fuel ⟨d, .s1⟩ ⟨i, .s2⟩ s).readSlot ⟨d, SlotName.s1⟩ =
      (s.insnAt i).slot2 ∧
    (switch_pseudoF fuel ⟨d, .s1⟩ ⟨i, .s2⟩ s).readSlot ⟨i, SlotName.s2⟩ =
      (s.insnAt d).slot1 := by
  have hsl : (⟨d, SlotName.s1⟩ : Slot) ≠ ⟨i, SlotName.s2⟩ := by
    intro h
    injection h with ha hb
    exact hdi ha
  have hp : s.readSlot ⟨d, SlotName.s1⟩ ≠ s.readSlot ⟨i, SlotName.s2⟩ := hne
  refine ⟨?_, ?_, ?_⟩
  · simp only [simplify_associative_binop]
    rw [if_neg (fun hc => hc h1), if_neg (fun hc => hc h2), h3]
    show (if d = i then ((0 : Nat), s)
      else if (s.insnAt d).opcode ≠ (s.insnAt i).opcode then (0, s)
      else if ¬ simple_pseudo s ((s.insnAt d).slot2) = true then (0, s)
      else if (s.usersOf ((s.insnAt d).target)).length ≠ 1 then (0, s)
      else (REPEAT_CSE,
        switch_pseudoF fuel ⟨d, SlotName.s1⟩ ⟨i, SlotName.s2⟩ s)) =
      (REPEAT_CSE, switch_pseudoF fuel ⟨d, SlotName.s1⟩ ⟨i, SlotName.s2⟩ s)
    rw [if_neg hdi, if_neg (fun hc => hc h4), if_neg (fun hc => hc h5),
      if_neg (fun hc => hc h6)]
  · exact switch2_read1 fuel _ _ s hsl hp ⟨hd, trivial⟩
  · exact switch2_read2 fuel _ _ s hsl hp ⟨hi, trivial⟩

/-- Witness for `simplify_associative_contract` at `sAssoc1`: the swap
rewrites instruction 0 to `ADD 2, 1` (both constants together) and
instruction 1's src2 to `x`. -/
theorem simplify_associative_contract_witness :
    (simple_pseudo sAssoc1 ((sAssoc1.insnAt 1).slot2) = true ∧
      sAssoc1.isReg ((sAssoc1.insnAt 1).slot1) = true ∧
      sAssoc1.pseudoDef ((sAssoc1.insnAt 1).slot1) = some 0 ∧
      (0 : Nat) ≠ 1 ∧
      (sAssoc1.insnAt 0).opcode = (sAssoc1.insnAt 1).opcode ∧
      simple_pseudo sAssoc1 ((sAssoc1.insnAt 0).slot2) = true ∧
      (sAssoc1.usersOf ((sAssoc1.insnAt 0).target)).length = 1 ∧
      (sAssoc1.insnAt 0).slot1 ≠ (sAssoc1.insnAt 1).slot2) ∧
    (simplify_associative_binop 2 1 sAssoc1 =
        (REPEAT_CSE, switch_pseudoF 2 ⟨0, .s1⟩ ⟨1, .s2⟩ sAssoc1) ∧
      (switch_pseudoF 2 ⟨0, .s1⟩ ⟨1, .s2⟩ sAssoc1).readSlot ⟨0, SlotName.s1⟩ =
        PseudoRef.val 2 ∧
      (switch_pseudoF 2 ⟨0, .s1⟩ ⟨1, .s2⟩ sAssoc1).readSlot ⟨1, SlotName.s2⟩ =
        PseudoRef.id 0) := by
  have h := simplify_associative_contract 2 1 0 sAssoc1 (by decide) (by decide)
    (by decide) (by decide) (by decide) (by decide) (by decide) (by decide)
    (by decide) (by decide)
  exact ⟨⟨by decide, by decide, by decide, by decide, by decide, by decide,
    by decide, by decide⟩, h.1, h.2.1, h.2.2⟩

/-- Claim C9 counterexample.  In `sCast255` the cast source is a REG defined
by `AND x, 255`, and 255 fits in the cast's new width of 8 bits — yet the
cast is NOT dropped: the C guard is `!(value >> (size-1))`, demanding the
mask be clear from bit `size-1` up (value < 2^(size-1), here < 128), because
a surviving sign/top bit would not be a no-op for the signed interpretation
the cast may feed. -/
theorem cast_and_fits_not_elided_cex :
    (sCast255.insnAt 1).opcode = Opcode.CAST ∧
    (sCast255.insnAt 1).slot1 = PseudoRef.id 1 ∧
    (sCast255.pseudoAt 1).kind = PseudoKind.reg 0 ∧
    (sCast255.insnAt 0).opcode = Opcode.AND ∧
    (sCast255.insnAt 0).slot2 = PseudoRef.val 255 ∧
    pat64 255 < 2 ^ (sCast255.insnAt 1).size ∧
    simplify_cast 2 1 sCast255 = (0, sCast255) := by decide

/-- Claim C9, amended — the AND-elision needs `def.size ≥ size` and the mask's
64-bit pattern to vanish from bit `size-1` upward (`value >> (size-1) == 0`),
not merely to fit in the new width; under those conditions (and the cast not
being refused for pointers or float-to-int) the cast is dropped onto its
source: users are retargeted to the source pseudo and the cast is killed. -/
theorem simplify_cast_and_elide (fuel i n d : Nat) (v : Int) (ot : CType) (s : IR)
    (hlive : s.liveInsn i)
    (husers : s.usersOf ((s.insnAt i).target) ≠ [])
    (horig : (s.insnAt i).origType = some ot)
    (hptr1 : ot.isPtr = false) (hptr2 : (s.insnAt i).typ.isPtr = false)
    (hflt : ot.isFloat = true → (s.insnAt i).typ.isFloat = true)
    (hsrc : (s.insnAt i).slot1 = PseudoRef.id n)
    (hkind : (s.pseudoAt n).kind = PseudoKind.reg d)
    (hand : (s.insnAt d).opcode = Opcode.AND)
    (hsize : (s.insnAt i).size ≤ (s.insnAt d).size)
    (hval : (s.insnAt d).slot2 = PseudoRef.val v)
    (hfit : pat64 v >>> ((s.insnAt i).size - 1) = 0)
    (hpt : PseudoRef.id n ≠ (s.insnAt i).target)
    (hb : ∀ sl ∈ s.usersOf ((s.insnAt i).target), slotInBounds s sl) :
    simplify_cast fuel i s = replace_with_pseudo fuel i (PseudoRef.id n) s ∧
    (simplify_cast fuel i s).1 = REPEAT_CSE ∧
    ((simplify_cast fuel i s).2.insnAt i).bb = none ∧
    ∀ sl ∈ s.usersOf ((s.insnAt i).target),
      (simplify_cast fuel i s).2.readSlot sl = PseudoRef.id n ∨
      (simplify_cast fuel i s).2.readSlot sl = PseudoRef.void := by
  have hdead : dead_insn fuel i (some .s1) none none s = (false, s) := by
    rw [dead_insn, if_pos husers]
  have heq : simplify_cast fuel i s = replace_with_pseudo fuel i (PseudoRef.id n) s := by
    simp only [simplify_cast]
    rw [hdead]
    show (match (s.insnAt i).origType with
      | none => ((0 : Nat), s)
      | some origType =>
        if origType.isPtr ∨ (s.insnAt i).typ.isPtr then (0, s)
        else if origType.isFloat ∧ ¬ (s.insnAt i).typ.isFloat then (0, s)
        else
          if (s.insnAt i).slot1.isVal then
            replace_with_pseudo fuel i
              (.val (get_cast_value ((s.insnAt i).slot1.value) origType.bitSize
                ((s.insnAt i).size) origType.signed)) s
          else
            if (match (s.insnAt i).slot1 with
              | PseudoRef.id m =>
                (match (s.pseudoAt m).kind with
                 | PseudoKind.reg e =>
                   if (s.insnAt e).opcode = Opcode.AND ∧
                       (s.insnAt i).size ≤ (s.insnAt e).size then
                     match (s.insnAt e).slot2 with
                     | PseudoRef.val w =>
                       decide (pat64 w >>> ((s.insnAt i).size - 1) = 0)
                     | _ => false
                   else false
                 | _ => false)
              | _ => false : Bool) then
              replace_with_pseudo fuel i ((s.insnAt i).slot1) s
            else if (s.insnAt i).size = origType.bitSize then
              if (s.insnAt i).opcode =
                  (if origType.signed then Opcode.SCAST else Opcode.CAST) then
                replace_with_pseudo fuel i ((s.insnAt i).slot1) s
              else if (s.insnAt i).opcode = Opcode.FPCAST ∧ origType.isFloat then
                replace_with_pseudo fuel i ((s.insnAt i).slot1) s
              else (0, s)
            else (0, s)) =
      replace_with_pseudo fuel i (PseudoRef.id n) s
    rw [horig]
    dsimp only
    rw [if_neg (fun hc => by
      rcases hc with h | h
      · rw [hptr1] at h
        exact Bool.noConfusion h
      · rw [hptr2] at h
        exact Bool.noConfusion h)]
    rw [if_neg (fun hc => hc.2 (hflt hc.1))]
    rw [hsrc]
    rw [if_neg (fun hc => Bool.noConfusion hc)]
    dsimp only
    rw [hkind]
    dsimp only
    rw [if_pos (show (s.insnAt d).opcode = Opcode.AND ∧
      (s.insnAt i).size ≤ (s.insnAt d).size from ⟨hand, hsize⟩)]
    rw [hval]
    dsimp only
    rw [if_pos (show decide (pat64 v >>> ((s.insnAt i).size - 1) = 0) = true
      from decide_eq_true hfit)]
  have hrep := replace_with_pseudo_contract fuel i (PseudoRef.id n) s hlive hpt hb
  refine ⟨heq, ?_, ?_, ?_⟩
  · rw [heq]
    exact hrep.1
  · rw [heq]
    exact hrep.2.1
  · intro sl hsl
    rw [heq]
    exact hrep.2.2 sl hsl

/-- Witness for `simplify_cast_and_elide` at `sCastOk`: `CAST.8` of
`AND.32 x, 127` is dropped; the COPY's operand is retargeted to the AND's
result and the cast dies. -/
theorem simplify_cast_and_elide_witness :
    (sCastOk.liveInsn 1 ∧ sCastOk.usersOf ((sCastOk.insnAt 1).target) ≠ [] ∧
      (sCastOk.insnAt 1).origType = some ⟨32, false, false, false, false⟩ ∧
      (sCastOk.insnAt 1).slot1 = PseudoRef.id 1 ∧
      (sCastOk.pseudoAt 1).kind = PseudoKind.reg 0 ∧
      (sCastOk.insnAt 0).opcode = Opcode.AND ∧
      (sCastOk.insnAt 1).size ≤ (sCastOk.insnAt 0).size ∧
      (sCastOk.insnAt 0).slot2 = PseudoRef.val 127 ∧
      pat64 127 >>> ((sCastOk.insnAt 1).size - 1) = 0) ∧
    (simplify_cast 2 1 sCastOk = replace_with_pseudo 2 1 (PseudoRef.id 1) sCastOk ∧
      (simplify_cast 2 1 sCastOk).1 = REPEAT_CSE ∧
      ((simplify_cast 2 1 sCastOk).2.insnAt 1).bb = none ∧
      ((simplify_cast 2 1 sCastOk).2.readSlot ⟨2, SlotName.s1⟩ = PseudoRef.id 1 ∨
        (simplify_cast 2 1 sCastOk).2.readSlot ⟨2, SlotName.s1⟩ = PseudoRef.void)) := by
  have hb : ∀ sl ∈ sCastOk.usersOf ((sCastOk.insnAt 1).target),
      slotInBounds sCastOk sl := by
    intro sl hsl
    rw [show sCastOk.usersOf ((sCastOk.insnAt 1).target) = [⟨2, SlotName.s1⟩]
      from rfl] at hsl
    rw [List.mem_singleton] at hsl
    subst hsl
    exact ⟨by decide, trivial⟩
  have h := simplify_cast_and_elide 2 1 1 0 127 ⟨32, false, false, false, false⟩
    sCastOk ⟨by decide, by decide⟩ (by decide) (by decide) (by decide) (by decide)
    (by decide) (by decide) (by decide) (by decide) (by decide) (by decide)
    (by decide) (by decide) hb
  exact ⟨⟨⟨by decide, by decide⟩, by decide, by decide, by decide, by decide,
    by decide, by decide, by decide, by decide⟩,
    h.1, h.2.1, h.2.2.1, h.2.2.2 ⟨2, SlotName.s1⟩ (by decide)⟩

theorem bb_writeSlot (s : IR) (a : Slot) (p : PseudoRef) (j : Nat) :
    ((s.writeSlot a p).insnAt j).bb = (s.insnAt j).bb := by
  rw [IR.writeSlot, insnAt_updInsn]
  split
  · next hc =>
    rcases hc with ⟨rfl, -⟩
    exact bb_writeSlotI _ _ _
  · rfl

theorem opcode_writeSlot (s : IR) (a : Slot) (p : PseudoRef) (j : Nat) :
    ((s.writeSlot a p).insnAt j).opcode = (s.insnAt j).opcode := by
  rw [IR.writeSlot, insnAt_updInsn]
  split
  · next hc =>
    rcases hc with ⟨rfl, -⟩
    exact opcode_writeSlotI _ _ _
  · rfl

theorem foldl_writeSlot_bb (p : PseudoRef) (entries : List Slot) (s : IR) (j : Nat) :
    ((entries.foldl (fun st x => st.writeSlot x p) s).insnAt j).bb =
      (s.insnAt j).bb := by
  induction entries generalizing s with
  | nil => rfl
  | cons a t ih => rw [List.foldl_cons, ih, bb_writeSlot]

theorem foldl_writeSlot_opcode (p : PseudoRef) (entries : List Slot) (s : IR)
    (j : Nat) :
    ((entries.foldl (fun st x => st.writeSlot x p) s).insnAt j).opcode =
      (s.insnAt j).opcode := by
  induction entries generalizing s with
  | nil => rfl
  | cons a t ih => rw [List.foldl_cons, ih, opcode_writeSlot]

theorem insnAt_appendUsers (s : IR) (q : PseudoRef) (entries : List Slot) (j : Nat) :
    (s.appendUsers q entries).insnAt j = s.insnAt j := by
  cases q <;> rfl

theorem insnAt_clearUsers (s : IR) (q : PseudoRef) (j : Nat) :
    (s.clearUsers q).insnAt j = s.insnAt j := by
  cases q <;> rfl

theorem bb_convert (i : Nat) (p : PseudoRef) (s : IR) (j : Nat) :
    ((convert_instruction_target i p s).insnAt j).bb = (s.insnAt j).bb := by
  rw [convert_instruction_target]
  show ((if (s.insnAt i).target = p then s
    else ((((s.usersOf ((s.insnAt i).target)).foldl (fun st x => st.writeSlot x p)
        s).appendUsers p (s.usersOf ((s.insnAt i).target))).clearUsers
      ((s.insnAt i).target))).insnAt j).bb = (s.insnAt j).bb
  split
  · rfl
  · rw [insnAt_clearUsers, insnAt_appendUsers, foldl_writeSlot_bb]

theorem opcode_convert (i : Nat) (p : PseudoRef) (s : IR) (j : Nat) :
    ((convert_instruction_target i p s).insnAt j).opcode = (s.insnAt j).opcode := by
  rw [convert_instruction_target]
  show ((if (s.insnAt i).target = p then s
    else ((((s.usersOf ((s.insnAt i).target)).foldl (fun st x => st.writeSlot x p)
        s).appendUsers p (s.usersOf ((s.insnAt i).target))).clearUsers
      ((s.insnAt i).target))).insnAt j).opcode = (s.insnAt j).opcode
  split
  · rfl
  · rw [insnAt_clearUsers, insnAt_appendUsers, foldl_writeSlot_opcode]

theorem clean_up_phi_scan (s : IR) (l : List PseudoRef)
    (hall : ∀ p ∈ l, p = PseudoRef.void ∨ s.pseudoDef p = none ∨
      ∃ d, s.pseudoDef p = some d ∧
        ((s.insnAt d).slot1 = PseudoRef.void ∨ (s.insnAt d).bb = none)) :
    l.foldl (clean_up_phi_step s) (none, true) = (none, true) := by
  induction l with
  | nil => rfl
  | cons a t ih =>
    have hstep : clean_up_phi_step s (none, true) a = (none, true) := by
      rcases hall a (List.mem_cons_self a t) with rfl | hnone | ⟨d, hd, hcond⟩
      · rfl
      · cases a with
        | void => rfl
        | null => rfl
        | val v => rfl
        | id m =>
          rw [clean_up_phi_step]
          dsimp only
          rw [hnone]
          intro hc
          exact PseudoRef.noConfusion hc
      · cases a with
        | void => rfl
        | null =>
          rw [show s.pseudoDef PseudoRef.null = none from rfl] at hd
          exact Option.noConfusion hd
        | val v =>
          rw [show s.pseudoDef (PseudoRef.val v) = none from rfl] at hd
          exact Option.noConfusion hd
        | id m =>
          rw [clean_up_phi_step]
          dsimp only
          rw [hd]
          dsimp only
          rw [if_pos hcond]
          intro hc
          exact PseudoRef.noConfusion hc
    rw [List.foldl_cons, hstep]
    exact ih (fun p hp => hall p (List.mem_cons_of_mem a hp))

/-- An unrefused kill of a φ marks it dead, whatever the cascade does. -/
theorem kill_insnF_phi_dead (g i : Nat) (sX : IR) (hlive : sX.liveInsn i)
    (hop : (sX.insnAt i).opcode = Opcode.PHI) :
    ((kill_insnF (g + 1) i false sX).2.insnAt i).bb = none := by
  have hk : ∀ (j : Nat) (t : IR),
      KillEvolves t ((fun j st => (kill_insnF g j false st).2) j t) :=
    fun j t => killEvolves_kill_insnF g j false t
  rw [kill_insnF]
  dsimp only
  rw [if_pos (show i < sX.insns.length ∧ (sX.insnAt i).bb ≠ none
    from ⟨hlive.1, hlive.2⟩)]
  rw [if_neg (by rw [hop]; rintro ⟨hc, -⟩; exact Opcode.noConfusion hc),
    if_neg (by rw [hop]; rintro ⟨hc, -⟩; exact Opcode.noConfusion hc),
    if_neg (by rw [hop]; rintro ⟨hc, -⟩; exact Opcode.noConfusion hc),
    if_neg (by rw [hop]; intro hc; exact Opcode.noConfusion hc)]
  have eSlots : KillEvolves sX (kill_insn_slots
      (fun j st => (kill_insnF g j false st).2) i ((sX.insnAt i).opcode) sX) :=
    killEvolves_kill_insn_slots _ hk i _ sX
  have hlen1 : i < (kill_insn_slots (fun j st => (kill_insnF g j false st).2) i
      ((sX.insnAt i).opcode) sX).insns.length := by
    rw [eSlots.insLen]
    exact hlive.1
  show (((kill_insn_slots (fun j st => (kill_insnF g j false st).2) i
      ((sX.insnAt i).opcode) sX).updInsn i
      (fun ins => { ins with bb := none })).insnAt i).bb = none
  rw [insnAt_updInsn, if_pos ⟨rfl, hlen1⟩]

/-- Claim C10 — φ clean-up with no surviving source.  When a live φ's φ-list
entries are all filtered out (VOID, no defining instruction, or a φ-source
whose value is VOID or whose block is dead), the scan still reports "all the
same": the φ's users are retargeted to VOID, the φ is killed, and REPEAT_CSE
is returned. -/
theorem clean_up_phi_all_void (fuel i : Nat) (s : IR) (hf : 0 < fuel)
    (hlive : s.liveInsn i) (hop : (s.insnAt i).opcode = Opcode.PHI)
    (htgt : (s.insnAt i).target ≠ PseudoRef.void)
    (hb : ∀ sl ∈ s.usersOf ((s.insnAt i).target), slotInBounds s sl)
    (hall : ∀ p ∈ (s.insnAt i).phiList, p = PseudoRef.void ∨
      s.pseudoDef p = none ∨
      ∃ d, s.pseudoDef p = some d ∧
        ((s.insnAt d).slot1 = PseudoRef.void ∨ (s.insnAt d).bb = none)) :
    (clean_up_phi fuel i s).1 = REPEAT_CSE ∧
    ((clean_up_phi fuel i s).2.insnAt i).bb = none ∧
    ∀ sl ∈ s.usersOf ((s.insnAt i).target),
      (clean_up_phi fuel i s).2.readSlot sl = PseudoRef.void := by
  obtain ⟨g, rfl⟩ : ∃ g, fuel = g + 1 := ⟨fuel - 1, by omega⟩
  have hscan := clean_up_phi_scan s ((s.insnAt i).phiList) hall
  have heq : clean_up_phi (g + 1) i s =
      (REPEAT_CSE, (kill_insnF (g + 1) i false
        (convert_instruction_target i PseudoRef.void s)).2) := by
    simp only [clean_up_phi]
    rw [hscan]
    rw [if_pos (show ((none, true) : Option Nat × Bool).2 = true from rfl)]
    rfl
  have hcv_live : (convert_instruction_target i PseudoRef.void s).liveInsn i := by
    refine ⟨?_, ?_⟩
    · rw [length_insns_convert]
      exact hlive.1
    · rw [bb_convert]
      exact hlive.2
  have hcv_op : ((convert_instruction_target i PseudoRef.void s).insnAt i).opcode =
      Opcode.PHI := by
    rw [opcode_convert]
    exact hop
  refine ⟨by rw [heq], ?_, ?_⟩
  · rw [heq]
    exact kill_insnF_phi_dead g i _ hcv_live hcv_op
  · intro sl hsl
    have h0 : (convert_instruction_target i PseudoRef.void s).readSlot sl =
        PseudoRef.void :=
      convert_readSlot i PseudoRef.void s htgt hb sl hsl
    rw [heq]
    exact evolve_void (killEvolves_kill_insnF (g + 1) i false _) h0

/-- Witness for `clean_up_phi_all_void` at `sPhiVoid`: the COPY's operand is
retargeted to VOID and the φ dies. -/
theorem clean_up_phi_all_void_witness :
    (0 < 3 ∧ sPhiVoid.liveInsn 0 ∧ (sPhiVoid.insnAt 0).opcode = Opcode.PHI ∧
      (sPhiVoid.insnAt 0).target ≠ PseudoRef.void) ∧
    ((clean_up_phi 3 0 sPhiVoid).1 = REPEAT_CSE ∧
      ((clean_up_phi 3 0 sPhiVoid).2.insnAt 0).bb = none ∧
      (clean_up_phi 3 0 sPhiVoid).2.readSlot ⟨2, SlotName.s1⟩ = PseudoRef.void) := by
  have hb : ∀ sl ∈ sPhiVoid.usersOf ((sPhiVoid.insnAt 0).target),
      slotInBounds sPhiVoid sl := by
    intro sl hsl
    rw [show sPhiVoid.usersOf ((sPhiVoid.insnAt 0).target) = [⟨2, SlotName.s1⟩]
      from rfl] at hsl
    rw [List.mem_singleton] at hsl
    subst hsl
    exact ⟨by decide, trivial⟩
  have hall : ∀ p ∈ (sPhiVoid.insnAt 0).phiList, p = PseudoRef.void ∨
      sPhiVoid.pseudoDef p = none ∨
      ∃ d, sPhiVoid.pseudoDef p = some d ∧
        ((sPhiVoid.insnAt d).slot1 = PseudoRef.void ∨
          (sPhiVoid.insnAt d).bb = none) := by
    intro p hp
    rw [show (sPhiVoid.insnAt 0).phiList = [PseudoRef.void, PseudoRef.id 0]
      from rfl] at hp
    rcases List.mem_cons.1 hp with rfl | hp2
    · exact Or.inl rfl
    · rw [List.mem_singleton] at hp2
      subst hp2
      exact Or.inr (Or.inr ⟨1, by decide, Or.inl (by decide)⟩)
  have h := clean_up_phi_all_void 3 0 sPhiVoid (by norm_num) ⟨by decide, by decide⟩
    (by decide) (by decide) hb hall
  exact ⟨⟨by norm_num, ⟨by decide, by decide⟩, by decide, by decide⟩,
    h.1, h.2.1, h.2.2 ⟨2, SlotName.s1⟩ (by decide)⟩

/-- Claim C1 refutation — the use-list invariant is NOT preserved by
`simplify_instruction`.  `sFneg` satisfies the invariant (and its def links
are well-formed), but simplifying the dead NEG cascades into killing the
FNEG, and `kill_insn`'s operand-unbinding switch has no case for OP_FNEG
(only OP_NOT and OP_NEG): the FNEG dies with its src1 slot still bound, so
the live REG pseudo `x` keeps a use-list entry pointing into a dead
instruction. -/
theorem simplify_fneg_stale_use :
    (regUseInv sFneg ∧
      (sFneg.insnAt 0).target = PseudoRef.id 1 ∧
      (sFneg.insnAt 1).target = PseudoRef.id 2 ∧
      (sFneg.insnAt 2).target = PseudoRef.id 3) ∧
    ((simplify_instruction 3 2 sFneg).2.liveRegPseudo 1 ∧
      (⟨1, SlotName.s1⟩ : Slot) ∈
        ((simplify_instruction 3 2 sFneg).2.pseudoAt 1).users ∧
      ¬ (simplify_instruction 3 2 sFneg).2.liveInsn 1) ∧
    ¬ regUseInv (simplify_instruction 3 2 sFneg).2 := by
  have hinv : regUseInv sFneg := by
    intro n hn
    rcases hn with ⟨hlt, d, hk, hd⟩
    have h4 : n < 4 := hlt
    rcases (show n = 0 ∨ n = 1 ∨ n = 2 ∨ n = 3 by omega) with rfl | rfl | rfl | rfl
    · rw [show (sFneg.pseudoAt 0).kind = PseudoKind.arg from rfl] at hk
      exact PseudoKind.noConfusion hk
    · refine ⟨by decide, ?_⟩
      intro sl
      constructor
      · intro hmem
        rw [show (sFneg.pseudoAt 1).users = [⟨1, SlotName.s1⟩] from rfl] at hmem
        rw [List.mem_singleton] at hmem
        subst hmem
        exact ⟨⟨by decide, by decide⟩, by decide, by decide⟩
      · rintro ⟨hlv, hopn, hread⟩
        rcases sl with ⟨j, nm⟩
        rw [show (sFneg.pseudoAt 1).users = [⟨1, SlotName.s1⟩] from rfl]
        have hj : j = 0 ∨ j = 1 ∨ j = 2 := by
          have h3 : j < 3 := hlv.1
          omega
        rcases hj with rfl | rfl | rfl
        · rw [show operandSlots (sFneg.insnAt 0) = [SlotName.s1] from rfl] at hopn
          rw [List.mem_singleton] at hopn
          subst hopn
          exact absurd hread (by decide)
        · rw [show operandSlots (sFneg.insnAt 1) = [SlotName.s1] from rfl] at hopn
          rw [List.mem_singleton] at hopn
          subst hopn
          exact List.mem_singleton.2 rfl
        · rw [show operandSlots (sFneg.insnAt 2) = [SlotName.s1] from rfl] at hopn
          rw [List.mem_singleton] at hopn
          subst hopn
          exact absurd hread (by decide)
    · refine ⟨by decide, ?_⟩
      intro sl
      constructor
      · intro hmem
        rw [show (sFneg.pseudoAt 2).users = [⟨2, SlotName.s1⟩] from rfl] at hmem
        rw [List.mem_singleton] at hmem
        subst hmem
        exact ⟨⟨by decide, by decide⟩, by decide, by decide⟩
      · rintro ⟨hlv, hopn, hread⟩
        rcases sl with ⟨j, nm⟩
        rw [show (sFneg.pseudoAt 2).users = [⟨2, SlotName.s1⟩] from rfl]
        have hj : j = 0 ∨ j = 1 ∨ j = 2 := by
          have h3 : j < 3 := hlv.1
          omega
        rcases hj with rfl | rfl | rfl
        · rw [show operandSlots (sFneg.insnAt 0) = [SlotName.s1] from rfl] at hopn
          rw [List.mem_singleton] at hopn
          subst hopn
          exact absurd hread (by decide)
        · rw [show operandSlots (sFneg.insnAt 1) = [SlotName.s1] from rfl] at hopn
          rw [List.mem_singleton] at hopn
          subst hopn
          exact absurd hread (by decide)
        · rw [show operandSlots (sFneg.insnAt 2) = [SlotName.s1] from rfl] at hopn
          rw [List.mem_singleton] at hopn
          subst hopn
          exact List.mem_singleton.2 rfl
    · refine ⟨by decide, ?_⟩
      intro sl
      constructor
      · intro hmem
        rw [show (sFneg.pseudoAt 3).users = [] from rfl] at hmem
        exact absurd hmem (List.not_mem_nil sl)
      · rintro ⟨hlv, hopn, hread⟩
        rcases sl with ⟨j, nm⟩
        have hj : j = 0 ∨ j = 1 ∨ j = 2 := by
          have h3 : j < 3 := hlv.1
          omega
        rcases hj with rfl | rfl | rfl
        · rw [show operandSlots (sFneg.insnAt 0) = [SlotName.s1] from rfl] at hopn
          rw [List.mem_singleton] at hopn
          subst hopn
          exact absurd hread (by decide)
        · rw [show operandSlots (sFneg.insnAt 1) = [SlotName.s1] from rfl] at hopn
          rw [List.mem_singleton] at hopn
          subst hopn
          exact absurd hread (by decide)
        · rw [show operandSlots (sFneg.insnAt 2) = [SlotName.s1] from rfl] at hopn
          rw [List.mem_singleton] at hopn
          subst hopn
          exact absurd hread (by decide)
  have hlive1 : (simplify_instruction 3 2 sFneg).2.liveRegPseudo 1 :=
    ⟨by decide, 0, by decide, by decide, by decide⟩
  refine ⟨⟨hinv, by decide, by decide, by decide⟩,
    ⟨hlive1, by decide, fun h => h.2 (by decide)⟩, ?_⟩
  intro h
  have h1 := h 1 hlive1
  have h2 := (h1.2 ⟨1, SlotName.s1⟩).1 (by decide)
  exact h2.1.2 (by decide)

end Sparse
